import Mathlib

/-!
# The allkrann driver and the neighbour-search engine

A verification development for two files of the repository:

* `src/mlpack/methods/rann/allkrann_main.cpp`, the command-line driver of the
  rank-approximate nearest-neighbour search;
* `src/mlpack/methods/neighbor_search/allkfn_test.cc`, the test-suite of the
  furthest-neighbour search.

The driver is embedded as a function from the command line and the number of
columns of the loaded reference matrix to the sequence of calls it makes to its
collaborators (loader, tree builder, searcher, remapper, saver) together with
the fatal error, if any, that ended the run.

Conventions of the embedding:

* `int` parameters are integers in the range of a 32-bit `int`; `size_t` is
  the naturals below `2 ^ 64` and the conversion `int → size_t` is reduction
  modulo `2 ^ 64`;
* a `double` option holds the decimal value given on the command line (or
  declared as its default); the arithmetic the driver does on it (lines
  130-131) is binary64 arithmetic: the decimal is converted to the nearest
  binary64 value and every operation rounds to nearest, ties to even.
-/

namespace Allkrann

/-! ## Command line -/

/-- The options of the program as they appear on the command line.  The two
required options always carry a value; an optional one is `none` when it was
not given; a flag is `true` when it was given. -/
structure CommandLine where
  reference_file : String
  k : Int
  distances_file : Option String
  neighbors_file : Option String
  query_file : Option String
  tau : Option ℚ
  alpha : Option ℚ
  leaf_size : Option Int
  naive : Bool
  single_mode : Bool
  sample_at_leaves : Bool
  first_leaf_exact : Bool
  single_sample_limit : Option Int
  deriving DecidableEq

/-- `CLI::GetParam<T>(name)` for an optional parameter declared with default
value `dflt` (the last argument of `PARAM_STRING`, `PARAM_DOUBLE`,
`PARAM_INT`): the value given on the command line, else the default. -/
def GetParam {α : Type} (given : Option α) (dflt : α) : α :=
  given.getD dflt

/-- `CLI::HasParam(name)`: whether the option was given on the command line. -/
def HasParam {α : Type} (given : Option α) : Bool :=
  given.isSome

/-- Conversion of an `int` to the unsigned 64-bit `size_t`. -/
def toSizeT (i : Int) : Nat :=
  (i % 2 ^ 64).toNat

/-- The values an `int` can take. -/
def IsInt32 (i : Int) : Prop :=
  -(2 ^ 31) ≤ i ∧ i < 2 ^ 31

instance (i : Int) : Decidable (IsInt32 i) := by
  unfold IsInt32; infer_instance

/-- A command line the parser can deliver: every `int` option is a 32-bit
integer. -/
def CommandLine.WellFormed (cl : CommandLine) : Prop :=
  IsInt32 cl.k ∧ IsInt32 (GetParam cl.leaf_size 20) ∧
    IsInt32 (GetParam cl.single_sample_limit 20)

instance (cl : CommandLine) : Decidable cl.WellFormed := by
  unfold CommandLine.WellFormed; infer_instance

/-! ## Calls and outcome of a run -/

/-- The three configuration errors the driver reports through `Log::Fatal`. -/
inductive FatalError where
  | invalidK (k n : Nat)
  | invalidTauK (tau : ℚ) (k : Nat)
  | invalidLeafSize (lsInt : Int)
  deriving DecidableEq, Repr

/-- The calls `main` makes to its collaborators, in the order of the source. -/
inductive Action where
  /-- `data::Load(referenceFile, referenceData, true)` -/
  | loadReference (file : String)
  /-- `data::Load(queryFile, queryData, true)` -/
  | loadQuery (file : String)
  /-- `Log::Warn << "--single_mode ignored because --naive is present."` -/
  | warnSingleModeIgnored
  /-- `AllkRANN allkrann(referenceData, naive, false, tau, alpha)` -/
  | constructNaive (naiveArg singleModeArg : Bool) (tau alpha : ℚ)
  /-- `TreeType refTree(referenceData, oldFromNewRefs, leafSize)` -/
  | buildRefTree (leafSize : Nat)
  /-- `AllkRANN allkrann(&refTree, singleMode, tau, alpha, sampleAtLeaves,
  firstLeafExact, singleSampleLimit)` -/
  | constructTree (singleMode : Bool) (tau alpha : ℚ)
      (sampleAtLeaves firstLeafExact : Bool) (singleSampleLimit : Nat)
  /-- `TreeType queryTree(queryData, oldFromNewQueries, leafSize)` -/
  | buildQueryTree (leafSize : Nat)
  /-- `allkrann.Search(&queryTree, k, ...)` -/
  | searchQueryTree (k : Nat)
  /-- `allkrann.Search(queryData, k, ...)` -/
  | searchQueryData (k : Nat)
  /-- `allkrann.Search(k, ...)` -/
  | searchReference (k : Nat)
  /-- `Unmap(neighborsOut, distancesOut, oldFromNewRefs, oldFromNewQueries,
  neighbors, distances)` -/
  | unmapRefsQueries
  /-- `Unmap(neighborsOut, distancesOut, oldFromNewRefs, neighbors,
  distances)` -/
  | unmapRefs
  /-- `Unmap(neighborsOut, distancesOut, oldFromNewRefs, oldFromNewRefs,
  neighbors, distances)` -/
  | unmapRefsRefs
  /-- `data::Save(distancesFile, distances)` -/
  | saveDistances (file : String)
  /-- `data::Save(neighborsFile, neighbors)` -/
  | saveNeighbors (file : String)
  deriving DecidableEq, Repr

/-- A tree is built by this call. -/
def Action.isTreeBuild : Action → Bool
  | .buildRefTree _ => true
  | .buildQueryTree _ => true
  | _ => false

/-- A searcher is constructed by this call. -/
def Action.isConstruct : Action → Bool
  | .constructNaive _ _ _ _ => true
  | .constructTree _ _ _ _ _ _ => true
  | _ => false

/-- A `Search` is run by this call. -/
def Action.isSearch : Action → Bool
  | .searchQueryTree _ => true
  | .searchQueryData _ => true
  | .searchReference _ => true
  | _ => false

/-- The results are remapped by this call. -/
def Action.isUnmap : Action → Bool
  | .unmapRefsQueries => true
  | .unmapRefs => true
  | .unmapRefsRefs => true
  | _ => false

/-- A warning is logged by this call. -/
def Action.isWarning : Action → Bool
  | .warnSingleModeIgnored => true
  | _ => false

/-- A run of the driver: the calls made, oldest first, and the fatal error
that ended it (`none` when `main` ran to its end). -/
structure Run where
  actions : List Action
  fatal : Option FatalError
  deriving DecidableEq, Repr

/-- Modelled from the spec: the logging stream `Log::Fatal` (declared in
`mlpack/core.hpp`, which is not part of the sources at hand).  A configuration
error is "reported to the caller and the run aborted": the run ends with the
calls made so far and makes no further call. -/
def Fatal (done : List Action) (e : FatalError) : Run :=
  { actions := done, fatal := some e }

/-- Modelled from the spec: the loader `data::Load` (`mlpack/core.hpp`, not
among the sources at hand), to which data errors, "malformed or missing input
files", are left.  It is called with its fatal flag set (line 122:
`data::Load(queryFile, queryData, true)`), so it returns only when the file
was read, and the empty string names no file: a run that went past line 122
did not load a query file of the empty name.  `main` lists the calls of the
run in which every load returns. -/
def Run.PastQueryLoad (r : Run) : Prop :=
  Action.loadQuery "" ∉ r.actions

instance (r : Run) : Decidable r.PastQueryLoad := by
  unfold Run.PastQueryLoad; infer_instance

/-! ## The driver -/

/-! ### Binary64 arithmetic -/

/-- The number of binary digits of `n`, by halving; `fuel` bounds the number
of halvings. -/
def bitLengthAux : Nat → Nat → Nat
  | 0, _ => 0
  | fuel + 1, n => if n = 0 then 0 else bitLengthAux fuel (n / 2) + 1

/-- The number of binary digits of `n`: 0 for 0, and `b` when
`2 ^ (b - 1) ≤ n < 2 ^ b`. -/
def bitLength (n : Nat) : Nat :=
  bitLengthAux n n

/-- The binary exponent of a rational `x ≠ 0`: the integer `e` with
`2 ^ e ≤ |x| < 2 ^ (e + 1)`.  The difference of the bit lengths of numerator
and denominator is `e` or `e + 1`. -/
def floorLog2 (x : ℚ) : Int :=
  if (2 : ℚ) ^ ((bitLength x.num.natAbs : Int) - bitLength x.den) ≤ |x| then
    (bitLength x.num.natAbs : Int) - bitLength x.den
  else (bitLength x.num.natAbs : Int) - bitLength x.den - 1

/-- The exponent of the unit in the last place of the binary64 values next to
`x`: a binary64 value has a significand of 53 bits, and no exponent below that
of the subnormal values, -1074. -/
def ulpExponent (x : ℚ) : Int :=
  max (floorLog2 x - 52) (-1074)

/-- The integer nearest to `m`; of two nearest integers the even one. -/
def roundHalfEven (m : ℚ) : Int :=
  if m - ⌊m⌋ < 1 / 2 then ⌊m⌋
  else if 1 / 2 < m - ⌊m⌋ then ⌊m⌋ + 1
  else if ⌊m⌋ % 2 = 0 then ⌊m⌋ else ⌊m⌋ + 1

/-- The binary64 value nearest to `x`, ties to even: the rounding of the
conversion of a decimal or of an integer to `double` and of every operation on
`double`s.  Overflow is not modelled: where binary64 arithmetic gives an
infinity the embedding gives a value of `2 ^ 1024` or more in absolute value,
and both are outside the range of `size_t`. -/
def roundToDouble (x : ℚ) : ℚ :=
  if x = 0 then 0
  else (roundHalfEven (x / 2 ^ ulpExponent x) : ℚ) * 2 ^ ulpExponent x

/-- A binary64 value that is not negative: a significand of at most 53 bits
times a power of two of exponent -1074 or more. -/
def IsNonnegDouble (x : ℚ) : Prop :=
  ∃ (m : Nat) (e : Int), m ≤ 2 ^ 53 ∧ -1074 ≤ e ∧ x = (m : ℚ) * 2 ^ e

/-- The conversion `(size_t) d` of a `double` with the integral value `c`.
It is defined for `-1 < d < 2 ^ 64`, where it gives `c`.  Outside that range
C++ leaves the conversion undefined; the embedding gives what the x86-64
conversion `cvttsd2si`, to which gcc compiles the cast, gives: `c + 2 ^ 64`
for `-2 ^ 63 ≤ c < 0`, `2 ^ 63` below that and 0 from `2 ^ 64` on. -/
def castToSizeT (c : Int) : Nat :=
  if 0 ≤ c ∧ c < 2 ^ 64 then c.toNat
  else if -(2 ^ 63) ≤ c ∧ c < 0 then (c + 2 ^ 64).toNat
  else if c < 0 then 2 ^ 63
  else 0

/-- The rank-error budget of lines 130-131:
`(size_t) ceil(tau * (double) referenceData.n_cols / 100.0)`, in binary64
arithmetic: `tau` is the `double` nearest to the decimal given, the number of
columns is converted to `double`, the product and the quotient are rounded,
the ceiling is exact. -/
def rank_error (tau : ℚ) (n_cols : Nat) : Nat :=
  castToSizeT ⌈roundToDouble
    (roundToDouble (roundToDouble tau * roundToDouble (n_cols : ℚ)) / 100)⌉

/-- The search and remapping of the tree-based branch (lines 164-228). -/
def treeBranch (cl : CommandLine) (k leafSize : Nat) : List Action :=
  let singleMode := cl.single_mode
  let tau := GetParam cl.tau 5
  let alpha := GetParam cl.alpha 0.95
  let sampleAtLeaves := cl.sample_at_leaves
  let firstLeafExact := cl.first_leaf_exact
  let singleSampleLimit := toSizeT (GetParam cl.single_sample_limit 20)
  let build := [Action.buildRefTree leafSize,
    Action.constructTree singleMode tau alpha sampleAtLeaves firstLeafExact
      singleSampleLimit]
  let search :=
    if HasParam cl.query_file && !singleMode then
      [Action.buildQueryTree leafSize, Action.searchQueryTree k]
    else if HasParam cl.query_file && singleMode then
      [Action.searchQueryData k]
    else
      [Action.searchReference k]
  let unmap :=
    if (GetParam cl.query_file "" != "") && !singleMode then
      [Action.unmapRefsQueries]
    else if (GetParam cl.query_file "" != "") && singleMode then
      [Action.unmapRefs]
    else
      [Action.unmapRefsRefs]
  build ++ search ++ unmap

/-- The search of the naive branch (lines 150-163). -/
def naiveBranch (cl : CommandLine) (k : Nat) : List Action :=
  let tau := GetParam cl.tau 5
  let alpha := GetParam cl.alpha 0.95
  let search :=
    if GetParam cl.query_file "" != "" then
      [Action.searchQueryData k]
    else
      [Action.searchReference k]
  Action.constructNaive cl.naive false tau alpha :: search

/-- The output step (lines 230-234). -/
def saveOutput (cl : CommandLine) : List Action :=
  let distancesFile := GetParam cl.distances_file ""
  let neighborsFile := GetParam cl.neighbors_file ""
  (if distancesFile != "" then [Action.saveDistances distancesFile] else []) ++
    (if neighborsFile != "" then [Action.saveNeighbors neighborsFile] else [])

/-- The function `main` of `allkrann_main.cpp`, run on a command line and a
reference file whose matrix has `n_cols` columns (points).  The loads are
listed as calls that return: the run in which a file cannot be read ends in
the loader, which is not among the sources at hand. -/
def main (cl : CommandLine) (n_cols : Nat) : Run :=
  let referenceFile := cl.reference_file
  let lsInt := GetParam cl.leaf_size 20
  let k := toSizeT cl.k
  let tau := GetParam cl.tau 5
  let naive := cl.naive
  let singleMode := cl.single_mode
  let loaded := [Action.loadReference referenceFile]
  -- Sanity check on k value.
  if k > n_cols then
    Fatal loaded (.invalidK k n_cols)
  else
  -- Load query data, if necessary.
  let loaded :=
    if HasParam cl.query_file then
      loaded ++ [Action.loadQuery (GetParam cl.query_file "")]
    else loaded
  -- Sanity check on the value of tau with respect to k.
  if rank_error tau n_cols ≤ k then
    Fatal loaded (.invalidTauK tau k)
  else
  -- Sanity check on leaf size.
  if lsInt < 0 then
    Fatal loaded (.invalidLeafSize lsInt)
  else
  let leafSize := toSizeT lsInt
  -- Naive mode overrides single mode.
  let warned :=
    if singleMode && naive then loaded ++ [Action.warnSingleModeIgnored]
    else loaded
  let searched :=
    if naive then warned ++ naiveBranch cl k
    else warned ++ treeBranch cl k leafSize
  { actions := searched ++ saveOutput cl, fatal := none }

/-- The command line `allkrann -k <k> -r <file>` with no other option. -/
def minimalCommandLine (file : String) (k : Int) : CommandLine :=
  { reference_file := file, k := k, distances_file := none,
    neighbors_file := none, query_file := none, tau := none, alpha := none,
    leaf_size := none, naive := false, single_mode := false,
    sample_at_leaves := false, first_leaf_exact := false,
    single_sample_limit := none }

/-- The example of the program's help text: `allkrann -k 5 -r input.csv
-d distances.csv -n neighbors.csv --tau 0.1`. -/
def helpExample : CommandLine :=
  { minimalCommandLine "input.csv" 5 with
    distances_file := some "distances.csv",
    neighbors_file := some "neighbors.csv",
    tau := some 0.1 }

end Allkrann

/-!
# The neighbour-search engine

`allkfn_test.cc` exercises the class `AllkFN` (`neighbor_search.h`), whose
code is not among the sources at hand: only its test is.  The engine is
therefore embedded from its specification; the embedding follows the
specification's components (`SortPolicy`, `CandidateSet`, `NodeBound`,
`NaiveSearch`, `SingleTreeSearch`, `DualTreeSearch`, `IndexRemapper`), and the
layout of the output follows the table the test expects.  Coordinates and
distances are exact rationals.
-/

namespace NeighborSearch

/-! ## Data model -/

/-- Modelled from the spec: a point is a D-dimensional coordinate vector
(a column of the data matrix of `neighbor_search.h`). -/
abbrev Point := List ℚ

/-- Modelled from the spec: a dataset is an ordered collection of points; the
position of a point is its index. -/
abbrev Dataset := List Point

/-- Modelled from the spec: the distance primitive of the engine (the metric
of `neighbor_search.h`), "squared Euclidean". -/
def distance (p q : Point) : ℚ :=
  (List.zipWith (fun a b => (a - b) ^ 2) p q).sum

/-- Modelled from the spec: the two variants of the sort policy of
`neighbor_search.h`. -/
inductive SortPolicy where
  | NearestNeighborSort
  | FurthestNeighborSort
  deriving DecidableEq, Repr

/-- Modelled from the spec: `betterThan(d1, d2)` of the sort policy, smaller
is better for nearest search and larger is better for furthest search. -/
def SortPolicy.betterThan : SortPolicy → ℚ → ℚ → Bool
  | .NearestNeighborSort, d1, d2 => decide (d1 < d2)
  | .FurthestNeighborSort, d1, d2 => decide (d2 < d1)

/-- Modelled from the spec: an entry of a candidate set of
`neighbor_search.h`, a (distance, reference-index) pair. -/
structure Candidate where
  distance : ℚ
  index : Nat
  deriving DecidableEq, Repr

/-- Modelled from the spec: the candidate set of one query point, an "ordered
sequence of up to k (distance, reference-index) pairs", best entry first. -/
abbrev CandidateSet := List Candidate

/-- Modelled from the spec: the order of the entries of a candidate set of
`neighbor_search.h`, the sort policy's comparison of the distances with "ties
in distance broken by index order (lower original index wins ties)".
`originalIndex` gives the original index of a reference index. -/
def ranksBefore (s : SortPolicy) (originalIndex : Nat → Nat)
    (a b : Candidate) : Bool :=
  s.betterThan a.distance b.distance ||
    (a.distance == b.distance &&
      decide (originalIndex a.index < originalIndex b.index))

/-- Modelled from the spec: "insertion at the correct rank" into a candidate
set of `neighbor_search.h`. -/
def insertAtRank (s : SortPolicy) (originalIndex : Nat → Nat) (c : Candidate) :
    CandidateSet → CandidateSet
  | [] => [c]
  | x :: xs =>
    if ranksBefore s originalIndex c x then c :: x :: xs
    else x :: insertAtRank s originalIndex c xs

/-- Modelled from the spec: `worst()` of a candidate set of
`neighbor_search.h`, the last entry once `k` entries are present; it "fails"
(`none`) "when fewer than k entries are present". -/
def worst (k : Nat) (cs : CandidateSet) : Option Candidate :=
  if cs.length < k then none else cs.getLast?

/-- Modelled from the spec: `tryInsert(distance, index) -> bool` of a
candidate set of `neighbor_search.h`.  The pair is accepted when the "list
[is] not yet full, or [it is] strictly better than current worst", where a tie
in distance with the worst entry is won by the lower original index; it then
goes to its rank, and "the prior worst entry" is evicted "if already at
capacity k".  The result is the new set and whether the pair was accepted. -/
def tryInsert (s : SortPolicy) (originalIndex : Nat → Nat) (k : Nat)
    (cs : CandidateSet) (d : ℚ) (i : Nat) : CandidateSet × Bool :=
  if cs.length < k then
    (insertAtRank s originalIndex ⟨d, i⟩ cs, true)
  else
    match worst k cs with
    | none => (cs, false)
    | some w =>
      if ranksBefore s originalIndex ⟨d, i⟩ w then
        ((insertAtRank s originalIndex ⟨d, i⟩ cs).dropLast, true)
      else (cs, false)

/-! ## Trees and bounds -/

/-- Modelled from the spec: the bounding region of a tree node of the tree
builder, an axis-aligned hyper-rectangle given by its interval (low, high) in
every dimension. -/
abbrev BoundingRegion := List (ℚ × ℚ)

/-- The point `p` lies in the region. -/
def BoundingRegion.Contains (b : BoundingRegion) (p : Point) : Prop :=
  b.length = p.length ∧
    ∀ x ∈ List.zip b p, x.1.1 ≤ x.2 ∧ x.2 ≤ x.1.2

instance (b : BoundingRegion) (p : Point) : Decidable (b.Contains p) := by
  unfold BoundingRegion.Contains; infer_instance

/-- The region that holds the one point `q`. -/
def pointRegion (q : Point) : BoundingRegion :=
  q.map (fun x => (x, x))

/-- Modelled from the spec: the node-pair bound of `neighbor_search.h`, "a
lower bound for nearest search (minimum distance from query to the bounding
region) or an upper bound for furthest search (maximum distance from query to
the farthest corner of the bounding region)", between the region of the query
side and the region of a reference node; squared, as the distances are. -/
def NodeBound (s : SortPolicy) (query reference : BoundingRegion) : ℚ :=
  match s with
  | .NearestNeighborSort =>
    (List.zipWith (fun (a b : ℚ × ℚ) =>
      (max 0 (max (a.1 - b.2) (b.1 - a.2))) ^ 2) query reference).sum
  | .FurthestNeighborSort =>
    (List.zipWith (fun (a b : ℚ × ℚ) =>
      (max |a.2 - b.1| |b.2 - a.1|) ^ 2) query reference).sum

/-- Modelled from the spec: a tree node of the tree builder, "a contiguous
range [start, start+count) of a dataset's points" with its bounding region and
"either zero children (leaf) or exactly two (internal)". -/
inductive TreeNode where
  | leaf (start count : Nat) (bound : BoundingRegion)
  | node (start count : Nat) (bound : BoundingRegion) (left right : TreeNode)
  deriving Repr

/-- First point of the node's range. -/
def TreeNode.start : TreeNode → Nat
  | .leaf start _ _ => start
  | .node start _ _ _ _ => start

/-- Number of points of the node's range. -/
def TreeNode.count : TreeNode → Nat
  | .leaf _ count _ => count
  | .node _ count _ _ _ => count

/-- Bounding region of the node. -/
def TreeNode.bound : TreeNode → BoundingRegion
  | .leaf _ _ bound => bound
  | .node _ _ bound _ _ => bound

/-- The tree indices of the node's range. -/
def TreeNode.range (t : TreeNode) : List Nat :=
  List.range' t.start t.count

/-- Modelled from the spec: the invariants of a tree of the tree builder over
the points `data` (in tree order): the bounding region of a node "contains all
points in its range" and the "point ranges of the two children partition the
parent's range without overlap". -/
def TreeNode.WellFormed (data : Dataset) : TreeNode → Prop
  | .leaf start count bound =>
    ∀ t ∈ List.range' start count, bound.Contains (data.getD t [])
  | .node start count bound left right =>
    (∀ t ∈ List.range' start count, bound.Contains (data.getD t [])) ∧
    left.start = start ∧ right.start = start + left.count ∧
    left.count + right.count = count ∧
    left.WellFormed data ∧ right.WellFormed data

/-- Well-formedness of a tree can be checked. -/
def TreeNode.decidableWellFormed (data : Dataset) :
    (t : TreeNode) → Decidable (t.WellFormed data)
  | .leaf _ _ _ => by unfold TreeNode.WellFormed; infer_instance
  | .node _ _ _ l r => by
    have := TreeNode.decidableWellFormed data l
    have := TreeNode.decidableWellFormed data r
    unfold TreeNode.WellFormed; infer_instance

instance (data : Dataset) (t : TreeNode) : Decidable (t.WellFormed data) :=
  TreeNode.decidableWellFormed data t

/-- Modelled from the spec: what the tree builder hands to the engine, "an
already-built tree and its permutation mapping": the points in tree order, the
root, and the original index of every tree index. -/
structure BuiltTree where
  data : Dataset
  root : TreeNode
  oldFromNew : List Nat
  deriving Repr

/-- Original index of a tree index. -/
def BuiltTree.originalIndex (t : BuiltTree) (i : Nat) : Nat :=
  t.oldFromNew.getD i i

/-- The built tree is a tree over the dataset `points`: `oldFromNew` is a
permutation of the indices, the data are the points in that order, the root
spans all of them and the tree is well-formed. -/
def BuiltTree.IsTreeOf (t : BuiltTree) (points : Dataset) : Prop :=
  t.oldFromNew.Perm (List.range points.length) ∧
  t.data = t.oldFromNew.map (fun i => points.getD i []) ∧
  t.root.start = 0 ∧ t.root.count = points.length ∧
  t.root.WellFormed t.data

instance (t : BuiltTree) (points : Dataset) : Decidable (t.IsTreeOf points) := by
  unfold BuiltTree.IsTreeOf; infer_instance

/-! ## The searches -/

/-- Modelled from the spec: the comparison of one query point against the
reference points `indices` ("compute distance, `tryInsert` into the query's
CandidateSet"), the base case of `neighbor_search.h`. -/
def visitPoints (s : SortPolicy) (originalIndex : Nat → Nat) (k : Nat)
    (references : Dataset) (q : Point) (indices : List Nat)
    (cs : CandidateSet) : CandidateSet :=
  indices.foldl
    (fun cs i =>
      (tryInsert s originalIndex k cs (distance q (references.getD i [])) i).1)
    cs

/-- Modelled from the spec: NaiveSearch of `neighbor_search.h`, "for every
(query, reference) pair, compute distance, `tryInsert` into the query's
CandidateSet".  The result has one candidate set per query. -/
def NaiveSearch (s : SortPolicy) (k : Nat) (queries references : Dataset) :
    List CandidateSet :=
  queries.map (fun q =>
    visitPoints s id k references q (List.range references.length) [])

/-- Modelled from the spec: the pruning rule of `neighbor_search.h`, "a
reference node may be skipped for a query iff the computed bound is never
better than the current worst candidate distance"; "an under-full set [is]
cannot yet prune". -/
def prunable (s : SortPolicy) (k : Nat) (bound : ℚ) (cs : CandidateSet) :
    Bool :=
  match worst k cs with
  | none => false
  | some w => !s.betterThan bound w.distance

/-- Modelled from the spec: SingleTreeSearch of `neighbor_search.h`,
"depth-first branch-and-bound over the reference tree for one query point": a
prunable node is left; a leaf is compared point by point; of an internal node
"the child whose bound is better" is visited first (the left one when neither
is better). -/
def SingleTreeSearch (s : SortPolicy) (originalIndex : Nat → Nat) (k : Nat)
    (references : Dataset) (q : Point) :
    TreeNode → CandidateSet → CandidateSet
  | .leaf start count bound, cs =>
    if prunable s k (NodeBound s (pointRegion q) bound) cs then cs
    else visitPoints s originalIndex k references q (List.range' start count) cs
  | .node _ _ bound left right, cs =>
    if prunable s k (NodeBound s (pointRegion q) bound) cs then cs
    else if s.betterThan (NodeBound s (pointRegion q) right.bound)
        (NodeBound s (pointRegion q) left.bound) then
      SingleTreeSearch s originalIndex k references q left
        (SingleTreeSearch s originalIndex k references q right cs)
    else
      SingleTreeSearch s originalIndex k references q right
        (SingleTreeSearch s originalIndex k references q left cs)

/-- Modelled from the spec: the pruning rule of `neighbor_search.h` for a
query node, "prune only if no query point in the subtree could possibly
improve": the bound is compared with the worst candidate of every query point
of the node.  `sets` gives the candidate set of every query index. -/
def dualPrunable (s : SortPolicy) (k : Nat) (query reference : TreeNode)
    (sets : Nat → CandidateSet) : Bool :=
  query.range.all (fun t =>
    prunable s k (NodeBound s query.bound reference.bound) (sets t))

/-- Modelled from the spec: the base case of DualTreeSearch of
`neighbor_search.h`, "pairwise comparison of every query point in the query
leaf against every reference point in the reference leaf". -/
def dualBaseCase (s : SortPolicy) (originalIndex : Nat → Nat) (k : Nat)
    (queries references : Dataset) (query reference : TreeNode)
    (sets : Nat → CandidateSet) : Nat → CandidateSet :=
  fun t =>
    if query.start ≤ t ∧ t < query.start + query.count then
      visitPoints s originalIndex k references (queries.getD t [])
        reference.range (sets t)
    else sets t

/-- Modelled from the spec: DualTreeSearch of `neighbor_search.h` below a
query leaf: a prunable pair is left, a pair of leaves is the base case, and
the children of an internal reference node are visited "in best-bound-first
order". -/
def DualTreeSearchLeaf (s : SortPolicy) (originalIndex : Nat → Nat) (k : Nat)
    (queries references : Dataset) (query : TreeNode) :
    TreeNode → (Nat → CandidateSet) → Nat → CandidateSet
  | .leaf start count bound, sets =>
    if dualPrunable s k query (.leaf start count bound) sets then sets
    else dualBaseCase s originalIndex k queries references query
      (.leaf start count bound) sets
  | .node start count bound left right, sets =>
    if dualPrunable s k query (.node start count bound left right) sets then
      sets
    else if s.betterThan (NodeBound s query.bound right.bound)
        (NodeBound s query.bound left.bound) then
      DualTreeSearchLeaf s originalIndex k queries references query left
        (DualTreeSearchLeaf s originalIndex k queries references query right
          sets)
    else
      DualTreeSearchLeaf s originalIndex k queries references query right
        (DualTreeSearchLeaf s originalIndex k queries references query left
          sets)

/-- Modelled from the spec: DualTreeSearch of `neighbor_search.h`, "recursive
branch-and-bound over a (query-node, reference-node) pair": a prunable pair is
left "without descending into the query side at all"; otherwise the search
descends, into both sides when both nodes are internal, and for every query
child visits the reference children "in best-bound-first order". -/
def DualTreeSearch (s : SortPolicy) (originalIndex : Nat → Nat) (k : Nat)
    (queries references : Dataset) :
    TreeNode → TreeNode → (Nat → CandidateSet) → Nat → CandidateSet
  | .leaf start count bound, reference, sets =>
    DualTreeSearchLeaf s originalIndex k queries references
      (.leaf start count bound) reference sets
  | .node start count bound left right, reference, sets =>
    if dualPrunable s k (.node start count bound left right) reference sets
    then sets
    else
      match reference with
      | .leaf rstart rcount rbound =>
        DualTreeSearch s originalIndex k queries references right
          (.leaf rstart rcount rbound)
          (DualTreeSearch s originalIndex k queries references left
            (.leaf rstart rcount rbound) sets)
      | .node _ _ _ rleft rright =>
        let afterLeft :=
          if s.betterThan (NodeBound s left.bound rright.bound)
              (NodeBound s left.bound rleft.bound) then
            DualTreeSearch s originalIndex k queries references left rleft
              (DualTreeSearch s originalIndex k queries references left rright
                sets)
          else
            DualTreeSearch s originalIndex k queries references left rright
              (DualTreeSearch s originalIndex k queries references left rleft
                sets)
        if s.betterThan (NodeBound s right.bound rright.bound)
            (NodeBound s right.bound rleft.bound) then
          DualTreeSearch s originalIndex k queries references right rleft
            (DualTreeSearch s originalIndex k queries references right rright
              afterLeft)
        else
          DualTreeSearch s originalIndex k queries references right rright
            (DualTreeSearch s originalIndex k queries references right rleft
              afterLeft)

/-! ## Remapping and the modes of `ComputeNeighbors` -/

/-- Modelled from the spec: the IndexRemapper (`Unmap` of `unmap.hpp`) applied
to one column, every reference index is replaced by its original index. -/
def unmapColumn (oldFromNewRefs : List Nat) (cs : CandidateSet) :
    CandidateSet :=
  cs.map (fun c => { c with index := oldFromNewRefs.getD c.index c.index })

/-- Modelled from the spec: the IndexRemapper (`Unmap` of `unmap.hpp`) with
the reference mapping only: the columns stay in place. -/
def UnmapRefs (out : List CandidateSet) (oldFromNewRefs : List Nat) :
    List CandidateSet :=
  out.map (unmapColumn oldFromNewRefs)

/-- Modelled from the spec: the IndexRemapper (`Unmap` of `unmap.hpp`) with
both mappings: column `oldFromNewQueries[t]` of the result is the remapped
column `t` of the search output. -/
def Unmap (out : List CandidateSet) (oldFromNewRefs oldFromNewQueries : List Nat) :
    List CandidateSet :=
  (List.range out.length).map (fun j =>
    unmapColumn oldFromNewRefs (out.getD (oldFromNewQueries.indexOf j) []))

/-- Modelled from the spec: `ComputeNeighbors` of `neighbor_search.h` in
naive mode, on the raw matrices. -/
def ComputeNeighborsNaive (s : SortPolicy) (k : Nat)
    (queries references : Dataset) : List CandidateSet :=
  NaiveSearch s k queries references

/-- Modelled from the spec: `ComputeNeighbors` of `neighbor_search.h` in
single-tree mode with a separate query set, which is searched in its given
order. -/
def ComputeNeighborsSingle (s : SortPolicy) (k : Nat) (queries : Dataset)
    (refTree : BuiltTree) : List CandidateSet :=
  UnmapRefs
    (queries.map (fun q =>
      SingleTreeSearch s refTree.originalIndex k refTree.data q refTree.root []))
    refTree.oldFromNew

/-- Modelled from the spec: `ComputeNeighbors` of `neighbor_search.h` in
single-tree mode when "the reference set serves as its own query set": the
queries are the points of the tree, in tree order. -/
def ComputeNeighborsSingleSelf (s : SortPolicy) (k : Nat)
    (refTree : BuiltTree) : List CandidateSet :=
  Unmap
    (refTree.data.map (fun q =>
      SingleTreeSearch s refTree.originalIndex k refTree.data q refTree.root []))
    refTree.oldFromNew refTree.oldFromNew

/-- Modelled from the spec: `ComputeNeighbors` of `neighbor_search.h` in
dual-tree mode with a separate query set: the "base call pairs the query
tree's root with the reference tree's root". -/
def ComputeNeighborsDual (s : SortPolicy) (k : Nat)
    (queryTree refTree : BuiltTree) : List CandidateSet :=
  Unmap
    ((List.range queryTree.data.length).map
      (DualTreeSearch s refTree.originalIndex k queryTree.data refTree.data
        queryTree.root refTree.root (fun _ => [])))
    refTree.oldFromNew queryTree.oldFromNew

/-- Modelled from the spec: `ComputeNeighbors` of `neighbor_search.h` in
dual-tree mode when the reference set is its own query set: the base call
pairs "the single tree with itself". -/
def ComputeNeighborsDualSelf (s : SortPolicy) (k : Nat) (refTree : BuiltTree) :
    List CandidateSet :=
  ComputeNeighborsDual s k refTree refTree

/-- Modelled from the spec: the output matrix `neighbors` of
`ComputeNeighbors` (`neighbor_search.h`).  Column `j` lists, row 0 first, the
indices of the candidate set of query `j` in the order of the set, best first:
the order `exhaustive_synthetic_test` requires (`neighbors(0, 0) == 4`, the
furthest point from point 0). -/
def neighbors (out : List CandidateSet) : List (List Nat) :=
  out.map (fun cs => cs.map Candidate.index)

/-- Modelled from the spec: the output matrix `distances` of
`ComputeNeighbors` (`neighbor_search.h`), laid out as `neighbors` is; the
entries are squared distances, as `exhaustive_synthetic_test` requires. -/
def distances (out : List CandidateSet) : List (List ℚ) :=
  out.map (fun cs => cs.map Candidate.distance)

/-! ## The data of the test and of the examples -/

/-- The eleven one-dimensional points of `exhaustive_synthetic_test`
(`allkfn_test.cc`, lines 25-36). -/
def exhaustiveData : Dataset :=
  [[0.05], [0.35], [0.15], [1.25], [5.05], [-0.22], [-2.00], [-1.30], [0.45], [0.90], [1.00]]

/-- The neighbour indices `exhaustive_synthetic_test` requires (lines 69-309):
column `j` lists `neighbors(0, j)`, ..., `neighbors(9, j)`. -/
def expectedNeighbors : List (List Nat) :=
  [
   [4, 6, 7, 3, 10, 9, 8, 1, 5, 2],
   [4, 6, 7, 3, 10, 5, 9, 0, 2, 8],
   [4, 6, 7, 3, 10, 9, 5, 8, 1, 0],
   [4, 6, 7, 5, 0, 2, 1, 8, 9, 10],
   [6, 7, 5, 0, 2, 1, 8, 9, 10, 3],
   [4, 6, 3, 10, 9, 7, 8, 1, 2, 0],
   [4, 3, 10, 9, 8, 1, 2, 0, 5, 7],
   [4, 3, 10, 9, 8, 1, 2, 0, 5, 6],
   [4, 6, 7, 3, 5, 10, 9, 0, 2, 1],
   [4, 6, 7, 5, 0, 2, 1, 8, 3, 10],
   [4, 6, 7, 5, 0, 2, 1, 8, 3, 9]]

/-- The distances `exhaustive_synthetic_test` requires (lines 69-309), each
written as the square the test writes: column `j` lists `distances(0, j)`,
..., `distances(9, j)`. -/
def expectedDistances : List (List ℚ) :=
  [
   [5.00 * 5.00, 2.05 * 2.05, 1.35 * 1.35, 1.20 * 1.20, 0.95 * 0.95, 0.85 * 0.85, 0.40 * 0.40, 0.30 * 0.30, 0.27 * 0.27, 0.10 * 0.10],
   [4.70 * 4.70, 2.35 * 2.35, 1.65 * 1.65, 0.90 * 0.90, 0.65 * 0.65, 0.57 * 0.57, 0.55 * 0.55, 0.30 * 0.30, 0.20 * 0.20, 0.10 * 0.10],
   [4.90 * 4.90, 2.15 * 2.15, 1.45 * 1.45, 1.10 * 1.10, 0.85 * 0.85, 0.75 * 0.75, 0.37 * 0.37, 0.30 * 0.30, 0.20 * 0.20, 0.10 * 0.10],
   [3.80 * 3.80, 3.25 * 3.25, 2.55 * 2.55, 1.47 * 1.47, 1.20 * 1.20, 1.10 * 1.10, 0.90 * 0.90, 0.80 * 0.80, 0.35 * 0.35, 0.25 * 0.25],
   [7.05 * 7.05, 6.35 * 6.35, 5.27 * 5.27, 5.00 * 5.00, 4.90 * 4.90, 4.70 * 4.70, 4.60 * 4.60, 4.15 * 4.15, 4.05 * 4.05, 3.80 * 3.80],
   [5.27 * 5.27, 1.78 * 1.78, 1.47 * 1.47, 1.22 * 1.22, 1.12 * 1.12, 1.08 * 1.08, 0.67 * 0.67, 0.57 * 0.57, 0.37 * 0.37, 0.27 * 0.27],
   [7.05 * 7.05, 3.25 * 3.25, 3.00 * 3.00, 2.90 * 2.90, 2.45 * 2.45, 2.35 * 2.35, 2.15 * 2.15, 2.05 * 2.05, 1.78 * 1.78, 0.70 * 0.70],
   [6.35 * 6.35, 2.55 * 2.55, 2.30 * 2.30, 2.20 * 2.20, 1.75 * 1.75, 1.65 * 1.65, 1.45 * 1.45, 1.35 * 1.35, 1.08 * 1.08, 0.70 * 0.70],
   [4.60 * 4.60, 2.45 * 2.45, 1.75 * 1.75, 0.80 * 0.80, 0.67 * 0.67, 0.55 * 0.55, 0.45 * 0.45, 0.40 * 0.40, 0.30 * 0.30, 0.10 * 0.10],
   [4.15 * 4.15, 2.90 * 2.90, 2.20 * 2.20, 1.12 * 1.12, 0.85 * 0.85, 0.75 * 0.75, 0.55 * 0.55, 0.45 * 0.45, 0.35 * 0.35, 0.10 * 0.10],
   [4.05 * 4.05, 3.00 * 3.00, 2.30 * 2.30, 1.22 * 1.22, 0.95 * 0.95, 0.85 * 0.85, 0.65 * 0.65, 0.55 * 0.55, 0.25 * 0.25, 0.10 * 0.10]]

/-- A tree over the points of `exhaustive_synthetic_test`, as a builder that
splits at the median and stops at three points delivers it: the points sorted
by coordinate, in four leaves. -/
def exhaustiveTree : BuiltTree :=
  { data := [[-2.00], [-1.30], [-0.22], [0.05], [0.15], [0.35], [0.45], [0.90],
      [1.00], [1.25], [5.05]],
    root := .node 0 11 [(-2.00, 5.05)]
      (.node 0 5 [(-2.00, 0.15)]
        (.leaf 0 2 [(-2.00, -1.30)]) (.leaf 2 3 [(-0.22, 0.15)]))
      (.node 5 6 [(0.35, 5.05)]
        (.leaf 5 3 [(0.35, 0.90)]) (.leaf 8 3 [(1.00, 5.05)])),
    oldFromNew := [6, 7, 5, 0, 2, 1, 8, 9, 10, 3, 4] }

/-- Four reference points on a line, two of them (indices 0 and 1) at the same
distance from the origin. -/
def tiedReferences : Dataset := [[-1], [1], [-1 / 2], [2]]

/-- The one query point of the example with a tie, the origin. -/
def tiedQueries : Dataset := [[0]]

/-- A tree over `tiedReferences` with two leaves of two points. -/
def tiedTree : BuiltTree :=
  { data := [[-1], [-1 / 2], [1], [2]],
    root := .node 0 4 [(-1, 2)]
      (.leaf 0 2 [(-1, -1 / 2)]) (.leaf 2 2 [(1, 2)]),
    oldFromNew := [0, 2, 1, 3] }

/-- Five points on a line used as their own queries; from the first one
(index 0, the origin) the points of indices 1 and 2 are at the same
distance. -/
def tiedSelfReferences : Dataset := [[0], [-1], [1], [-1 / 2], [2]]

/-- A tree over `tiedSelfReferences` with a leaf of three points and a leaf of
two. -/
def tiedSelfTree : BuiltTree :=
  { data := [[-1], [-1 / 2], [0], [1], [2]],
    root := .node 0 5 [(-1, 2)]
      (.leaf 0 3 [(-1, 0)]) (.leaf 3 2 [(1, 2)]),
    oldFromNew := [1, 3, 0, 2, 4] }

/-- Two reference points at the same distance from the origin. -/
def equidistantReferences : Dataset := [[-1], [1]]

/-- Five reference points on a line of which the two furthest from the origin
(indices 0 and 1) are at the same distance from it. -/
def tiedFurthestReferences : Dataset := [[-3], [3], [2], [1], [1 / 2]]

/-- A tree over `tiedQueries`, a single leaf. -/
def tiedQueryTree : BuiltTree :=
  { data := [[0]], root := .leaf 0 1 [(0, 0)], oldFromNew := [0] }

/-! ## Specification predicates -/

/-- The candidate set `cs` holds, best first, `k` best of the reference
indices in `A`, where `dist i` is the distance of reference `i` from the
query: no row is better than a row above it, every entry is a reference of
`A` with its distance, no reference is kept twice, and every reference of `A`
that is not kept is better than none of the `k` entries kept. -/
structure IsTopK (s : SortPolicy) (k : Nat) (dist : Nat → ℚ) (A : Set Nat)
    (cs : CandidateSet) : Prop where
  sorted : cs.Pairwise (fun a b => s.betterThan b.distance a.distance = false)
  mem : ∀ c ∈ cs, c.index ∈ A ∧ c.distance = dist c.index
  length_le : cs.length ≤ k
  nodup : (cs.map Candidate.index).Nodup
  rest : ∀ i ∈ A, (∃ c ∈ cs, c.index = i) ∨
    (cs.length = k ∧ ∀ c ∈ cs, s.betterThan (dist i) c.distance = false)

/-- The distance of reference `i` from the point `q`. -/
def distFrom (references : Dataset) (q : Point) (i : Nat) : ℚ :=
  distance q (references.getD i [])

/-- The step `f` on the candidate sets of all queries accounts for the
references `B` on behalf of the queries `Q`: whenever the set of every query
of `Q` holds `k` best of some references `A` apart from `B`, afterwards it
holds `k` best of `A` and `B` together, and the sets of the other queries are
left as they were. -/
def DualStep (s : SortPolicy) (k : Nat) (queries references : Dataset)
    (Q B : Set Nat)
    (f : (Nat → CandidateSet) → Nat → CandidateSet) : Prop :=
  ∀ (A : Set Nat) (sets : Nat → CandidateSet), (∀ i ∈ B, i ∉ A) →
    (∀ t ∈ Q, IsTopK s k (distFrom references (queries.getD t [])) A (sets t)) →
    (∀ t ∈ Q, IsTopK s k (distFrom references (queries.getD t [])) (A ∪ B)
      (f sets t)) ∧
    (∀ t, t ∉ Q → f sets t = sets t)

/-- The output is exact: it has one column for every query, and column `j`
holds `k` best of all the references for query `j`. -/
def IsExactOutput (s : SortPolicy) (k : Nat) (queries references : Dataset)
    (out : List CandidateSet) : Prop :=
  out.length = queries.length ∧
  ∀ j < queries.length,
    IsTopK s k (distFrom references (queries.getD j []))
      {i | i < references.length} (out.getD j [])

/-- The rows of the column are ordered worst to best: no row is better than a
row below it. -/
def RowsWorstToBest (s : SortPolicy) (column : CandidateSet) : Prop :=
  column.Pairwise (fun a b => s.betterThan a.distance b.distance = false)

instance (s : SortPolicy) (column : CandidateSet) :
    Decidable (RowsWorstToBest s column) := by
  unfold RowsWorstToBest; infer_instance

/-- The rows of the column are ordered best to worst: no row is better than a
row above it. -/
def RowsBestToWorst (s : SortPolicy) (column : CandidateSet) : Prop :=
  column.Pairwise (fun a b => s.betterThan b.distance a.distance = false)

instance (s : SortPolicy) (column : CandidateSet) :
    Decidable (RowsBestToWorst s column) := by
  unfold RowsBestToWorst; infer_instance

/-- From every point of the dataset the distances to the other points are
pairwise distinct. -/
def DistinctDistances (points : Dataset) : Prop :=
  ∀ j < points.length, ∀ a < points.length, ∀ b < points.length,
    a ≠ j ∧ b ≠ j ∧ a ≠ b →
    distance (points.getD j []) (points.getD a []) ≠
      distance (points.getD j []) (points.getD b [])

set_option synthInstance.maxSize 512 in
instance (points : Dataset) : Decidable (DistinctDistances points) := by
  unfold DistinctDistances; infer_instance

/-- The column holds exactly the `k` points of the dataset furthest from point
`j`: it has `k` rows, in strictly decreasing order of distance; every row is a
point of the dataset other than `j`, with its squared distance from `j`; and
every point that is not in the column is less far than every row. -/
def IsExactFurthest (points : Dataset) (k j : Nat) (column : CandidateSet) :
    Prop :=
  column.length = k ∧
  column.Pairwise (fun a b => b.distance < a.distance) ∧
  (∀ c ∈ column, c.index < points.length ∧ c.index ≠ j ∧
    c.distance = distance (points.getD j []) (points.getD c.index [])) ∧
  (∀ i < points.length, (∀ c ∈ column, c.index ≠ i) →
    ∀ c ∈ column,
      distance (points.getD j []) (points.getD i []) < c.distance)

/-- The column of the furthest-neighbour search and the column of the
nearest-neighbour search jointly partition the ordering of all `n` references
by distance: between them they hold every reference index exactly once, and
the furthest ones followed by the nearest ones read backwards are ordered
furthest first, an ordering of all the references by distance. -/
def JointlyPartition (n : Nat) (furthest nearest : CandidateSet) : Prop :=
  (furthest.map Candidate.index ++ nearest.map Candidate.index).Perm
    (List.range n) ∧
  RowsBestToWorst .FurthestNeighborSort (furthest ++ nearest.reverse)

instance (n : Nat) (furthest nearest : CandidateSet) :
    Decidable (JointlyPartition n furthest nearest) := by
  unfold JointlyPartition; infer_instance

/-- The cut after the `k` furthest references is sharp for the query `q`: `k`
is 0, or some reference has exactly `k` references at least as far from `q` as
it is, itself among them.  Those `k` references are then the `k` furthest and
every other reference is strictly nearer, so that no reference on one side of
the cut is at the same distance as a reference on the other side.  References
at the same distance on one side of the cut are allowed. -/
def SharpCut (k : Nat) (q : Point) (references : Dataset) : Prop :=
  k = 0 ∨ ∃ i < references.length,
    ((List.range references.length).filter
      (fun j => decide (distance q (references.getD i []) ≤
        distance q (references.getD j [])))).length = k

instance (k : Nat) (q : Point) (references : Dataset) :
    Decidable (SharpCut k q references) := by
  unfold SharpCut; infer_instance

/-- No two reference points are at the same distance from the point `q`. -/
def NoTies (q : Point) (references : Dataset) : Prop :=
  ∀ i < references.length, ∀ j < references.length,
    distance q (references.getD i []) = distance q (references.getD j []) →
    i = j

instance (q : Point) (references : Dataset) : Decidable (NoTies q references) := by
  unfold NoTies; infer_instance

/-- The dataset is a matrix with `dim` rows: every point has `dim`
coordinates. -/
def IsMatrix (dim : Nat) (points : Dataset) : Prop :=
  ∀ p ∈ points, p.length = dim

instance (dim : Nat) (points : Dataset) : Decidable (IsMatrix dim points) := by
  unfold IsMatrix; infer_instance

end NeighborSearch

namespace Allkrann

/-! ## Binary64 rounding -/

theorem bitLengthAux_spec (fuel n : Nat) (h : n ≤ fuel) :
    n < 2 ^ bitLengthAux fuel n ∧
      (n ≠ 0 → 2 ^ (bitLengthAux fuel n - 1) ≤ n) := by
  induction fuel generalizing n with
  | zero =>
    have h0 : n = 0 := by omega
    subst h0
    simp [bitLengthAux]
  | succ fuel ih =>
    by_cases hn : n = 0
    · subst hn
      simp [bitLengthAux]
    · have hle : n / 2 ≤ fuel := by omega
      obtain ⟨h1, h2⟩ := ih (n / 2) hle
      have hunf : bitLengthAux (fuel + 1) n = bitLengthAux fuel (n / 2) + 1 := by
        simp [bitLengthAux, hn]
      rw [hunf]
      constructor
      · rw [pow_succ]
        omega
      · intro _
        rw [Nat.add_sub_cancel]
        by_cases hn2 : n / 2 = 0
        · have hb : bitLengthAux fuel (n / 2) = 0 := by
            rw [hn2]
            cases fuel <;> simp [bitLengthAux]
          rw [hb]
          simp
          omega
        · have h3 := h2 hn2
          have hb : bitLengthAux fuel (n / 2) ≠ 0 := by
            intro hb
            rw [hb] at h1
            simp at h1
            exact hn2 h1
          obtain ⟨b, hb'⟩ := Nat.exists_eq_succ_of_ne_zero hb
          rw [hb'] at h3 ⊢
          rw [Nat.succ_sub_one] at h3
          rw [pow_succ]
          omega

theorem bitLength_spec (n : Nat) :
    n < 2 ^ bitLength n ∧ (n ≠ 0 → 2 ^ (bitLength n - 1) ≤ n) :=
  bitLengthAux_spec n n (le_refl n)

/-- The binary exponent is not too large: `2 ^ floorLog2 x ≤ |x|`. -/
theorem two_zpow_floorLog2_le (x : ℚ) (hx : x ≠ 0) :
    (2 : ℚ) ^ floorLog2 x ≤ |x| := by
  unfold floorLog2
  split
  · assumption
  · have hp : x.num.natAbs ≠ 0 := by
      simpa using Rat.num_ne_zero.2 hx
    obtain ⟨hp1, hp2⟩ := bitLength_spec x.num.natAbs
    have hp3 := hp2 hp
    obtain ⟨hq1, _⟩ := bitLength_spec x.den
    have hbp : bitLength x.num.natAbs ≠ 0 := by
      intro h0
      rw [h0, pow_zero, Nat.lt_one_iff] at hp1
      exact hp hp1
    have hden : (0 : ℚ) < x.den := by exact_mod_cast x.den_pos
    have habs : |x| = (x.num.natAbs : ℚ) / x.den := by
      conv_lhs => rw [← Rat.num_div_den x]
      rw [abs_div, abs_of_pos hden, Nat.cast_natAbs, Int.cast_abs]
    rw [habs, le_div_iff₀ hden]
    have h1 : ((2 : ℚ) ^ (bitLength x.num.natAbs - 1 : Nat)) ≤
        (x.num.natAbs : ℚ) := by exact_mod_cast hp3
    have h2 : (x.den : ℚ) ≤ (2 : ℚ) ^ (bitLength x.den : Nat) := by
      exact_mod_cast le_of_lt hq1
    have h3 : (2 : ℚ) ^ ((bitLength x.num.natAbs : Int) - bitLength x.den - 1)
        * (2 : ℚ) ^ (bitLength x.den : Nat) =
        (2 : ℚ) ^ (bitLength x.num.natAbs - 1 : Nat) := by
      rw [← zpow_natCast, ← zpow_natCast, ← zpow_add₀ (by norm_num)]
      congr 1
      omega
    calc (2 : ℚ) ^ ((bitLength x.num.natAbs : Int) - bitLength x.den - 1) * x.den
        ≤ (2 : ℚ) ^ ((bitLength x.num.natAbs : Int) - bitLength x.den - 1)
          * (2 : ℚ) ^ (bitLength x.den : Nat) :=
          mul_le_mul_of_nonneg_left h2 (le_of_lt (zpow_pos (by norm_num) _))
      _ = (2 : ℚ) ^ (bitLength x.num.natAbs - 1 : Nat) := h3
      _ ≤ x.num.natAbs := h1

/-- The binary exponent is not too small: `|x| < 2 ^ (floorLog2 x + 1)`. -/
theorem lt_two_zpow_floorLog2 (x : ℚ) (hx : x ≠ 0) :
    |x| < (2 : ℚ) ^ (floorLog2 x + 1) := by
  unfold floorLog2
  split
  · have hp : x.num.natAbs ≠ 0 := by
      simpa using Rat.num_ne_zero.2 hx
    obtain ⟨hp1, _⟩ := bitLength_spec x.num.natAbs
    obtain ⟨hq1, hq2⟩ := bitLength_spec x.den
    have hq3 := hq2 x.den_nz
    have hbq : bitLength x.den ≠ 0 := by
      intro h0
      rw [h0, pow_zero, Nat.lt_one_iff] at hq1
      exact x.den_nz hq1
    have hden : (0 : ℚ) < x.den := by exact_mod_cast x.den_pos
    have habs : |x| = (x.num.natAbs : ℚ) / x.den := by
      conv_lhs => rw [← Rat.num_div_den x]
      rw [abs_div, abs_of_pos hden, Nat.cast_natAbs, Int.cast_abs]
    rw [habs, div_lt_iff₀ hden]
    have h1 : (x.num.natAbs : ℚ) < (2 : ℚ) ^ (bitLength x.num.natAbs : Nat) := by
      exact_mod_cast hp1
    have h2 : ((2 : ℚ) ^ (bitLength x.den - 1 : Nat)) ≤ (x.den : ℚ) := by
      exact_mod_cast hq3
    have h3 : (2 : ℚ) ^ ((bitLength x.num.natAbs : Int) - bitLength x.den + 1)
        * (2 : ℚ) ^ (bitLength x.den - 1 : Nat) =
        (2 : ℚ) ^ (bitLength x.num.natAbs : Nat) := by
      rw [← zpow_natCast, ← zpow_natCast, ← zpow_add₀ (by norm_num)]
      congr 1
      omega
    calc (x.num.natAbs : ℚ) < (2 : ℚ) ^ (bitLength x.num.natAbs : Nat) := h1
      _ = (2 : ℚ) ^ ((bitLength x.num.natAbs : Int) - bitLength x.den + 1)
          * (2 : ℚ) ^ (bitLength x.den - 1 : Nat) := h3.symm
      _ ≤ (2 : ℚ) ^ ((bitLength x.num.natAbs : Int) - bitLength x.den + 1)
          * x.den :=
          mul_le_mul_of_nonneg_left h2 (le_of_lt (zpow_pos (by norm_num) _))
  · rename_i h
    rw [sub_add_cancel]
    exact lt_of_not_le h

/-- No integer is nearer to `m` than `roundHalfEven m`. -/
theorem roundHalfEven_nearest (m : ℚ) (z : Int) :
    |(roundHalfEven m : ℚ) - m| ≤ |(z : ℚ) - m| := by
  have hf := Int.floor_le m
  have hlt := Int.lt_floor_add_one m
  have h1 := le_abs_self ((z : ℚ) - m)
  have h2 := neg_abs_le ((z : ℚ) - m)
  have hz : (z : ℚ) ≤ ⌊m⌋ ∨ (⌊m⌋ : ℚ) + 1 ≤ z := by
    rcases le_or_lt z ⌊m⌋ with h | h
    · left; exact_mod_cast h
    · right; exact_mod_cast h
  unfold roundHalfEven
  split_ifs <;> push_cast <;> rw [abs_le] <;> rcases hz with h | h <;>
    constructor <;> linarith

/-- No binary64 value that is not negative is nearer to `x > 0` than
`roundToDouble x`. -/
theorem roundToDouble_nearest (x : ℚ) (hx : 0 < x) (d : ℚ)
    (hd : IsNonnegDouble d) : |roundToDouble x - x| ≤ |d - x| := by
  obtain ⟨m, e, hm, he, rfl⟩ := hd
  have hx0 : x ≠ 0 := ne_of_gt hx
  have h2 : (0 : ℚ) < 2 := by norm_num
  have hu : (0 : ℚ) < 2 ^ ulpExponent x := zpow_pos h2 _
  have key : ∀ r : ℚ, |r * 2 ^ ulpExponent x - x| =
      |r - x / 2 ^ ulpExponent x| * 2 ^ ulpExponent x := by
    intro r
    have : r * 2 ^ ulpExponent x - x =
        (r - x / 2 ^ ulpExponent x) * 2 ^ ulpExponent x := by
      field_simp
    rw [this, abs_mul, abs_of_pos hu]
  have step : ∀ z : Int, |roundToDouble x - x| ≤
      |(z : ℚ) * 2 ^ ulpExponent x - x| := by
    intro z
    unfold roundToDouble
    rw [if_neg hx0, key, key]
    exact mul_le_mul_of_nonneg_right (roundHalfEven_nearest _ z) (le_of_lt hu)
  by_cases hE : ulpExponent x ≤ e
  · have hz : ((((m : Int) * 2 ^ (e - ulpExponent x).toNat : Int)) : ℚ) *
        2 ^ ulpExponent x = (m : ℚ) * 2 ^ e := by
      push_cast
      rw [mul_assoc, ← zpow_natCast, ← zpow_add₀ (ne_of_gt h2)]
      congr 2
      have := Int.toNat_of_nonneg (sub_nonneg.2 hE)
      omega
    have := step ((m : Int) * 2 ^ (e - ulpExponent x).toNat)
    rwa [hz] at this
  · have hu1 : ulpExponent x = floorLog2 x - 52 := by
      unfold ulpExponent at hE ⊢
      rcases max_cases (floorLog2 x - 52) (-1074) with ⟨h, _⟩ | ⟨h, _⟩
      · exact h
      · rw [h] at hE
        omega
    have hlog := two_zpow_floorLog2_le x hx0
    rw [abs_of_pos hx] at hlog
    have h52 : (2 : ℚ) ^ (ulpExponent x + 52) ≤ x := by
      rw [hu1]
      simpa using hlog
    have hd_le : (m : ℚ) * 2 ^ e ≤ 2 ^ (ulpExponent x + 52) := by
      have hm' : (m : ℚ) ≤ 2 ^ (53 : Int) := by
        rw [zpow_ofNat]
        exact_mod_cast hm
      have he' : (2 : ℚ) ^ e ≤ 2 ^ (ulpExponent x - 1) :=
        zpow_le_zpow_right₀ (by norm_num) (by omega)
      calc (m : ℚ) * 2 ^ e ≤ 2 ^ (53 : Int) * 2 ^ (ulpExponent x - 1) :=
            mul_le_mul hm' he' (le_of_lt (zpow_pos h2 _))
              (le_of_lt (zpow_pos h2 _))
        _ = 2 ^ (ulpExponent x + 52) := by
            rw [← zpow_add₀ (ne_of_gt h2)]
            congr 1
            omega
    have hz : (((2 ^ 52 : Int)) : ℚ) * 2 ^ ulpExponent x =
        2 ^ (ulpExponent x + 52) := by
      rw [zpow_add₀ (ne_of_gt h2), mul_comm]
      norm_num
    have h3 := step (2 ^ 52)
    rw [hz, abs_of_nonpos (sub_nonpos.2 h52)] at h3
    rw [abs_of_nonpos (sub_nonpos.2 (le_trans hd_le h52))]
    linarith

theorem roundHalfEven_eq (m : ℚ) :
    roundHalfEven m = ⌊m⌋ ∨ roundHalfEven m = ⌊m⌋ + 1 := by
  unfold roundHalfEven
  split_ifs <;> simp

/-- The rounding of a positive value is a binary64 value. -/
theorem roundToDouble_isNonnegDouble (x : ℚ) (hx : 0 < x) :
    IsNonnegDouble (roundToDouble x) := by
  have hx0 : x ≠ 0 := ne_of_gt hx
  have h2 : (0 : ℚ) < 2 := by norm_num
  have hu : (0 : ℚ) < 2 ^ ulpExponent x := zpow_pos h2 _
  have hm0 : 0 ≤ x / 2 ^ ulpExponent x := le_of_lt (div_pos hx hu)
  have hm1 : x / 2 ^ ulpExponent x < 2 ^ (53 : Nat) := by
    rw [div_lt_iff₀ hu]
    have hlt := lt_two_zpow_floorLog2 x hx0
    rw [abs_of_pos hx] at hlt
    have hle : (2 : ℚ) ^ (floorLog2 x + 1) ≤
        2 ^ (53 : Nat) * 2 ^ ulpExponent x := by
      rw [← zpow_natCast, ← zpow_add₀ (ne_of_gt h2)]
      refine zpow_le_zpow_right₀ (by norm_num) ?_
      have : floorLog2 x - 52 ≤ ulpExponent x := le_max_left _ _
      push_cast
      omega
    exact lt_of_lt_of_le hlt hle
  have hf0 : 0 ≤ ⌊x / 2 ^ ulpExponent x⌋ := Int.floor_nonneg.2 hm0
  have hf1 : ⌊x / 2 ^ ulpExponent x⌋ < 2 ^ 53 := by
    rw [Int.floor_lt]
    exact_mod_cast hm1
  have hr : 0 ≤ roundHalfEven (x / 2 ^ ulpExponent x) ∧
      roundHalfEven (x / 2 ^ ulpExponent x) ≤ 2 ^ 53 := by
    rcases roundHalfEven_eq (x / 2 ^ ulpExponent x) with h | h <;> rw [h] <;>
      omega
  refine ⟨(roundHalfEven (x / 2 ^ ulpExponent x)).toNat, ulpExponent x, ?_,
    le_max_right _ _, ?_⟩
  · have := Int.toNat_of_nonneg hr.1
    omega
  · unfold roundToDouble
    rw [if_neg hx0]
    congr 1
    have := Int.toNat_of_nonneg hr.1
    exact_mod_cast this.symm

/-- Values of the rounding: the `double`s nearest to the decimals 0.1, 0.07
and 16.1 and to one third; a tie, which goes to the even significand; a value
below half the least subnormal value, which goes to 0, and a value above it;
and a value that is a `double` already. -/
theorem roundToDouble_values :
    roundToDouble 0.1 = 3602879701896397 / 2 ^ 55 ∧
    roundToDouble 0.07 = 1261007895663739 / 2 ^ 54 ∧
    roundToDouble 16.1 = 2265873562520781 / 2 ^ 47 ∧
    roundToDouble (1 / 3) = 6004799503160661 / 2 ^ 54 ∧
    roundToDouble (2 ^ 53 + 1) = 2 ^ 53 ∧
    roundToDouble (2 ^ 53 + 3) = 2 ^ 53 + 4 ∧
    roundToDouble (1 / 2 ^ 1076) = 0 ∧
    roundToDouble (3 / 2 ^ 1076) = 1 / 2 ^ 1074 ∧
    roundToDouble 700 = 700 := by
  decide!

theorem isNonnegDouble_zero : IsNonnegDouble 0 :=
  ⟨0, 0, by norm_num, by norm_num, by simp⟩

theorem IsNonnegDouble.nonneg {d : ℚ} (hd : IsNonnegDouble d) : 0 ≤ d := by
  obtain ⟨m, e, _, _, rfl⟩ := hd
  exact mul_nonneg (Nat.cast_nonneg m) (le_of_lt (zpow_pos (by norm_num) _))

/-- A natural number that is a multiple `m * 2 ^ j` with `m ≤ 2 ^ 53` is a
binary64 value. -/
theorem isNonnegDouble_mul_pow (m j : Nat) (hm : m ≤ 2 ^ 53) :
    IsNonnegDouble ((m * 2 ^ j : Nat) : ℚ) :=
  ⟨m, j, hm, by omega, by push_cast; rw [zpow_natCast]⟩

/-- Rounding does not go below 0. -/
theorem roundToDouble_nonneg (x : ℚ) (hx : 0 ≤ x) : 0 ≤ roundToDouble x := by
  rcases eq_or_lt_of_le hx with h | h
  · rw [← h]
    simp [roundToDouble]
  · have := roundToDouble_nearest x h 0 isNonnegDouble_zero
    rw [zero_sub, abs_neg, abs_of_pos h, abs_le] at this
    linarith [this.1]

/-- Rounding does not go above a binary64 value that bounds `x`. -/
theorem roundToDouble_le (x d : ℚ) (hx : 0 ≤ x) (hd : IsNonnegDouble d)
    (h : x ≤ d) : roundToDouble x ≤ d := by
  rcases eq_or_lt_of_le hx with h0 | h0
  · rw [← h0]
    simpa [roundToDouble] using hd.nonneg
  · have := roundToDouble_nearest x h0 d hd
    rw [abs_of_nonneg (sub_nonneg.2 h), abs_le] at this
    linarith [this.2]

/-- For `0 < tau ≤ 100` the budget of `n` columns is at most every bound `D` of
`n` such that `D` and `100 * D` are binary64 values. -/
theorem rank_error_le_of_double (tau : ℚ) (n D : Nat) (h0 : 0 < tau)
    (h100 : tau ≤ 100) (hn : n ≤ D) (hD : IsNonnegDouble (D : ℚ))
    (hD100 : IsNonnegDouble ((100 * D : Nat) : ℚ)) (hD64 : D < 2 ^ 64) :
    rank_error tau n ≤ D := by
  have hc : IsNonnegDouble (100 : ℚ) := by
    have := isNonnegDouble_mul_pow 100 0 (by norm_num)
    simpa using this
  have ha0 := roundToDouble_nonneg tau (le_of_lt h0)
  have ha1 := roundToDouble_le tau 100 (le_of_lt h0) hc h100
  have hb0 := roundToDouble_nonneg (n : ℚ) (Nat.cast_nonneg n)
  have hb1 := roundToDouble_le (n : ℚ) D (Nat.cast_nonneg n) hD
    (by exact_mod_cast hn)
  have hp0 := roundToDouble_nonneg _ (mul_nonneg ha0 hb0)
  have hp1 := roundToDouble_le (roundToDouble tau * roundToDouble (n : ℚ))
    ((100 * D : Nat) : ℚ) (mul_nonneg ha0 hb0) hD100 (by
      push_cast
      exact mul_le_mul ha1 hb1 hb0 (by norm_num))
  have hq0 := roundToDouble_nonneg
    (roundToDouble (roundToDouble tau * roundToDouble (n : ℚ)) / 100)
    (div_nonneg hp0 (by norm_num))
  have hq1 := roundToDouble_le
    (roundToDouble (roundToDouble tau * roundToDouble (n : ℚ)) / 100) D
    (div_nonneg hp0 (by norm_num)) hD (by
      rw [div_le_iff₀ (by norm_num)]
      push_cast at hp1
      linarith)
  have hc0 := Int.ceil_nonneg hq0
  have hc1 : ⌈roundToDouble
      (roundToDouble (roundToDouble tau * roundToDouble (n : ℚ)) / 100)⌉ ≤
      (D : Int) := Int.ceil_le.2 (by exact_mod_cast hq1)
  unfold rank_error castToSizeT
  rw [if_pos ⟨hc0, by omega⟩]
  omega

/-! ## The driver: validation -/

theorem toSizeT_of_nonneg (i : Int) (h0 : 0 ≤ i) (h : i < 2 ^ 64) :
    (toSizeT i : Int) = i := by
  unfold toSizeT
  rw [Int.emod_eq_of_lt h0 h]
  exact Int.toNat_of_nonneg h0

theorem toSizeT_of_int32_gt (i : Int) (n : Nat) (hi : IsInt32 i)
    (h : (n : Int) < i) : n < toSizeT i := by
  have h0 : 0 ≤ i := le_trans (Int.ofNat_nonneg n) (le_of_lt h)
  have h64 : i < 2 ^ 64 := lt_trans hi.2 (by norm_num)
  have := toSizeT_of_nonneg i h0 h64
  omega

/-- A run passes validation exactly when the three checks pass. -/
theorem fatal_eq_none_iff (cl : CommandLine) (n_cols : Nat) :
    (main cl n_cols).fatal = none ↔
      toSizeT cl.k ≤ n_cols ∧
      toSizeT cl.k < rank_error (GetParam cl.tau 5) n_cols ∧
      0 ≤ GetParam cl.leaf_size 20 := by
  unfold main
  by_cases hk : toSizeT cl.k > n_cols
  · simp [hk, Fatal]
  · by_cases hr : rank_error (GetParam cl.tau 5) n_cols ≤ toSizeT cl.k
    · simp [hk, hr, Fatal]
    · by_cases hl : GetParam cl.leaf_size 20 < 0
      · simp [hk, hr, hl, Fatal]
      · simp [hk, hr, hl]
        omega

/-- The calls of a run that passes validation, in order: the loads, the
warning, the branch taken and the output. -/
theorem main_of_valid (cl : CommandLine) (n_cols : Nat)
    (hv : (main cl n_cols).fatal = none) :
    main cl n_cols =
      { actions := [Action.loadReference cl.reference_file] ++
          (if HasParam cl.query_file then
            [Action.loadQuery (GetParam cl.query_file "")] else []) ++
          (if cl.single_mode && cl.naive then [Action.warnSingleModeIgnored]
            else []) ++
          (if cl.naive then naiveBranch cl (toSizeT cl.k)
            else treeBranch cl (toSizeT cl.k)
              (toSizeT (GetParam cl.leaf_size 20))) ++
          saveOutput cl,
        fatal := none } := by
  obtain ⟨hk, hr, hl⟩ := (fatal_eq_none_iff cl n_cols).1 hv
  have hk' : ¬ toSizeT cl.k > n_cols := by omega
  have hr' : ¬ rank_error (GetParam cl.tau 5) n_cols ≤ toSizeT cl.k := by
    omega
  have hl' : ¬ GetParam cl.leaf_size 20 < 0 := by omega
  unfold main
  cases hq : HasParam cl.query_file <;> cases hs : cl.single_mode <;>
    cases hn : cl.naive <;> simp [hk', hr', hl', hq, hs, hn]

theorem saveOutput_no_search (cl : CommandLine) :
    ∀ a ∈ saveOutput cl,
      a.isTreeBuild = false ∧ a.isConstruct = false ∧ a.isSearch = false := by
  intro a ha
  simp only [saveOutput, List.mem_append] at ha
  rcases ha with ha | ha <;> split at ha <;> simp at ha <;> subst ha <;>
    exact ⟨rfl, rfl, rfl⟩

theorem saveOutput_no_unmap (cl : CommandLine) :
    ∀ a ∈ saveOutput cl, a.isUnmap = false ∧ a.isWarning = false := by
  intro a ha
  simp only [saveOutput, List.mem_append] at ha
  rcases ha with ha | ha <;> split at ha <;> simp at ha <;> subst ha <;>
    exact ⟨rfl, rfl⟩

theorem naiveBranch_no_tree (cl : CommandLine) (k : Nat) :
    ∀ a ∈ naiveBranch cl k, a.isTreeBuild = false := by
  intro a ha
  simp only [naiveBranch, List.mem_cons] at ha
  rcases ha with ha | ha
  · subst ha; rfl
  · split at ha <;> simp at ha <;> subst ha <;> rfl

theorem naiveBranch_no_unmap (cl : CommandLine) (k : Nat) :
    ∀ a ∈ naiveBranch cl k, a.isUnmap = false ∧ a.isWarning = false := by
  intro a ha
  simp only [naiveBranch, List.mem_cons] at ha
  rcases ha with ha | ha
  · subst ha; exact ⟨rfl, rfl⟩
  · split at ha <;> simp at ha <;> subst ha <;> exact ⟨rfl, rfl⟩

theorem filter_warning (b : Bool) :
    (if b then [Action.warnSingleModeIgnored] else []).filter
      (fun a => !a.isWarning) = [] := by
  cases b <;> rfl

/-- Counterexample to C1 as stated: with `-t 0.07`, 10000 reference points and
`k = 7` the exact value of `ceil(tau * n / 100)` is 7, which is at most `k`,
yet the run is not rejected.  The `double` nearest to 0.07 is above 0.07, the
product rounds to a value above 700, the quotient to a value above 7, and the
budget the driver computes is 8: the tree is built and searched. -/
theorem exact_budget_le_k_not_fatal :
    ⌈(0.07 : ℚ) * 10000 / 100⌉ = 7 ∧
    (0.07 : ℚ) < roundToDouble 0.07 ∧
    (700 : ℚ) < roundToDouble (roundToDouble 0.07 * roundToDouble 10000) ∧
    rank_error 0.07 10000 = 8 ∧
    main { minimalCommandLine "input.csv" 7 with tau := some 0.07 } 10000 =
      { actions := [.loadReference "input.csv", .buildRefTree 20,
          .constructTree false 0.07 0.95 false false 20, .searchReference 7,
          .unmapRefsRefs],
        fatal := none } := by
  decide!

/-- Claim C1, amended: whenever the rank-error budget the driver computes,
`ceil(tau * n / 100)` in binary64 arithmetic, is at most `k`, the run ends in
a fatal error (the tau/k error when the k check passed) and no tree was built,
no searcher constructed and no `Search` called. -/
theorem rank_error_le_k_is_fatal (cl : CommandLine) (n_cols : Nat)
    (h : rank_error (GetParam cl.tau 5) n_cols ≤ toSizeT cl.k) :
    (main cl n_cols).fatal.isSome = true ∧
    (toSizeT cl.k ≤ n_cols → (main cl n_cols).fatal =
      some (.invalidTauK (GetParam cl.tau 5) (toSizeT cl.k))) ∧
    ∀ a ∈ (main cl n_cols).actions,
      a.isTreeBuild = false ∧ a.isConstruct = false ∧ a.isSearch = false := by
  unfold main
  by_cases hk : toSizeT cl.k > n_cols
  · simp [hk, Fatal, Action.isTreeBuild, Action.isConstruct, Action.isSearch]
  · cases hq : HasParam cl.query_file <;>
      simp [hk, h, hq, Fatal, Action.isTreeBuild, Action.isConstruct,
        Action.isSearch]

/-- The help text's example for C1: with `tau = 0.1`, 1000 reference points
and `k = 5` the budget is 1, which is at most 5, and the run is rejected. -/
theorem rank_error_le_k_is_fatal_witness :
    rank_error 0.1 1000 = 1 ∧
    (main helpExample 1000).fatal = some (.invalidTauK 0.1 5) ∧
    ∀ a ∈ (main helpExample 1000).actions,
      a.isTreeBuild = false ∧ a.isConstruct = false ∧ a.isSearch = false :=
  ⟨by decide!,
   (rank_error_le_k_is_fatal helpExample 1000 (by decide!)).2.1 (by decide),
   (rank_error_le_k_is_fatal helpExample 1000 (by decide!)).2.2⟩

/-- Claim C4: when `k` exceeds the number of reference points, either as the
`size_t` the driver compares or as the `int` that was requested, the run ends
in the "Invalid k" error right after the reference file was loaded. -/
theorem k_gt_n_is_fatal (cl : CommandLine) (n_cols : Nat)
    (h : n_cols < toSizeT cl.k ∨ (IsInt32 cl.k ∧ (n_cols : Int) < cl.k)) :
    main cl n_cols =
      Fatal [.loadReference cl.reference_file]
        (.invalidK (toSizeT cl.k) n_cols) := by
  have hk : n_cols < toSizeT cl.k := by
    rcases h with h | ⟨hi, h⟩
    · exact h
    · exact toSizeT_of_int32_gt cl.k n_cols hi h
  unfold main
  simp [hk]

/-- An instance of C4: 12 neighbours requested from 11 reference points. -/
theorem k_gt_n_is_fatal_witness :
    (11 < toSizeT 12 ∨ (IsInt32 12 ∧ ((11 : Nat) : Int) < 12)) ∧
    main (minimalCommandLine "input.csv" 12) 11 =
      Fatal [.loadReference "input.csv"] (.invalidK 12 11) :=
  ⟨by decide, k_gt_n_is_fatal (minimalCommandLine "input.csv" 12) 11 (by decide)⟩

/-- Counterexample to C5 as stated: with a negative leaf size and `k` above
the number of reference points, the run ends in the "Invalid k" error and the
leaf-size check is never reached. -/
theorem negative_leaf_size_other_error :
    GetParam ({ minimalCommandLine "input.csv" 10 with
      leaf_size := some (-1) } : CommandLine).leaf_size 20 < 0 ∧
    (main { minimalCommandLine "input.csv" 10 with leaf_size := some (-1) }
      5).fatal = some (.invalidK 10 5) ∧
    (main { minimalCommandLine "input.csv" 10 with leaf_size := some (-1) }
      5).fatal ≠ some (.invalidLeafSize (-1)) := by
  decide!

/-- Claim C5, amended: a negative leaf size always ends the run in a fatal
error before any tree or search; that error is "Invalid leaf size" exactly
when the k check and the tau/k check have passed; and a run with a leaf size
of 0 or more never ends in "Invalid leaf size". -/
theorem leaf_size_check (cl : CommandLine) (n_cols : Nat) :
    (GetParam cl.leaf_size 20 < 0 →
      (main cl n_cols).fatal.isSome = true ∧
      (∀ a ∈ (main cl n_cols).actions,
        a.isTreeBuild = false ∧ a.isConstruct = false ∧ a.isSearch = false) ∧
      (toSizeT cl.k ≤ n_cols →
        toSizeT cl.k < rank_error (GetParam cl.tau 5) n_cols →
        (main cl n_cols).fatal =
          some (.invalidLeafSize (GetParam cl.leaf_size 20)))) ∧
    (0 ≤ GetParam cl.leaf_size 20 →
      ∀ l, (main cl n_cols).fatal ≠ some (.invalidLeafSize l)) := by
  unfold main
  by_cases hk : toSizeT cl.k > n_cols
  · simp [hk, Fatal, Action.isTreeBuild, Action.isConstruct, Action.isSearch]
  · by_cases hr : rank_error (GetParam cl.tau 5) n_cols ≤ toSizeT cl.k
    · cases hq : HasParam cl.query_file <;>
        simp [hk, hr, hq, Fatal, Action.isTreeBuild, Action.isConstruct,
          Action.isSearch]
    · by_cases hl : GetParam cl.leaf_size 20 < 0
      · cases hq : HasParam cl.query_file <;>
          simp [hk, hr, hq, hl, Fatal, Action.isTreeBuild, Action.isConstruct,
            Action.isSearch]
      · simp [hk, hr, hl, Fatal]

/-- An instance of C5: leaf size -1 with valid `k` and `tau` is rejected with
"Invalid leaf size", and leaf size 0 is accepted. -/
theorem leaf_size_check_witness :
    (main { minimalCommandLine "input.csv" 3 with leaf_size := some (-1) }
      100).fatal = some (.invalidLeafSize (-1)) ∧
    (main { minimalCommandLine "input.csv" 3 with leaf_size := some 0 }
      100).fatal ≠ some (.invalidLeafSize 0) :=
  ⟨((leaf_size_check { minimalCommandLine "input.csv" 3 with
      leaf_size := some (-1) } 100).1 (by decide)).2.2 (by decide) (by decide!),
   (leaf_size_check { minimalCommandLine "input.csv" 3 with
      leaf_size := some 0 } 100).2 (by decide) 0⟩

/-- Counterexample to C7: a naive run with the default `tau = 5`, 100
reference points, `k = 5` and the default leaf size has `k ≤ n` and a valid
leaf size, yet it is rejected by the tau/k check (budget 5, not above 5) and
no searcher is constructed. -/
theorem naive_run_rejected_by_rank_error :
    ({ minimalCommandLine "input.csv" 5 with naive := true } : CommandLine).naive
      = true ∧
    toSizeT 5 ≤ 100 ∧ (0 : Int) ≤ GetParam (none : Option Int) 20 ∧
    rank_error 5 100 = 5 ∧
    main { minimalCommandLine "input.csv" 5 with naive := true } 100 =
      Fatal [.loadReference "input.csv"] (.invalidTauK 5 5) := by
  decide!

/-- Claim C7, amended: the tau/k check is applied to naive runs as to any
other.  A naive run with `k ≤ n` and a leaf size of 0 or more ends in the
tau/k error when the budget the driver computes is at most `k`; otherwise it
completes, builds no tree, constructs the one searcher over the reference
matrix and calls `Search` once, with the query matrix when the query file name
is not empty. -/
theorem naive_run_checks_rank_error (cl : CommandLine) (n_cols : Nat)
    (hn : cl.naive = true) (hk : toSizeT cl.k ≤ n_cols)
    (hl : 0 ≤ GetParam cl.leaf_size 20) :
    (rank_error (GetParam cl.tau 5) n_cols ≤ toSizeT cl.k →
      (main cl n_cols).fatal =
        some (.invalidTauK (GetParam cl.tau 5) (toSizeT cl.k)) ∧
      ∀ a ∈ (main cl n_cols).actions,
        a.isTreeBuild = false ∧ a.isConstruct = false ∧ a.isSearch = false) ∧
    (toSizeT cl.k < rank_error (GetParam cl.tau 5) n_cols →
      (main cl n_cols).fatal = none ∧
      (∀ a ∈ (main cl n_cols).actions, a.isTreeBuild = false) ∧
      (main cl n_cols).actions.filter
          (fun a => a.isConstruct || a.isSearch) =
        [Action.constructNaive true false (GetParam cl.tau 5)
            (GetParam cl.alpha 0.95),
          if GetParam cl.query_file "" != "" then
            Action.searchQueryData (toSizeT cl.k)
          else Action.searchReference (toSizeT cl.k)]) := by
  have hk' : ¬ toSizeT cl.k > n_cols := by omega
  constructor
  · intro hr
    unfold main
    cases hq : HasParam cl.query_file <;>
      simp [hk', hr, hq, Fatal, Action.isTreeBuild, Action.isConstruct,
        Action.isSearch]
  · intro hr
    have hv : (main cl n_cols).fatal = none :=
      (fatal_eq_none_iff cl n_cols).2 ⟨hk, hr, hl⟩
    have hsave : (saveOutput cl).filter
        (fun a => a.isConstruct || a.isSearch) = [] := by
      rw [List.filter_eq_nil_iff]
      intro a ha
      have := saveOutput_no_search cl a ha
      simp [this.2.1, this.2.2]
    rw [main_of_valid cl n_cols hv]
    refine ⟨rfl, ?_, ?_⟩
    · intro a ha
      simp only [hn, if_true, List.mem_append] at ha
      rcases ha with (((ha | ha) | ha) | ha) | ha
      · simp at ha; subst ha; rfl
      · split at ha <;> simp at ha; subst ha; rfl
      · split at ha <;> simp at ha; subst ha; rfl
      · exact naiveBranch_no_tree cl _ a ha
      · exact (saveOutput_no_search cl a ha).1
    · simp only [hn, Bool.and_true, if_true, List.filter_append, hsave,
        List.append_nil, naiveBranch]
      cases hq : HasParam cl.query_file <;> cases hs : cl.single_mode <;>
        cases hq' : (GetParam cl.query_file "" != "") <;>
        simp [Action.isConstruct, Action.isSearch, List.filter]

/-- An instance of C7: the naive run rejected with `k = 5`, and the naive run
of `k = 3`, which completes and searches the reference set. -/
theorem naive_run_checks_rank_error_witness :
    (main { minimalCommandLine "input.csv" 5 with naive := true } 100).fatal =
      some (.invalidTauK 5 5) ∧
    (main { minimalCommandLine "input.csv" 3 with
        naive := true } 100).actions.filter
        (fun a => a.isConstruct || a.isSearch) =
      [.constructNaive true false 5 0.95, .searchReference 3] :=
  ⟨((naive_run_checks_rank_error
      { minimalCommandLine "input.csv" 5 with naive := true } 100 rfl
      (by decide) (by decide)).1 (by decide!)).1,
   ((naive_run_checks_rank_error
      { minimalCommandLine "input.csv" 3 with naive := true } 100 rfl
      (by decide) (by decide)).2 (by decide!)).2.2⟩

/-- Claim C8, the code at the failing input: `allkrann -k 0 -r input.csv` on
100 reference points passes both checks (0 is not above 100, and the budget 5
is above 0), so the run is not rejected: the tree is built and `Search` is
called with `k = 0`. -/
theorem k_zero_not_rejected :
    (minimalCommandLine "input.csv" 0).WellFormed ∧
    main (minimalCommandLine "input.csv" 0) 100 =
      { actions := [.loadReference "input.csv", .buildRefTree 20,
          .constructTree false 5 0.95 false false 20, .searchReference 0,
          .unmapRefsRefs],
        fatal := none } := by
  decide!

/-- Claim C10: on a command line that gives none of `tau`, `alpha`,
`single_sample_limit`, `leaf_size` and none of the four flags, the tau/k check
is made with `tau = 5`, and a run that passes validation takes the tree-based
branch, builds its trees with leaf size 20 and constructs the one searcher with
single mode off, `tau = 5`, `alpha = 0.95`, sampling at leaves off, exact first
leaf off and a single-sample limit of 20. -/
theorem defaults_when_not_given (cl : CommandLine) (n_cols : Nat)
    (htau : cl.tau = none) (halpha : cl.alpha = none)
    (hlimit : cl.single_sample_limit = none) (hleaf : cl.leaf_size = none)
    (hnaive : cl.naive = false) (hsingle : cl.single_mode = false)
    (hsample : cl.sample_at_leaves = false)
    (hfirst : cl.first_leaf_exact = false)
    (hk : toSizeT cl.k ≤ n_cols) :
    (rank_error 5 n_cols ≤ toSizeT cl.k →
      (main cl n_cols).fatal = some (.invalidTauK 5 (toSizeT cl.k))) ∧
    (toSizeT cl.k < rank_error 5 n_cols →
      (main cl n_cols).fatal = none ∧
      (main cl n_cols).actions.filter
          (fun a => a.isTreeBuild || a.isConstruct) =
        [.buildRefTree 20, .constructTree false 5 0.95 false false 20] ++
          (if HasParam cl.query_file then [.buildQueryTree 20] else [])) := by
  have hk' : ¬ toSizeT cl.k > n_cols := by omega
  have h20 : toSizeT 20 = 20 := by decide
  have hsave : (saveOutput cl).filter
      (fun a => a.isTreeBuild || a.isConstruct) = [] := by
    rw [List.filter_eq_nil_iff]
    intro a ha
    have := saveOutput_no_search cl a ha
    simp [this.1, this.2.1]
  constructor
  · intro hr
    unfold main
    simp [hk', htau, GetParam, hr, Fatal]
  · intro hr
    have hr' : ¬ rank_error 5 n_cols ≤ toSizeT cl.k := by omega
    have hm : main cl n_cols =
        { actions := ((if HasParam cl.query_file then
              [Action.loadReference cl.reference_file] ++
                [Action.loadQuery (GetParam cl.query_file "")]
            else [Action.loadReference cl.reference_file]) ++
            treeBranch cl (toSizeT cl.k) 20) ++ saveOutput cl,
          fatal := none } := by
      unfold main
      cases hq : HasParam cl.query_file <;>
        simp [hk', htau, hleaf, hnaive, hsingle, GetParam, hr', h20]
    rw [hm]
    refine ⟨rfl, ?_⟩
    simp only [List.filter_append, hsave, List.append_nil]
    simp only [treeBranch, htau, halpha, hlimit, hsingle, hsample, hfirst,
      GetParam, Option.getD_none, h20, List.filter_append]
    cases hq : HasParam cl.query_file <;>
      cases hq' : (cl.query_file.getD "" != "") <;>
      simp [Action.isTreeBuild, Action.isConstruct, List.filter]

/-- An instance of C10: `allkrann -k 3 -r input.csv` on 100 points. -/
theorem defaults_when_not_given_witness :
    (main (minimalCommandLine "input.csv" 3) 100).fatal = none ∧
    (main (minimalCommandLine "input.csv" 3) 100).actions.filter
        (fun a => a.isTreeBuild || a.isConstruct) =
      [.buildRefTree 20, .constructTree false 5 0.95 false false 20] ++
        (if HasParam (minimalCommandLine "input.csv" 3).query_file then
          [.buildQueryTree 20] else []) :=
  (defaults_when_not_given (minimalCommandLine "input.csv" 3) 100 rfl rfl rfl
    rfl rfl rfl rfl rfl (by decide)).2 (by decide!)

/-! ## The driver: the two branches -/

/-- Claim C11: a run with the naive flag that passes validation loads the
data, warns when single mode was asked for, constructs the searcher over the
reference matrix with `naive`, `false`, `tau` and `alpha`, calls `Search` with
the query matrix exactly when the query file name is not empty, and saves the
distances and the neighbours to the files that were named; it builds no tree
and remaps nothing; and changing `single_mode`, `sample_at_leaves`,
`first_leaf_exact` or `single_sample_limit` leaves the run valid and changes
none of its calls, the warning apart. -/
theorem naive_overrides_single_mode (cl : CommandLine) (n_cols : Nat)
    (hn : cl.naive = true) (hv : (main cl n_cols).fatal = none) :
    (main cl n_cols).actions =
      [Action.loadReference cl.reference_file] ++
        (if HasParam cl.query_file then
          [Action.loadQuery (GetParam cl.query_file "")] else []) ++
        (if cl.single_mode then [Action.warnSingleModeIgnored] else []) ++
        [Action.constructNaive true false (GetParam cl.tau 5)
            (GetParam cl.alpha 0.95),
          if GetParam cl.query_file "" != "" then
            Action.searchQueryData (toSizeT cl.k)
          else Action.searchReference (toSizeT cl.k)] ++
        ((if GetParam cl.distances_file "" != "" then
            [Action.saveDistances (GetParam cl.distances_file "")] else []) ++
          (if GetParam cl.neighbors_file "" != "" then
            [Action.saveNeighbors (GetParam cl.neighbors_file "")]
            else [])) ∧
    (∀ a ∈ (main cl n_cols).actions,
      a.isTreeBuild = false ∧ a.isUnmap = false) ∧
    ∀ (single_mode sample_at_leaves first_leaf_exact : Bool)
      (single_sample_limit : Option Int),
      (main { cl with single_mode := single_mode,
                      sample_at_leaves := sample_at_leaves,
                      first_leaf_exact := first_leaf_exact,
                      single_sample_limit := single_sample_limit }
        n_cols).fatal = none ∧
      (main { cl with single_mode := single_mode,
                      sample_at_leaves := sample_at_leaves,
                      first_leaf_exact := first_leaf_exact,
                      single_sample_limit := single_sample_limit }
        n_cols).actions.filter (fun a => !a.isWarning) =
        (main cl n_cols).actions.filter (fun a => !a.isWarning) := by
  have hm := main_of_valid cl n_cols hv
  refine ⟨?_, ?_, ?_⟩
  · rw [hm]
    simp only [hn, Bool.and_true, if_true, naiveBranch, saveOutput]
    cases hq : (GetParam cl.query_file "" != "") <;> simp
  · rw [hm]
    intro a ha
    simp only [hn, if_true, List.mem_append] at ha
    rcases ha with (((ha | ha) | ha) | ha) | ha
    · simp at ha; subst ha; exact ⟨rfl, rfl⟩
    · split at ha <;> simp at ha; subst ha; exact ⟨rfl, rfl⟩
    · split at ha <;> simp at ha; subst ha; exact ⟨rfl, rfl⟩
    · exact ⟨naiveBranch_no_tree cl _ a ha, (naiveBranch_no_unmap cl _ a ha).1⟩
    · exact ⟨(saveOutput_no_search cl a ha).1, (saveOutput_no_unmap cl a ha).1⟩
  · intro sm sal fle ssl
    have hv' : (main { cl with
        single_mode := sm, sample_at_leaves := sal,
        first_leaf_exact := fle, single_sample_limit := ssl }
        n_cols).fatal = none :=
      (fatal_eq_none_iff _ n_cols).2 ((fatal_eq_none_iff cl n_cols).1 hv)
    refine ⟨hv', ?_⟩
    have hb : naiveBranch { cl with
        single_mode := sm, sample_at_leaves := sal,
        first_leaf_exact := fle, single_sample_limit := ssl } (toSizeT cl.k) =
        naiveBranch cl (toSizeT cl.k) := rfl
    have hs : saveOutput { cl with
        single_mode := sm, sample_at_leaves := sal,
        first_leaf_exact := fle, single_sample_limit := ssl } =
        saveOutput cl := rfl
    rw [main_of_valid _ n_cols hv', hm]
    dsimp only
    rw [hb, hs]
    simp only [hn, Bool.and_true, if_true, List.filter_append,
      filter_warning, List.append_nil]

/-- An instance of C11: `allkrann -k 3 -r input.csv -d distances.csv
-n neighbors.csv -N -s` on 100 points warns, constructs the naive searcher,
searches the reference set and saves both outputs. -/
theorem naive_overrides_single_mode_witness :
    (main { minimalCommandLine "input.csv" 3 with
        distances_file := some "distances.csv",
        neighbors_file := some "neighbors.csv",
        naive := true, single_mode := true } 100).actions =
      [.loadReference "input.csv", .warnSingleModeIgnored,
        .constructNaive true false 5 0.95, .searchReference 3,
        .saveDistances "distances.csv", .saveNeighbors "neighbors.csv"] :=
  (naive_overrides_single_mode { minimalCommandLine "input.csv" 3 with
    distances_file := some "distances.csv",
    neighbors_file := some "neighbors.csv",
    naive := true, single_mode := true } 100 rfl (by decide!)).1

/-- A run that went past the load of its query file was given no query file
or one of a name that is not empty. -/
theorem query_file_ne_empty (cl : CommandLine) (n_cols : Nat)
    (hv : (main cl n_cols).fatal = none)
    (hload : (main cl n_cols).PastQueryLoad) : cl.query_file ≠ some "" := by
  intro hq
  apply hload
  rw [main_of_valid cl n_cols hv]
  simp [hq, HasParam, GetParam]

/-- Claim C12: on the tree-based path, in a run that passed validation and
went past the load of its query file, the remapping matches the search that
was run, for every value of `query_file` and `single_mode`.  With a query file
and without single mode the query tree is built and searched and both
permutations are used; with a query file in single mode the query matrix is
searched and only the reference permutation is used; with no query file the
reference set is searched and the reference permutation is used twice.  So
the query permutation is used exactly when the query tree was searched, and
every remapping uses the reference permutation. -/
theorem unmap_matches_search (cl : CommandLine) (n_cols : Nat)
    (hn : cl.naive = false) (hv : (main cl n_cols).fatal = none)
    (hload : (main cl n_cols).PastQueryLoad) :
    (main cl n_cols).actions.filter
        (fun a => a.isTreeBuild || a.isSearch || a.isUnmap) =
      Action.buildRefTree (toSizeT (GetParam cl.leaf_size 20)) ::
        (if HasParam cl.query_file && !cl.single_mode then
          [Action.buildQueryTree (toSizeT (GetParam cl.leaf_size 20)),
            Action.searchQueryTree (toSizeT cl.k), Action.unmapRefsQueries]
        else if HasParam cl.query_file && cl.single_mode then
          [Action.searchQueryData (toSizeT cl.k), Action.unmapRefs]
        else
          [Action.searchReference (toSizeT cl.k), Action.unmapRefsRefs]) ∧
    (Action.unmapRefsQueries ∈ (main cl n_cols).actions ↔
      Action.searchQueryTree (toSizeT cl.k) ∈ (main cl n_cols).actions) := by
  have hq := query_file_ne_empty cl n_cols hv hload
  have hsave : (saveOutput cl).filter
      (fun a => a.isTreeBuild || a.isSearch || a.isUnmap) = [] := by
    rw [List.filter_eq_nil_iff]
    intro a ha
    have h1 := saveOutput_no_search cl a ha
    have h2 := saveOutput_no_unmap cl a ha
    simp [h1.1, h1.2.2, h2.1]
  have hfilter : (main cl n_cols).actions.filter
        (fun a => a.isTreeBuild || a.isSearch || a.isUnmap) =
      Action.buildRefTree (toSizeT (GetParam cl.leaf_size 20)) ::
        (if HasParam cl.query_file && !cl.single_mode then
          [Action.buildQueryTree (toSizeT (GetParam cl.leaf_size 20)),
            Action.searchQueryTree (toSizeT cl.k), Action.unmapRefsQueries]
        else if HasParam cl.query_file && cl.single_mode then
          [Action.searchQueryData (toSizeT cl.k), Action.unmapRefs]
        else
          [Action.searchReference (toSizeT cl.k), Action.unmapRefsRefs]) := by
    rw [main_of_valid cl n_cols hv]
    simp only [hn, Bool.and_false, List.filter_append, hsave, List.append_nil,
      treeBranch]
    rcases hqf : cl.query_file with _ | name
    · cases hs : cl.single_mode <;>
        simp [HasParam, GetParam, Action.isTreeBuild, Action.isSearch,
          Action.isUnmap, List.filter]
    · have hname : name ≠ "" := by
        intro h
        exact hq (by rw [hqf, h])
      cases hs : cl.single_mode <;>
        simp [HasParam, GetParam, hname, Action.isTreeBuild, Action.isSearch,
          Action.isUnmap, List.filter]
  refine ⟨hfilter, ?_⟩
  have h1 : Action.unmapRefsQueries ∈ (main cl n_cols).actions ↔
      Action.unmapRefsQueries ∈ (main cl n_cols).actions.filter
        (fun a => a.isTreeBuild || a.isSearch || a.isUnmap) := by
    rw [List.mem_filter]
    simp [Action.isUnmap]
  have h2 : Action.searchQueryTree (toSizeT cl.k) ∈ (main cl n_cols).actions ↔
      Action.searchQueryTree (toSizeT cl.k) ∈ (main cl n_cols).actions.filter
        (fun a => a.isTreeBuild || a.isSearch || a.isUnmap) := by
    rw [List.mem_filter]
    simp [Action.isSearch]
  rw [h1, h2, hfilter]
  cases hqf : HasParam cl.query_file <;> cases hs : cl.single_mode <;> simp

/-- Instances of C12, on 100 reference points: with `-q queries.csv` the query
tree is searched and both permutations are used; with `-q queries.csv -s` the
query matrix is searched and the reference permutation alone is used; with no
query file the reference set is searched and the reference permutation is
used twice. -/
theorem unmap_matches_search_witness :
    (main { minimalCommandLine "input.csv" 3 with
        query_file := some "queries.csv" } 100).actions.filter
        (fun a => a.isTreeBuild || a.isSearch || a.isUnmap) =
      [.buildRefTree 20, .buildQueryTree 20, .searchQueryTree 3,
        .unmapRefsQueries] ∧
    (main { minimalCommandLine "input.csv" 3 with
        query_file := some "queries.csv",
        single_mode := true } 100).actions.filter
        (fun a => a.isTreeBuild || a.isSearch || a.isUnmap) =
      [.buildRefTree 20, .searchQueryData 3, .unmapRefs] ∧
    (main (minimalCommandLine "input.csv" 3) 100).actions.filter
        (fun a => a.isTreeBuild || a.isSearch || a.isUnmap) =
      [.buildRefTree 20, .searchReference 3, .unmapRefsRefs] :=
  ⟨(unmap_matches_search { minimalCommandLine "input.csv" 3 with
      query_file := some "queries.csv" } 100 rfl (by decide!) (by decide!)).1,
   (unmap_matches_search { minimalCommandLine "input.csv" 3 with
      query_file := some "queries.csv",
      single_mode := true } 100 rfl (by decide!) (by decide!)).1,
   (unmap_matches_search (minimalCommandLine "input.csv" 3) 100 rfl
      (by decide!) (by decide!)).1⟩

/-! ## The driver: the range of `k` -/

/-- For `0 < tau ≤ 100` and fewer than `2 ^ 55 / 100` reference points the
budget the driver computes is at most the number of reference points. -/
theorem rank_error_le_n_cols (tau : ℚ) (n_cols : Nat) (h0 : 0 < tau)
    (h100 : tau ≤ 100) (hn : 100 * n_cols < 2 ^ 55) :
    rank_error tau n_cols ≤ n_cols := by
  refine rank_error_le_of_double tau n_cols n_cols h0 h100 (le_refl _) ?_ ?_
    (by omega)
  · have := isNonnegDouble_mul_pow n_cols 0 (by omega)
    simpa using this
  · have := isNonnegDouble_mul_pow (25 * n_cols) 2 (by omega)
    have h4 : 25 * n_cols * 2 ^ 2 = 100 * n_cols := by omega
    rwa [h4] at this

/-- For `0 < tau ≤ 100` and fewer than `2 ^ 64 - 2 ^ 31` reference points the
budget the driver computes is at most `2 ^ 64 - 2 ^ 31`. -/
theorem rank_error_le_bound (tau : ℚ) (n_cols : Nat) (h0 : 0 < tau)
    (h100 : tau ≤ 100) (hn : n_cols < 2 ^ 64 - 2 ^ 31) :
    rank_error tau n_cols ≤ 2 ^ 64 - 2 ^ 31 := by
  refine rank_error_le_of_double tau n_cols (2 ^ 64 - 2 ^ 31) h0 h100
    (le_of_lt hn) ?_ ?_ (by norm_num)
  · have := isNonnegDouble_mul_pow (2 ^ 33 - 1) 31 (by norm_num)
    have h : (2 ^ 33 - 1) * 2 ^ 31 = 2 ^ 64 - 2 ^ 31 := by norm_num
    rwa [h] at this
  · have := isNonnegDouble_mul_pow (25 * (2 ^ 33 - 1)) 33 (by norm_num)
    have h : 25 * (2 ^ 33 - 1) * 2 ^ 33 = 100 * (2 ^ 64 - 2 ^ 31) := by
      norm_num
    rwa [h] at this

/-- Claim C14: a negative `int` value of `k` converts to the `size_t`
`k + 2 ^ 64`, which is at least `2 ^ 64 - 2 ^ 31` and so above every number of
reference points below `2 ^ 64 - 2 ^ 31`: the run ends in the "Invalid k"
error right after the reference file was loaded, and no `Search` is called. -/
theorem negative_k_is_rejected (cl : CommandLine) (n_cols : Nat)
    (hk : IsInt32 cl.k) (hneg : cl.k < 0) (hn : n_cols < 2 ^ 64 - 2 ^ 31) :
    (toSizeT cl.k : Int) = cl.k + 2 ^ 64 ∧
    n_cols < toSizeT cl.k ∧
    main cl n_cols =
      Fatal [.loadReference cl.reference_file]
        (.invalidK (toSizeT cl.k) n_cols) ∧
    ∀ a ∈ (main cl n_cols).actions,
      a.isTreeBuild = false ∧ a.isConstruct = false ∧ a.isSearch = false := by
  have hconv : (toSizeT cl.k : Int) = cl.k + 2 ^ 64 := by
    unfold toSizeT IsInt32 at *
    omega
  have hgt : n_cols < toSizeT cl.k := by
    unfold IsInt32 at hk
    omega
  have hm : main cl n_cols =
      Fatal [.loadReference cl.reference_file]
        (.invalidK (toSizeT cl.k) n_cols) := by
    unfold main
    simp [hgt]
  refine ⟨hconv, hgt, hm, ?_⟩
  rw [hm]
  intro a ha
  simp [Fatal] at ha
  subst ha
  exact ⟨rfl, rfl, rfl⟩

/-- An instance of C14: `k = -1` converts to `2 ^ 64 - 1` and is rejected on
100 reference points. -/
theorem negative_k_is_rejected_witness :
    toSizeT (-1) = 2 ^ 64 - 1 ∧
    main (minimalCommandLine "input.csv" (-1)) 100 =
      Fatal [.loadReference "input.csv"] (.invalidK (2 ^ 64 - 1) 100) :=
  ⟨by decide,
   (negative_k_is_rejected (minimalCommandLine "input.csv" (-1)) 100
    (by decide) (by decide) (by decide)).2.2.1⟩

end Allkrann

namespace NeighborSearch

/-! ## The order of the candidates -/

theorem betterThan_nearest (a b : ℚ) :
    SortPolicy.betterThan .NearestNeighborSort a b = true ↔ a < b := by
  simp [SortPolicy.betterThan]

theorem betterThan_furthest (a b : ℚ) :
    SortPolicy.betterThan .FurthestNeighborSort a b = true ↔ b < a := by
  simp [SortPolicy.betterThan]

theorem betterThan_irrefl (s : SortPolicy) (a : ℚ) :
    s.betterThan a a = false := by
  cases s <;> simp [SortPolicy.betterThan]

theorem betterThan_trans (s : SortPolicy) {a b c : ℚ}
    (hab : s.betterThan a b = true) (hbc : s.betterThan b c = true) :
    s.betterThan a c = true := by
  cases s <;> simp only [SortPolicy.betterThan, decide_eq_true_eq] at * <;>
    linarith

theorem betterThan_asymm (s : SortPolicy) {a b : ℚ}
    (hab : s.betterThan a b = true) : s.betterThan b a = false := by
  cases s <;>
    simp only [SortPolicy.betterThan, decide_eq_true_eq, decide_eq_false_iff_not,
      not_lt] at * <;>
    linarith

theorem betterThan_of_not (s : SortPolicy) {a b : ℚ}
    (hab : s.betterThan a b = false) (hne : a ≠ b) :
    s.betterThan b a = true := by
  cases s <;>
    simp only [SortPolicy.betterThan, decide_eq_true_eq, decide_eq_false_iff_not,
      not_lt] at * <;>
    exact lt_of_le_of_ne hab (by tauto)

/-- Not being better is transitive. -/
theorem not_betterThan_trans (s : SortPolicy) {a b c : ℚ}
    (hab : s.betterThan a b = false) (hbc : s.betterThan b c = false) :
    s.betterThan a c = false := by
  cases s <;>
    simp only [SortPolicy.betterThan, decide_eq_false_iff_not, not_lt] at * <;>
    linarith

theorem ranksBefore_of_ne (s : SortPolicy) (orig : Nat → Nat) (a b : Candidate)
    (hne : a.distance ≠ b.distance) :
    ranksBefore s orig a b = s.betterThan a.distance b.distance := by
  simp [ranksBefore, hne]

theorem ranksBefore_asymm (s : SortPolicy) (orig : Nat → Nat)
    {a b : Candidate} (hab : ranksBefore s orig a b = true) :
    ranksBefore s orig b a = false := by
  cases s <;>
    simp only [ranksBefore, SortPolicy.betterThan, Bool.or_eq_true,
      Bool.and_eq_true, decide_eq_true_eq, beq_iff_eq, Bool.or_eq_false_iff,
      Bool.and_eq_false_iff, decide_eq_false_iff_not, not_lt,
      beq_eq_false_iff_ne, ne_eq] at * <;>
    rcases hab with h | ⟨h1, h2⟩
  · exact ⟨le_of_lt h, Or.inl (ne_of_gt h)⟩
  · exact ⟨le_of_eq h1, Or.inr (by omega)⟩
  · exact ⟨le_of_lt h, Or.inl (ne_of_lt h)⟩
  · exact ⟨le_of_eq h1.symm, Or.inr (by omega)⟩

theorem ranksBefore_trans (s : SortPolicy) (orig : Nat → Nat)
    {a b c : Candidate} (hab : ranksBefore s orig a b = true)
    (hbc : ranksBefore s orig b c = true) : ranksBefore s orig a c = true := by
  cases s <;>
    simp only [ranksBefore, SortPolicy.betterThan, Bool.or_eq_true,
      Bool.and_eq_true, decide_eq_true_eq, beq_iff_eq] at * <;>
    rcases hab with h | ⟨h1, h2⟩ <;> rcases hbc with h' | ⟨h1', h2'⟩
  · exact Or.inl (by linarith)
  · exact Or.inl (by linarith)
  · exact Or.inl (by linarith)
  · exact Or.inr ⟨by linarith, by omega⟩
  · exact Or.inl (by linarith)
  · exact Or.inl (by linarith)
  · exact Or.inl (by linarith)
  · exact Or.inr ⟨by linarith, by omega⟩

theorem betterThan_imp_ranksBefore (s : SortPolicy) (orig : Nat → Nat)
    {a b : Candidate} (h : s.betterThan a.distance b.distance = true) :
    ranksBefore s orig a b = true := by
  simp [ranksBefore, h]

/-! ## Insertion into a candidate set -/

theorem insertAtRank_perm (s : SortPolicy) (orig : Nat → Nat) (c : Candidate) :
    ∀ cs : CandidateSet, (insertAtRank s orig c cs).Perm (c :: cs)
  | [] => List.Perm.refl _
  | x :: xs => by
    unfold insertAtRank
    split
    · exact List.Perm.refl _
    · exact ((insertAtRank_perm s orig c xs).cons x).trans (List.Perm.swap c x xs)

theorem mem_insertAtRank (s : SortPolicy) (orig : Nat → Nat) (c x : Candidate)
    (cs : CandidateSet) : x ∈ insertAtRank s orig c cs ↔ x = c ∨ x ∈ cs := by
  rw [(insertAtRank_perm s orig c cs).mem_iff, List.mem_cons]

theorem length_insertAtRank (s : SortPolicy) (orig : Nat → Nat) (c : Candidate)
    (cs : CandidateSet) : (insertAtRank s orig c cs).length = cs.length + 1 := by
  rw [(insertAtRank_perm s orig c cs).length_eq, List.length_cons]

theorem insertAtRank_ne_nil (s : SortPolicy) (orig : Nat → Nat) (c : Candidate)
    (cs : CandidateSet) : insertAtRank s orig c cs ≠ [] := by
  intro h
  have := length_insertAtRank s orig c cs
  rw [h] at this
  simp at this

/-- Insertion keeps a candidate set ordered: no entry ranks before an entry
that precedes it. -/
theorem pairwise_insertAtRank (s : SortPolicy) (orig : Nat → Nat)
    (c : Candidate) :
    ∀ cs : CandidateSet,
      cs.Pairwise (fun a b => ranksBefore s orig b a = false) →
      (insertAtRank s orig c cs).Pairwise
        (fun a b => ranksBefore s orig b a = false)
  | [], _ => by simp [insertAtRank]
  | x :: xs, h => by
    unfold insertAtRank
    rw [List.pairwise_cons] at h
    by_cases hcx : ranksBefore s orig c x = true
    · rw [if_pos hcx]
      refine List.Pairwise.cons ?_ (List.Pairwise.cons h.1 h.2)
      intro y hy
      rcases List.mem_cons.1 hy with rfl | hy
      · exact ranksBefore_asymm s orig hcx
      · by_contra hyc
        have hyc' : ranksBefore s orig y c = true := by
          simpa using hyc
        have := ranksBefore_trans s orig hyc' hcx
        rw [h.1 y hy] at this
        exact Bool.false_ne_true this
    · rw [if_neg hcx]
      refine List.Pairwise.cons ?_ (pairwise_insertAtRank s orig c xs h.2)
      intro y hy
      rcases (mem_insertAtRank s orig c y xs).1 hy with rfl | hy
      · simpa using hcx
      · exact h.1 y hy

theorem not_better_of_ranksBefore (s : SortPolicy) (orig : Nat → Nat)
    {a b : Candidate} (h : ranksBefore s orig a b = true) :
    s.betterThan b.distance a.distance = false := by
  by_contra hb
  have hb' : s.betterThan b.distance a.distance = true := by simpa using hb
  rw [ranksBefore_asymm s orig (betterThan_imp_ranksBefore s orig hb')] at h
  exact Bool.noConfusion h

theorem not_better_of_not_ranksBefore (s : SortPolicy) (orig : Nat → Nat)
    {a b : Candidate} (h : ¬ ranksBefore s orig a b = true) :
    s.betterThan a.distance b.distance = false := by
  by_contra hb
  have hb' : s.betterThan a.distance b.distance = true := by simpa using hb
  exact h (betterThan_imp_ranksBefore s orig hb')

/-- Insertion keeps the distances of a candidate set ordered best to worst. -/
theorem bestToWorst_insertAtRank (s : SortPolicy) (orig : Nat → Nat)
    (c : Candidate) :
    ∀ cs : CandidateSet,
      cs.Pairwise (fun a b => s.betterThan b.distance a.distance = false) →
      (insertAtRank s orig c cs).Pairwise
        (fun a b => s.betterThan b.distance a.distance = false)
  | [], _ => by simp [insertAtRank]
  | x :: xs, h => by
    unfold insertAtRank
    rw [List.pairwise_cons] at h
    by_cases hcx : ranksBefore s orig c x = true
    · rw [if_pos hcx]
      have hxc := not_better_of_ranksBefore s orig hcx
      refine List.Pairwise.cons ?_ (List.Pairwise.cons h.1 h.2)
      intro y hy
      rcases List.mem_cons.1 hy with rfl | hy
      · exact hxc
      · exact not_betterThan_trans s (h.1 y hy) hxc
    · rw [if_neg hcx]
      refine List.Pairwise.cons ?_ (bestToWorst_insertAtRank s orig c xs h.2)
      intro y hy
      rcases (mem_insertAtRank s orig c y xs).1 hy with rfl | hy
      · exact not_better_of_not_ranksBefore s orig hcx
      · exact h.1 y hy

/-- When the new entry ranks before the last entry, dropping the last entry
after the insertion is the insertion into the set without its last entry. -/
theorem dropLast_insertAtRank (s : SortPolicy) (orig : Nat → Nat)
    (c : Candidate) :
    ∀ (cs : CandidateSet) (hne : cs ≠ []),
      ranksBefore s orig c (cs.getLast hne) = true →
      (insertAtRank s orig c cs).dropLast = insertAtRank s orig c cs.dropLast
  | [], hne, _ => absurd rfl hne
  | [x], _, h => by
    have hx : ranksBefore s orig c x = true := by simpa using h
    simp [insertAtRank, hx]
  | x :: y :: ys, _, h => by
    have hlast : ranksBefore s orig c ((y :: ys).getLast (by simp)) = true := by
      simpa [List.getLast_cons] using h
    have ih := dropLast_insertAtRank s orig c (y :: ys) (by simp) hlast
    have hd : (x :: y :: ys).dropLast = x :: (y :: ys).dropLast := rfl
    by_cases hcx : ranksBefore s orig c x = true
    · have h1 : insertAtRank s orig c (x :: y :: ys) = c :: x :: y :: ys := by
        rw [insertAtRank, if_pos hcx]
      have h2 : insertAtRank s orig c (x :: (y :: ys).dropLast) =
          c :: x :: (y :: ys).dropLast := by
        rw [insertAtRank, if_pos hcx]
      rw [hd, h1, h2]
      rfl
    · have h1 : insertAtRank s orig c (x :: y :: ys) =
          x :: insertAtRank s orig c (y :: ys) := by
        rw [insertAtRank, if_neg hcx]
      have h2 : insertAtRank s orig c (x :: (y :: ys).dropLast) =
          x :: insertAtRank s orig c (y :: ys).dropLast := by
        rw [insertAtRank, if_neg hcx]
      rw [hd, h1, h2, ← ih]
      exact List.dropLast_cons_of_ne_nil (insertAtRank_ne_nil s orig c _)

theorem tryInsert_of_lt (s : SortPolicy) (orig : Nat → Nat) (k : Nat)
    (cs : CandidateSet) (d : ℚ) (i : Nat) (h : cs.length < k) :
    (tryInsert s orig k cs d i).1 = insertAtRank s orig ⟨d, i⟩ cs := by
  simp [tryInsert, h]

theorem tryInsert_of_full (s : SortPolicy) (orig : Nat → Nat) (k : Nat)
    (cs : CandidateSet) (d : ℚ) (i : Nat) (h : ¬ cs.length < k)
    (hne : cs ≠ []) :
    (tryInsert s orig k cs d i).1 =
      if ranksBefore s orig ⟨d, i⟩ (cs.getLast hne) = true then
        insertAtRank s orig ⟨d, i⟩ cs.dropLast
      else cs := by
  have hw : worst k cs = some (cs.getLast hne) := by
    simp [worst, h, List.getLast?_eq_getLast _ hne]
  simp only [tryInsert, h, if_false, hw]
  by_cases hr : ranksBefore s orig ⟨d, i⟩ (cs.getLast hne) = true
  · rw [if_pos hr, if_pos hr, dropLast_insertAtRank s orig _ cs hne hr]
  · rw [if_neg hr, if_neg hr]

theorem tryInsert_of_nil (s : SortPolicy) (orig : Nat → Nat)
    (d : ℚ) (i : Nat) : (tryInsert s orig 0 [] d i).1 = [] := by
  simp [tryInsert, worst]

theorem worst_eq_some (k : Nat) (cs : CandidateSet) (w : Candidate)
    (h : worst k cs = some w) :
    ¬ cs.length < k ∧ ∃ hne : cs ≠ [], cs.getLast hne = w := by
  unfold worst at h
  split at h
  · simp at h
  · next hk =>
    refine ⟨hk, ?_⟩
    cases cs with
    | nil => simp at h
    | cons x xs =>
      refine ⟨by simp, ?_⟩
      rw [List.getLast?_eq_getLast _ (by simp)] at h
      exact Option.some.inj h

/-- An attempted insertion keeps a candidate set ordered. -/
theorem pairwise_tryInsert (s : SortPolicy) (orig : Nat → Nat) (k : Nat)
    (cs : CandidateSet) (d : ℚ) (i : Nat)
    (h : cs.Pairwise (fun a b => ranksBefore s orig b a = false)) :
    (tryInsert s orig k cs d i).1.Pairwise
      (fun a b => ranksBefore s orig b a = false) := by
  unfold tryInsert
  split
  · exact pairwise_insertAtRank s orig _ cs h
  · split
    · exact h
    · split
      · exact (pairwise_insertAtRank s orig _ cs h).sublist
          (List.dropLast_sublist _)
      · exact h

/-! ## The best `k` of a set of references -/

theorem isTopK_empty (s : SortPolicy) (k : Nat) (dist : Nat → ℚ) :
    IsTopK s k dist ∅ [] :=
  ⟨List.Pairwise.nil, by simp, by simp, by simp, by simp⟩

/-- The last entry of an ordered set is better than none of the entries before
it. -/
theorem not_better_of_mem_dropLast (s : SortPolicy) (cs : CandidateSet)
    (hne : cs ≠ [])
    (h : cs.Pairwise (fun a b => s.betterThan b.distance a.distance = false)) :
    ∀ x ∈ cs.dropLast,
      s.betterThan (cs.getLast hne).distance x.distance = false := by
  intro x hx
  have hsplit := List.dropLast_append_getLast hne
  rw [← hsplit, List.pairwise_append] at h
  exact h.2.2 x hx _ (List.mem_singleton_self _)

theorem mem_dropLast_or_eq_getLast (cs : CandidateSet) (hne : cs ≠ [])
    (x : Candidate) (hx : x ∈ cs) : x ∈ cs.dropLast ∨ x = cs.getLast hne := by
  have hsplit := List.dropLast_append_getLast hne
  rw [← hsplit] at hx
  rcases List.mem_append.1 hx with h | h
  · exact Or.inl h
  · exact Or.inr (List.mem_singleton.1 h)

/-- The last entry of an ordered set is better than none of its entries. -/
theorem not_better_last (s : SortPolicy) (cs : CandidateSet) (hne : cs ≠ [])
    (h : cs.Pairwise (fun a b => s.betterThan b.distance a.distance = false)) :
    ∀ x ∈ cs, s.betterThan (cs.getLast hne).distance x.distance = false := by
  intro x hx
  rcases mem_dropLast_or_eq_getLast cs hne x hx with hx | hx
  · exact not_better_of_mem_dropLast s cs hne h x hx
  · rw [hx]; exact betterThan_irrefl s _

theorem nodup_index_insertAtRank (s : SortPolicy) (orig : Nat → Nat)
    (c : Candidate) (cs : CandidateSet)
    (hnd : (cs.map Candidate.index).Nodup)
    (hc : ∀ x ∈ cs, x.index ≠ c.index) :
    ((insertAtRank s orig c cs).map Candidate.index).Nodup := by
  rw [((insertAtRank_perm s orig c cs).map Candidate.index).nodup_iff,
    List.map_cons, List.nodup_cons]
  refine ⟨?_, hnd⟩
  intro hmem
  obtain ⟨x, hx, hxc⟩ := List.mem_map.1 hmem
  exact hc x hx hxc

/-- One attempted insertion of a reference not yet seen: the set holds the
best `k` of the references seen, the new one included. -/
theorem IsTopK.tryInsert {s : SortPolicy} {k : Nat} {dist : Nat → ℚ}
    {A : Set Nat} {cs : CandidateSet} (orig : Nat → Nat)
    (h : IsTopK s k dist A cs) (i : Nat) (hi : i ∉ A) :
    IsTopK s k dist (insert i A)
      (NeighborSearch.tryInsert s orig k cs (dist i) i).1 := by
  have hidx : ∀ x ∈ cs, x.index ≠ i := fun x hx hxi =>
    hi (hxi ▸ (h.mem x hx).1)
  by_cases hlt : cs.length < k
  · rw [tryInsert_of_lt s orig k cs _ i hlt]
    refine ⟨bestToWorst_insertAtRank s orig _ cs h.sorted, ?_, ?_,
      nodup_index_insertAtRank s orig _ cs h.nodup hidx, ?_⟩
    · intro c hc
      rcases (mem_insertAtRank s orig _ c cs).1 hc with rfl | hc
      · exact ⟨Set.mem_insert _ _, rfl⟩
      · exact ⟨Set.mem_insert_of_mem _ (h.mem c hc).1, (h.mem c hc).2⟩
    · rw [length_insertAtRank]
      omega
    · intro j hj
      rcases Set.mem_insert_iff.1 hj with rfl | hj
      · exact Or.inl ⟨_, (mem_insertAtRank s orig _ _ cs).2 (Or.inl rfl), rfl⟩
      · rcases h.rest j hj with ⟨c, hc, hcj⟩ | ⟨hk, _⟩
        · exact Or.inl ⟨c, (mem_insertAtRank s orig _ c cs).2 (Or.inr hc), hcj⟩
        · omega
  · have hlen : cs.length = k := le_antisymm h.length_le (not_lt.1 hlt)
    by_cases hnil : cs = []
    · subst hnil
      have hk : k = 0 := by simpa using hlen.symm
      subst hk
      rw [tryInsert_of_nil]
      exact ⟨List.Pairwise.nil, by simp, by simp, by simp,
        fun j _ => Or.inr ⟨rfl, by simp⟩⟩
    · rw [tryInsert_of_full s orig k cs _ i hlt hnil]
      have hwcs : cs.getLast hnil ∈ cs := List.getLast_mem hnil
      have hlast := not_better_last s cs hnil h.sorted
      have hsub : cs.dropLast.Sublist cs := List.dropLast_sublist cs
      by_cases hb :
          ranksBefore s orig ⟨dist i, i⟩ (cs.getLast hnil) = true
      · rw [if_pos hb]
        have hwc : s.betterThan (cs.getLast hnil).distance (dist i) = false :=
          not_better_of_ranksBefore s orig hb
        have hlen' :
            (insertAtRank s orig ⟨dist i, i⟩ cs.dropLast).length = k := by
          rw [length_insertAtRank, List.length_dropLast]
          have : 0 < cs.length := List.length_pos.2 hnil
          omega
        refine ⟨bestToWorst_insertAtRank s orig _ _ (h.sorted.sublist hsub),
          ?_, le_of_eq hlen',
          nodup_index_insertAtRank s orig _ _
            (h.nodup.sublist (hsub.map _))
            (fun x hx => hidx x (hsub.subset hx)), ?_⟩
        · intro c hc
          rcases (mem_insertAtRank s orig _ c _).1 hc with rfl | hc
          · exact ⟨Set.mem_insert _ _, rfl⟩
          · exact ⟨Set.mem_insert_of_mem _ (h.mem c (hsub.subset hc)).1,
              (h.mem c (hsub.subset hc)).2⟩
        · intro j hj
          rcases Set.mem_insert_iff.1 hj with rfl | hj
          · exact Or.inl ⟨_, (mem_insertAtRank s orig _ _ _).2 (Or.inl rfl), rfl⟩
          · rcases h.rest j hj with ⟨c, hc, hcj⟩ | ⟨_, hall⟩
            · rcases mem_dropLast_or_eq_getLast cs hnil c hc with hc | hc
              · exact Or.inl ⟨c, (mem_insertAtRank s orig _ c _).2 (Or.inr hc), hcj⟩
              · refine Or.inr ⟨hlen', ?_⟩
                have hdj : dist j = (cs.getLast hnil).distance := by
                  rw [← hcj, ← (h.mem c (by rw [hc]; exact hwcs)).2, hc]
                intro y hy
                rw [hdj]
                rcases (mem_insertAtRank s orig _ y _).1 hy with rfl | hy
                · exact hwc
                · exact hlast y (hsub.subset hy)
            · refine Or.inr ⟨hlen', ?_⟩
              intro y hy
              rcases (mem_insertAtRank s orig _ y _).1 hy with rfl | hy
              · exact not_betterThan_trans s (hall _ hwcs) hwc
              · exact hall y (hsub.subset hy)
      · rw [if_neg hb]
        have hcw : s.betterThan (dist i) (cs.getLast hnil).distance = false := by
          by_contra hbt
          have hbt' : s.betterThan (dist i) (cs.getLast hnil).distance = true := by
            simpa using hbt
          exact hb (betterThan_imp_ranksBefore s orig hbt')
        refine ⟨h.sorted, fun c hc =>
          ⟨Set.mem_insert_of_mem _ (h.mem c hc).1, (h.mem c hc).2⟩,
          h.length_le, h.nodup, ?_⟩
        intro j hj
        rcases Set.mem_insert_iff.1 hj with rfl | hj
        · exact Or.inr ⟨hlen, fun x hx =>
            not_betterThan_trans s hcw (hlast x hx)⟩
        · exact h.rest j hj

/-- Leaving out references that are not better than the worst entry of a full
set changes nothing. -/
theorem IsTopK.prune {s : SortPolicy} {k : Nat} {dist : Nat → ℚ}
    {A : Set Nat} {cs : CandidateSet} (h : IsTopK s k dist A cs)
    (w : Candidate) (hw : worst k cs = some w) (B : Set Nat)
    (hB : ∀ j ∈ B, s.betterThan (dist j) w.distance = false) :
    IsTopK s k dist (A ∪ B) cs := by
  obtain ⟨hk, hnil, hlast⟩ := worst_eq_some k cs w hw
  have hlen : cs.length = k := le_antisymm h.length_le (not_lt.1 hk)
  have hnb := not_better_last s cs hnil h.sorted
  rw [hlast] at hnb
  refine ⟨h.sorted, fun c hc => ⟨Or.inl (h.mem c hc).1, (h.mem c hc).2⟩,
    h.length_le, h.nodup, ?_⟩
  intro j hj
  by_cases hjA : j ∈ A
  · exact h.rest j hjA
  · rcases hj with hj | hj
    · exact absurd hj hjA
    · exact Or.inr ⟨hlen, fun x hx =>
        not_betterThan_trans s (hB j hj) (hnb x hx)⟩

theorem IsTopK.congr {s : SortPolicy} {k : Nat} {dist : Nat → ℚ}
    {A B : Set Nat} {cs : CandidateSet} (h : IsTopK s k dist A cs)
    (hAB : A = B) : IsTopK s k dist B cs := hAB ▸ h

theorem IsTopK.eq_of_index_eq {s : SortPolicy} {k k' : Nat} {dist : Nat → ℚ}
    {A : Set Nat} {cs cs' : CandidateSet} (h : IsTopK s k dist A cs)
    (h' : IsTopK s k' dist A cs') {c c' : Candidate} (hc : c ∈ cs)
    (hc' : c' ∈ cs') (hidx : c.index = c'.index) : c = c' := by
  have hd : c.distance = c'.distance := by
    rw [(h.mem c hc).2, (h'.mem c' hc').2, hidx]
  cases c; cases c'; simp_all

theorem IsTopK.nodup_candidates {s : SortPolicy} {k : Nat} {dist : Nat → ℚ}
    {A : Set Nat} {cs : CandidateSet} (h : IsTopK s k dist A cs) :
    cs.Nodup :=
  List.Nodup.of_map _ h.nodup

/-- When one of two sets of best `k` has room left, both hold all the
references. -/
theorem IsTopK.perm_of_lt {s : SortPolicy} {k : Nat} {dist : Nat → ℚ}
    {A : Set Nat} {cs cs' : CandidateSet} (h : IsTopK s k dist A cs)
    (h' : IsTopK s k dist A cs') (hlt : cs.length < k) : cs.Perm cs' := by
  have hall : ∀ i ∈ A, ∃ c ∈ cs, c.index = i := by
    intro i hi
    rcases h.rest i hi with hc | ⟨hk, _⟩
    · exact hc
    · omega
  have hsub' : cs' ⊆ cs := by
    intro c' hc'
    obtain ⟨c, hc, hci⟩ := hall _ (h'.mem c' hc').1
    exact (h.eq_of_index_eq h' hc hc' hci) ▸ hc
  have hle : cs'.length ≤ cs.length :=
    (List.subperm_of_subset h'.nodup_candidates hsub').length_le
  have hall' : ∀ i ∈ A, ∃ c ∈ cs', c.index = i := by
    intro i hi
    rcases h'.rest i hi with hc | ⟨hk, _⟩
    · exact hc
    · omega
  have hsub : cs ⊆ cs' := by
    intro c hc
    obtain ⟨c', hc', hci⟩ := hall' _ (h.mem c hc).1
    exact (h'.eq_of_index_eq h hc' hc hci) ▸ hc'
  exact (List.perm_ext_iff_of_nodup h.nodup_candidates
    h'.nodup_candidates).2 (fun c => ⟨fun hc => hsub hc, fun hc => hsub' hc⟩)

/-- An entry of one set of best `k` that the other one does not hold is at
the same distance as any entry of the other that the first does not hold. -/
theorem IsTopK.distance_eq_of_not_mem {s : SortPolicy} {k : Nat}
    {dist : Nat → ℚ} {A : Set Nat} {cs cs' : CandidateSet}
    (h : IsTopK s k dist A cs) (h' : IsTopK s k dist A cs')
    {c c' : Candidate} (hc : c ∈ cs) (hc' : c' ∈ cs')
    (hn : ∀ x ∈ cs', x.index ≠ c.index) (hn' : ∀ x ∈ cs, x.index ≠ c'.index) :
    c.distance = c'.distance := by
  have h1 : s.betterThan c.distance c'.distance = false := by
    rcases h'.rest c.index (h.mem c hc).1 with ⟨x, hx, hxi⟩ | ⟨_, hall⟩
    · exact absurd hxi (hn x hx)
    · rw [(h.mem c hc).2]; exact hall c' hc'
  have h2 : s.betterThan c'.distance c.distance = false := by
    rcases h.rest c'.index (h'.mem c' hc').1 with ⟨x, hx, hxi⟩ | ⟨_, hall⟩
    · exact absurd hxi (hn' x hx)
    · rw [(h'.mem c' hc').2]; exact hall c hc
  by_contra hne
  rw [betterThan_of_not s h1 hne] at h2
  exact Bool.noConfusion h2

/-- Two sets of best `k` of the same references hold the same distances, up to
their order. -/
theorem IsTopK.distances_perm {s : SortPolicy} {k : Nat} {dist : Nat → ℚ}
    {A : Set Nat} {cs cs' : CandidateSet} (h : IsTopK s k dist A cs)
    (h' : IsTopK s k dist A cs') :
    (cs.map Candidate.distance).Perm (cs'.map Candidate.distance) := by
  by_cases hlt : cs.length < k
  · exact (h.perm_of_lt h' hlt).map _
  by_cases hlt' : cs'.length < k
  · exact ((h'.perm_of_lt h hlt').map _).symm
  have hlen : cs.length = cs'.length := by
    have := h.length_le
    have := h'.length_le
    omega
  -- the entries both sets hold, and the entries only one of them holds
  have hY : (cs.filter (fun c => decide (c.index ∈ cs'.map Candidate.index))).Perm
      (cs'.filter (fun c => decide (c.index ∈ cs.map Candidate.index))) := by
    refine (List.perm_ext_iff_of_nodup (h.nodup_candidates.filter _)
      (h'.nodup_candidates.filter _)).2 ?_
    intro c
    simp only [List.mem_filter, decide_eq_true_eq, List.mem_map]
    constructor
    · rintro ⟨hc, c', hc', hci⟩
      have := h.eq_of_index_eq h' hc hc' hci.symm
      exact ⟨this ▸ hc', c, hc, rfl⟩
    · rintro ⟨hc', c0, hc0, hci⟩
      have := h.eq_of_index_eq h' hc0 hc' hci
      exact ⟨this ▸ hc0, c, hc', rfl⟩
  have hsplit := List.filter_append_perm
    (fun c => decide (c.index ∈ cs'.map Candidate.index)) cs
  have hsplit' := List.filter_append_perm
    (fun c => decide (c.index ∈ cs.map Candidate.index)) cs'
  have hXlen : (cs.filter (fun c =>
      !decide (c.index ∈ cs'.map Candidate.index))).length =
      (cs'.filter (fun c =>
        !decide (c.index ∈ cs.map Candidate.index))).length := by
    have h1 := hsplit.length_eq
    have h2 := hsplit'.length_eq
    have h3 := hY.length_eq
    rw [List.length_append] at h1 h2
    omega
  have hX : (cs.filter (fun c =>
      !decide (c.index ∈ cs'.map Candidate.index))).map Candidate.distance =
      (cs'.filter (fun c =>
        !decide (c.index ∈ cs.map Candidate.index))).map Candidate.distance := by
    have hmemX : ∀ c ∈ cs.filter (fun c =>
        !decide (c.index ∈ cs'.map Candidate.index)),
        c ∈ cs ∧ ∀ x ∈ cs', x.index ≠ c.index := by
      intro c hc
      simp only [List.mem_filter, Bool.not_eq_true', decide_eq_false_iff_not,
        List.mem_map, not_exists, not_and] at hc
      exact ⟨hc.1, hc.2⟩
    have hmemX' : ∀ c ∈ cs'.filter (fun c =>
        !decide (c.index ∈ cs.map Candidate.index)),
        c ∈ cs' ∧ ∀ x ∈ cs, x.index ≠ c.index := by
      intro c hc
      simp only [List.mem_filter, Bool.not_eq_true', decide_eq_false_iff_not,
        List.mem_map, not_exists, not_and] at hc
      exact ⟨hc.1, hc.2⟩
    cases hx : cs.filter (fun c =>
        !decide (c.index ∈ cs'.map Candidate.index)) with
    | nil =>
      rw [hx] at hXlen
      have := List.eq_nil_of_length_eq_zero hXlen.symm
      rw [this]
    | cons c0 rest =>
      have hc0 := hmemX c0 (by rw [hx]; exact List.mem_cons_self _ _)
      have h1 : (c0 :: rest).map Candidate.distance =
          List.replicate (c0 :: rest).length c0.distance := by
        rw [List.eq_replicate_iff]
        refine ⟨by simp, ?_⟩
        intro d hd
        obtain ⟨c, hc, rfl⟩ := List.mem_map.1 hd
        have hcm := hmemX c (by rw [hx]; exact hc)
        cases hx' : cs'.filter (fun c =>
            !decide (c.index ∈ cs.map Candidate.index)) with
        | nil =>
          rw [hx, hx'] at hXlen
          simp at hXlen
        | cons c1 rest' =>
          have hc1 := hmemX' c1 (by rw [hx']; exact List.mem_cons_self _ _)
          rw [h.distance_eq_of_not_mem h' hcm.1 hc1.1 hcm.2 hc1.2,
            h.distance_eq_of_not_mem h' hc0.1 hc1.1 hc0.2 hc1.2]
      have h2 : (cs'.filter (fun c =>
          !decide (c.index ∈ cs.map Candidate.index))).map Candidate.distance =
          List.replicate (c0 :: rest).length c0.distance := by
        rw [List.eq_replicate_iff]
        refine ⟨by rw [List.length_map, ← hXlen, hx], ?_⟩
        intro d hd
        obtain ⟨c, hc, rfl⟩ := List.mem_map.1 hd
        have hcm := hmemX' c hc
        exact (h.distance_eq_of_not_mem h' hc0.1 hcm.1 hc0.2 hcm.2).symm
      rw [h1, h2]
  have e1 := (hsplit.map Candidate.distance).symm
  have e2 := hsplit'.map Candidate.distance
  rw [List.map_append] at e1 e2
  refine e1.trans (List.Perm.trans ?_ e2)
  rw [hX]
  exact List.Perm.append_right _ (hY.map _)

/-- Two sets of best `k` of the same references hold the same distances, row
by row. -/
theorem IsTopK.distances_eq {s : SortPolicy} {k : Nat} {dist : Nat → ℚ}
    {A : Set Nat} {cs cs' : CandidateSet} (h : IsTopK s k dist A cs)
    (h' : IsTopK s k dist A cs') :
    cs.map Candidate.distance = cs'.map Candidate.distance := by
  have hanti : IsAntisymm ℚ (fun a b => s.betterThan b a = false) :=
    ⟨fun a b hab hba => by
      by_contra hne
      rw [betterThan_of_not s hba hne] at hab
      exact Bool.noConfusion hab⟩
  refine @List.eq_of_perm_of_sorted ℚ (fun a b => s.betterThan b a = false)
    hanti _ _ (h.distances_perm h') ?_ ?_
  · exact (List.pairwise_map).2 h.sorted
  · exact (List.pairwise_map).2 h'.sorted

/-- Entries that are references of a set without ties, with their distances,
are determined by their distances. -/
theorem eq_of_map_distance_eq (dist : Nat → ℚ) (A : Set Nat)
    (hinj : Set.InjOn dist A) :
    ∀ cs cs' : CandidateSet,
      (∀ c ∈ cs, c.index ∈ A ∧ c.distance = dist c.index) →
      (∀ c ∈ cs', c.index ∈ A ∧ c.distance = dist c.index) →
      cs.map Candidate.distance = cs'.map Candidate.distance → cs = cs'
  | [], [], _, _, _ => rfl
  | [], _ :: _, _, _, h => by simp at h
  | _ :: _, [], _, _, h => by simp at h
  | c :: cs, c' :: cs', hm, hm', h => by
    simp only [List.map_cons, List.cons.injEq] at h
    have hc := hm c (List.mem_cons_self _ _)
    have hc' := hm' c' (List.mem_cons_self _ _)
    have hidx : c.index = c'.index := by
      apply hinj hc.1 hc'.1
      rw [← hc.2, ← hc'.2]
      exact h.1
    have hcc : c = c' := by
      have := h.1
      cases c; cases c'; simp_all
    rw [hcc, eq_of_map_distance_eq dist A hinj cs cs'
      (fun x hx => hm x (List.mem_cons_of_mem _ hx))
      (fun x hx => hm' x (List.mem_cons_of_mem _ hx)) h.2]

/-- Without ties the best `k` of a set of references is determined by the
set. -/
theorem IsTopK.unique {s : SortPolicy} {k : Nat} {dist : Nat → ℚ}
    {A : Set Nat} {cs cs' : CandidateSet} (h : IsTopK s k dist A cs)
    (h' : IsTopK s k dist A cs') (hinj : Set.InjOn dist A) : cs = cs' :=
  eq_of_map_distance_eq dist A hinj cs cs' h.mem h'.mem (h.distances_eq h')

/-- Without ties the best `k` are strictly ordered. -/
theorem IsTopK.strict {s : SortPolicy} {k : Nat} {dist : Nat → ℚ}
    {A : Set Nat} {cs : CandidateSet} (h : IsTopK s k dist A cs)
    (hinj : Set.InjOn dist A) :
    cs.Pairwise (fun a b => s.betterThan a.distance b.distance = true) := by
  have hnd : List.Pairwise (fun a b => a ≠ b) (cs.map Candidate.index) :=
    h.nodup
  rw [List.pairwise_map] at hnd
  have hboth := h.sorted.and hnd
  have hmem := List.Pairwise.and_mem.1 hboth
  refine hmem.imp ?_
  rintro a b ⟨ha, hb, hab, hne⟩
  refine betterThan_of_not s hab ?_
  intro heq
  apply hne
  apply hinj (h.mem a ha).1 (h.mem b hb).1
  rw [← (h.mem a ha).2, ← (h.mem b hb).2, heq]

/-- Remapping the indices of the best `k` by a one-to-one map gives the best
`k` of the remapped references. -/
theorem IsTopK.unmap {s : SortPolicy} {k : Nat} {dist : Nat → ℚ}
    {A : Set Nat} {cs : CandidateSet} (h : IsTopK s k dist A cs)
    (dist' : Nat → ℚ) (oldFromNew : List Nat)
    (hd : ∀ t ∈ A, dist t = dist' (oldFromNew.getD t t))
    (hinj : Set.InjOn (fun t => oldFromNew.getD t t) A) :
    IsTopK s k dist' (Set.image (fun t => oldFromNew.getD t t) A)
      (unmapColumn oldFromNew cs) := by
  unfold unmapColumn
  refine ⟨?_, ?_, ?_, ?_, ?_⟩
  · rw [List.pairwise_map]
    exact h.sorted
  · intro c hc
    obtain ⟨x, hx, rfl⟩ := List.mem_map.1 hc
    refine ⟨⟨x.index, (h.mem x hx).1, rfl⟩, ?_⟩
    simp only
    rw [(h.mem x hx).2, hd _ (h.mem x hx).1]
  · rw [List.length_map]
    exact h.length_le
  · rw [List.map_map]
    have hnd : List.Pairwise (fun a b => a ≠ b) (cs.map Candidate.index) :=
      h.nodup
    rw [List.pairwise_map] at hnd
    show List.Pairwise (fun a b => a ≠ b) _
    rw [List.pairwise_map]
    refine (List.Pairwise.and_mem.1 hnd).imp ?_
    rintro a b ⟨ha, hb, hne⟩ heq
    exact hne (hinj (h.mem a ha).1 (h.mem b hb).1 heq)
  · rintro j ⟨t, ht, rfl⟩
    rcases h.rest t ht with ⟨c, hc, hct⟩ | ⟨hlen, hall⟩
    · exact Or.inl ⟨_, List.mem_map_of_mem _ hc, by simp [hct]⟩
    · refine Or.inr ⟨by rw [List.length_map]; exact hlen, ?_⟩
      intro c hc
      obtain ⟨x, hx, rfl⟩ := List.mem_map.1 hc
      simp only
      rw [← hd t ht]
      exact hall x hx

/-! ## Distances and bounds -/

theorem distance_nil_left (p : Point) : distance [] p = 0 := by
  simp [distance]

theorem distance_nil_right (q : Point) : distance q [] = 0 := by
  simp [distance]

theorem distance_cons (x y : ℚ) (q p : Point) :
    distance (x :: q) (y :: p) = (x - y) ^ 2 + distance q p := by
  simp [distance]

theorem distance_nonneg : ∀ q p : Point, 0 ≤ distance q p
  | [], p => by rw [distance_nil_left]
  | _ :: _, [] => by rw [distance_nil_right]
  | x :: q, y :: p => by
    rw [distance_cons]
    have := distance_nonneg q p
    positivity

theorem distance_self : ∀ q : Point, distance q q = 0
  | [] => distance_nil_left _
  | x :: q => by rw [distance_cons, distance_self q]; simp

theorem eq_of_distance_eq_zero :
    ∀ q p : Point, q.length = p.length → distance q p = 0 → q = p
  | [], [], _, _ => rfl
  | [], _ :: _, h, _ => by simp at h
  | _ :: _, [], h, _ => by simp at h
  | x :: q, y :: p, h, h0 => by
    rw [distance_cons] at h0
    have h1 : 0 ≤ (x - y) ^ 2 := sq_nonneg _
    have h2 := distance_nonneg q p
    have h3 : (x - y) ^ 2 = 0 := by linarith
    have h4 : distance q p = 0 := by linarith
    have hxy : x = y := by
      have := pow_eq_zero_iff (two_ne_zero) |>.1 h3
      linarith
    rw [hxy, eq_of_distance_eq_zero q p (by simpa using h) h4]

theorem contains_cons (iv : ℚ × ℚ) (b : BoundingRegion) (x : ℚ) (p : Point) :
    BoundingRegion.Contains (iv :: b) (x :: p) ↔
      (iv.1 ≤ x ∧ x ≤ iv.2) ∧ BoundingRegion.Contains b p := by
  simp only [BoundingRegion.Contains, List.length_cons, List.zip_cons_cons,
    List.mem_cons, forall_eq_or_imp, add_left_inj]
  tauto

theorem contains_nil_left (p : Point) :
    BoundingRegion.Contains [] p ↔ p = [] := by
  cases p <;> simp [BoundingRegion.Contains]

theorem contains_nil_right (b : BoundingRegion) :
    BoundingRegion.Contains b [] ↔ b = [] := by
  cases b <;> simp [BoundingRegion.Contains]

theorem pointRegion_contains : ∀ q : Point, (pointRegion q).Contains q
  | [] => by simp [pointRegion, BoundingRegion.Contains]
  | x :: q => by
    have ih := pointRegion_contains q
    simp only [pointRegion, List.map_cons] at ih ⊢
    rw [contains_cons]
    exact ⟨⟨le_refl _, le_refl _⟩, ih⟩

theorem nodeBound_furthest_cons (a b : ℚ × ℚ) (bq br : BoundingRegion) :
    NodeBound .FurthestNeighborSort (a :: bq) (b :: br) =
      (max |a.2 - b.1| |b.2 - a.1|) ^ 2 +
        NodeBound .FurthestNeighborSort bq br := by
  simp [NodeBound]

theorem nodeBound_nearest_cons (a b : ℚ × ℚ) (bq br : BoundingRegion) :
    NodeBound .NearestNeighborSort (a :: bq) (b :: br) =
      (max 0 (max (a.1 - b.2) (b.1 - a.2))) ^ 2 +
        NodeBound .NearestNeighborSort bq br := by
  simp [NodeBound]

/-- The furthest-search bound of two regions is at least the distance of any
two points of the regions. -/
theorem nodeBound_furthest_sound :
    ∀ (bq : BoundingRegion) (q : Point) (br : BoundingRegion) (p : Point),
      bq.Contains q → br.Contains p →
      distance q p ≤ NodeBound .FurthestNeighborSort bq br
  | [], q, br, p, hq, _ => by
    rw [(contains_nil_left q).1 hq, distance_nil_left]
    simp [NodeBound]
  | _ :: _, [], _, _, hq, _ => by
    have := (contains_nil_right _).1 hq
    simp at this
  | a :: bq, x :: q, [], p, _, hp => by
    rw [(contains_nil_left p).1 hp, distance_nil_right]
    simp [NodeBound]
  | _ :: _, _ :: _, _ :: _, [], _, hp => by
    have := (contains_nil_right _).1 hp
    simp at this
  | a :: bq, x :: q, b :: br, y :: p, hq, hp => by
    rw [contains_cons] at hq hp
    rw [distance_cons, nodeBound_furthest_cons]
    have ih := nodeBound_furthest_sound bq q br p hq.2 hp.2
    have h1 : x - y ≤ max |a.2 - b.1| |b.2 - a.1| :=
      le_trans (by linarith [hq.1.2, hp.1.1])
        (le_trans (le_abs_self _) (le_max_left _ _))
    have h2 : -(max |a.2 - b.1| |b.2 - a.1|) ≤ x - y := by
      have : y - x ≤ max |a.2 - b.1| |b.2 - a.1| :=
        le_trans (by linarith [hq.1.1, hp.1.2])
          (le_trans (le_abs_self _) (le_max_right _ _))
      linarith
    have h3 := sq_le_sq' h2 h1
    linarith

/-- The nearest-search bound of two regions is at most the distance of any two
points of the regions. -/
theorem nodeBound_nearest_sound :
    ∀ (bq : BoundingRegion) (q : Point) (br : BoundingRegion) (p : Point),
      bq.Contains q → br.Contains p →
      NodeBound .NearestNeighborSort bq br ≤ distance q p
  | [], q, br, p, hq, _ => by
    rw [(contains_nil_left q).1 hq, distance_nil_left]
    simp [NodeBound]
  | _ :: _, [], _, _, hq, _ => by
    have := (contains_nil_right _).1 hq
    simp at this
  | a :: bq, x :: q, [], p, _, hp => by
    rw [(contains_nil_left p).1 hp, distance_nil_right]
    simp [NodeBound]
  | _ :: _, _ :: _, _ :: _, [], _, hp => by
    have := (contains_nil_right _).1 hp
    simp at this
  | a :: bq, x :: q, b :: br, y :: p, hq, hp => by
    rw [contains_cons] at hq hp
    rw [distance_cons, nodeBound_nearest_cons]
    have ih := nodeBound_nearest_sound bq q br p hq.2 hp.2
    have h0 : 0 ≤ max 0 (max (a.1 - b.2) (b.1 - a.2)) := le_max_left _ _
    have h1 : max 0 (max (a.1 - b.2) (b.1 - a.2)) ≤ |x - y| := by
      refine max_le (abs_nonneg _) (max_le ?_ ?_)
      · exact le_trans (by linarith [hq.1.1, hp.1.2]) (le_abs_self _)
      · exact le_trans (by linarith [hq.1.2, hp.1.1]) (neg_le_abs _)
    have h3 : (max 0 (max (a.1 - b.2) (b.1 - a.2))) ^ 2 ≤ (x - y) ^ 2 := by
      rw [sq_le_sq, abs_of_nonneg h0]
      exact h1
    linarith

/-- No point of the reference region is at a distance from a point of the
query region that is better than the bound. -/
theorem nodeBound_sound (s : SortPolicy) (bq : BoundingRegion) (q : Point)
    (br : BoundingRegion) (p : Point) (hq : bq.Contains q)
    (hp : br.Contains p) :
    s.betterThan (distance q p) (NodeBound s bq br) = false := by
  cases s
  · have := nodeBound_nearest_sound bq q br p hq hp
    simp only [SortPolicy.betterThan, decide_eq_false_iff_not, not_lt]
    exact this
  · have := nodeBound_furthest_sound bq q br p hq hp
    simp only [SortPolicy.betterThan, decide_eq_false_iff_not, not_lt]
    exact this

/-! ## The searches keep the best `k` -/

theorem mem_treeRange (node : TreeNode) (t : Nat) :
    t ∈ node.range ↔ node.start ≤ t ∧ t < node.start + node.count := by
  simp [TreeNode.range, List.mem_range'_1]

theorem start_node (start count : Nat) (bound : BoundingRegion)
    (left right : TreeNode) :
    (TreeNode.node start count bound left right).start = start := rfl

theorem count_node (start count : Nat) (bound : BoundingRegion)
    (left right : TreeNode) :
    (TreeNode.node start count bound left right).count = count := rfl

/-- Comparing a query with reference points not yet seen gives the best `k` of
the references seen. -/
theorem isTopK_visitPoints (s : SortPolicy) (orig : Nat → Nat) (k : Nat)
    (refs : Dataset) (q : Point) :
    ∀ (indices : List Nat) (A : Set Nat) (cs : CandidateSet),
      IsTopK s k (distFrom refs q) A cs → (∀ i ∈ indices, i ∉ A) →
      indices.Nodup →
      IsTopK s k (distFrom refs q) (A ∪ {i | i ∈ indices})
        (visitPoints s orig k refs q indices cs)
  | [], A, cs, h, _, _ => by
    simpa [visitPoints] using h
  | i :: is, A, cs, h, hd, hn => by
    have hiA : i ∉ A := hd i (List.mem_cons_self _ _)
    have hstep := h.tryInsert orig i hiA
    rw [List.nodup_cons] at hn
    have ih := isTopK_visitPoints s orig k refs q is (insert i A) _ hstep
      (fun j hj hjA => by
        rcases Set.mem_insert_iff.1 hjA with rfl | hjA
        · exact hn.1 hj
        · exact hd j (List.mem_cons_of_mem _ hj) hjA)
      hn.2
    have hset : insert i A ∪ {j | j ∈ is} = A ∪ {j | j ∈ i :: is} := by
      ext x
      simp only [Set.mem_union, Set.mem_insert_iff, Set.mem_setOf_eq,
        List.mem_cons]
      tauto
    exact ih.congr hset

/-- A node that the pruning rule allows to skip holds no reference that is
better than the worst entry kept. -/
theorem isTopK_of_prunable (s : SortPolicy) (k : Nat) (refs : Dataset)
    (q : Point) (A : Set Nat) (cs : CandidateSet)
    (h : IsTopK s k (distFrom refs q) A cs)
    (bq br : BoundingRegion) (hq : bq.Contains q)
    (hp : prunable s k (NodeBound s bq br) cs = true) (B : Set Nat)
    (hB : ∀ t ∈ B, br.Contains (refs.getD t [])) :
    IsTopK s k (distFrom refs q) (A ∪ B) cs := by
  unfold prunable at hp
  split at hp
  · exact absurd hp Bool.false_ne_true
  · next w hw =>
    refine h.prune w hw B ?_
    intro t ht
    exact not_betterThan_trans s (nodeBound_sound s bq q br _ hq (hB t ht))
      (by simpa using hp)

/-- The single-tree search of a node whose references were not yet seen gives
the best `k` of the references seen, the node's included. -/
theorem isTopK_singleTreeSearch (s : SortPolicy) (orig : Nat → Nat) (k : Nat)
    (refs : Dataset) (q : Point) :
    ∀ (node : TreeNode) (A : Set Nat) (cs : CandidateSet),
      node.WellFormed refs → IsTopK s k (distFrom refs q) A cs →
      (∀ t ∈ node.range, t ∉ A) →
      IsTopK s k (distFrom refs q) (A ∪ {t | t ∈ node.range})
        (SingleTreeSearch s orig k refs q node cs)
  | .leaf start count bound, A, cs, hwf, h, hd => by
    unfold SingleTreeSearch
    split
    · next hp =>
      exact isTopK_of_prunable s k refs q A cs h _ bound
        (pointRegion_contains q) hp _ (fun t ht => hwf t ht)
    · exact isTopK_visitPoints s orig k refs q _ A cs h hd
        (List.nodup_range' _ _)
  | .node start count bound left right, A, cs, hwf, h, hd => by
    obtain ⟨hb, hls, hrs, hcnt, hwl, hwr⟩ := hwf
    have hmemL : ∀ t, t ∈ left.range →
        t ∈ (TreeNode.node start count bound left right).range := by
      intro t ht
      rw [mem_treeRange] at ht ⊢
      rw [start_node, count_node]
      omega
    have hmemR : ∀ t, t ∈ right.range →
        t ∈ (TreeNode.node start count bound left right).range := by
      intro t ht
      rw [mem_treeRange] at ht ⊢
      rw [start_node, count_node]
      omega
    have hLR : ∀ t, t ∈ left.range → t ∉ right.range := by
      intro t ht ht'
      rw [mem_treeRange] at ht ht'
      omega
    have hset : ∀ t, t ∈ (TreeNode.node start count bound left right).range ↔
        t ∈ left.range ∨ t ∈ right.range := by
      intro t
      simp only [mem_treeRange, start_node, count_node]
      omega
    unfold SingleTreeSearch
    split
    · next hp =>
      exact isTopK_of_prunable s k refs q A cs h _ bound
        (pointRegion_contains q) hp _ (fun t ht => hb t ht)
    · split
      · have h1 := isTopK_singleTreeSearch s orig k refs q right A cs hwr h
          (fun t ht => hd t (hmemR t ht))
        have h2 := isTopK_singleTreeSearch s orig k refs q left _ _ hwl h1
          (fun t ht htA => by
            rcases htA with htA | htA
            · exact hd t (hmemL t ht) htA
            · exact hLR t ht htA)
        refine h2.congr ?_
        ext t
        simp only [Set.mem_union, Set.mem_setOf_eq, hset]
        tauto
      · have h1 := isTopK_singleTreeSearch s orig k refs q left A cs hwl h
          (fun t ht => hd t (hmemL t ht))
        have h2 := isTopK_singleTreeSearch s orig k refs q right _ _ hwr h1
          (fun t ht htA => by
            rcases htA with htA | htA
            · exact hd t (hmemR t ht) htA
            · exact hLR t htA ht)
        refine h2.congr ?_
        ext t
        simp only [Set.mem_union, Set.mem_setOf_eq, hset]
        tauto

theorem wellFormed_bound (data : Dataset) :
    ∀ node : TreeNode, node.WellFormed data →
      ∀ t ∈ node.range, node.bound.Contains (data.getD t [])
  | .leaf _ _ _, hwf => hwf
  | .node _ _ _ _ _, hwf => hwf.1

theorem DualStep.of_refs_eq {s : SortPolicy} {k : Nat} {queries refs : Dataset}
    {Q B B' : Set Nat} {f : (Nat → CandidateSet) → Nat → CandidateSet}
    (h : DualStep s k queries refs Q B f) (hB : B = B') :
    DualStep s k queries refs Q B' f := hB ▸ h

theorem DualStep.of_queries_eq {s : SortPolicy} {k : Nat}
    {queries refs : Dataset} {Q Q' B : Set Nat}
    {f : (Nat → CandidateSet) → Nat → CandidateSet}
    (h : DualStep s k queries refs Q B f) (hQ : Q = Q') :
    DualStep s k queries refs Q' B f := hQ ▸ h

/-- Two steps for the same queries, one after the other, account for the
references of both. -/
theorem DualStep.seq_refs {s : SortPolicy} {k : Nat} {queries refs : Dataset}
    {Q B1 B2 : Set Nat} {f1 f2 : (Nat → CandidateSet) → Nat → CandidateSet}
    (h1 : DualStep s k queries refs Q B1 f1)
    (h2 : DualStep s k queries refs Q B2 f2)
    (hdisj : ∀ i ∈ B2, i ∉ B1) :
    DualStep s k queries refs Q (B1 ∪ B2) (fun sets => f2 (f1 sets)) := by
  intro A sets hd hpre
  obtain ⟨hpost1, hframe1⟩ := h1 A sets (fun i hi => hd i (Or.inl hi)) hpre
  obtain ⟨hpost2, hframe2⟩ := h2 (A ∪ B1) (f1 sets)
    (fun i hi hiA => by
      rcases hiA with hiA | hiA
      · exact hd i (Or.inr hi) hiA
      · exact hdisj i hi hiA)
    hpost1
  refine ⟨fun t ht => (hpost2 t ht).congr (Set.union_assoc _ _ _), ?_⟩
  intro t ht
  show f2 (f1 sets) t = sets t
  rw [hframe2 t ht, hframe1 t ht]

/-- Two steps for the same references and separate queries, one after the
other, serve the queries of both. -/
theorem DualStep.seq_queries {s : SortPolicy} {k : Nat}
    {queries refs : Dataset} {Q1 Q2 B : Set Nat}
    {f1 f2 : (Nat → CandidateSet) → Nat → CandidateSet}
    (h1 : DualStep s k queries refs Q1 B f1)
    (h2 : DualStep s k queries refs Q2 B f2)
    (hdisj : ∀ t ∈ Q2, t ∉ Q1) :
    DualStep s k queries refs (Q1 ∪ Q2) B (fun sets => f2 (f1 sets)) := by
  intro A sets hd hpre
  obtain ⟨hpost1, hframe1⟩ := h1 A sets hd (fun t ht => hpre t (Or.inl ht))
  obtain ⟨hpost2, hframe2⟩ := h2 A (f1 sets) hd (fun t ht => by
    rw [hframe1 t (hdisj t ht)]
    exact hpre t (Or.inr ht))
  refine ⟨?_, ?_⟩
  · intro t ht
    show IsTopK s k (distFrom refs (queries.getD t [])) (A ∪ B) (f2 (f1 sets) t)
    by_cases ht2 : t ∈ Q2
    · exact hpost2 t ht2
    · rw [hframe2 t ht2]
      rcases ht with ht | ht
      · exact hpost1 t ht
      · exact absurd ht ht2
  · intro t ht
    show f2 (f1 sets) t = sets t
    rw [hframe2 t (fun h => ht (Or.inr h)), hframe1 t (fun h => ht (Or.inl h))]

theorem DualStep.ite {s : SortPolicy} {k : Nat} {queries refs : Dataset}
    {Q B : Set Nat} {f1 f2 : (Nat → CandidateSet) → Nat → CandidateSet}
    (c : Bool) (h1 : DualStep s k queries refs Q B f1)
    (h2 : DualStep s k queries refs Q B f2) :
    DualStep s k queries refs Q B
      (fun sets => if c = true then f1 sets else f2 sets) := by
  cases c
  · simpa using h2
  · simpa using h1

/-- A step guarded by the pruning rule of a pair of nodes is a step. -/
theorem DualStep.guarded {s : SortPolicy} {k : Nat} {queries refs : Dataset}
    (query reference : TreeNode)
    {f : (Nat → CandidateSet) → Nat → CandidateSet}
    (h : DualStep s k queries refs {t | t ∈ query.range}
      {i | i ∈ reference.range} f)
    (hq : ∀ t ∈ query.range, query.bound.Contains (queries.getD t []))
    (hr : ∀ i ∈ reference.range, reference.bound.Contains (refs.getD i [])) :
    DualStep s k queries refs {t | t ∈ query.range}
      {i | i ∈ reference.range}
      (fun sets =>
        if dualPrunable s k query reference sets = true then sets
        else f sets) := by
  intro A sets hd hpre
  by_cases hp : dualPrunable s k query reference sets = true
  · beta_reduce
    rw [if_pos hp]
    refine ⟨?_, fun _ _ => rfl⟩
    intro t ht
    have hpt : prunable s k (NodeBound s query.bound reference.bound)
        (sets t) = true := by
      unfold dualPrunable at hp
      rw [List.all_eq_true] at hp
      exact hp t ht
    exact isTopK_of_prunable s k refs _ A (sets t) (hpre t ht)
      query.bound reference.bound (hq t ht) hpt _ (fun i hi => hr i hi)
  · beta_reduce
    rw [if_neg hp]
    exact h A sets hd hpre

/-- The base case of the dual-tree search is a step. -/
theorem dualStep_baseCase (s : SortPolicy) (orig : Nat → Nat) (k : Nat)
    (queries refs : Dataset) (query reference : TreeNode) :
    DualStep s k queries refs {t | t ∈ query.range}
      {i | i ∈ reference.range}
      (dualBaseCase s orig k queries refs query reference) := by
  intro A sets hd hpre
  refine ⟨?_, ?_⟩
  · intro t ht
    have ht' := (mem_treeRange query t).1 ht
    simp only [dualBaseCase, ht', and_self, if_true]
    exact isTopK_visitPoints s orig k refs _ _ A (sets t) (hpre t ht) hd
      (List.nodup_range' _ _)
  · intro t ht
    have ht' : ¬ (query.start ≤ t ∧ t < query.start + query.count) :=
      fun h => ht ((mem_treeRange query t).2 h)
    simp only [dualBaseCase, ht', if_false]

theorem range_children (data : Dataset) (start count : Nat)
    (bound : BoundingRegion) (left right : TreeNode)
    (hwf : (TreeNode.node start count bound left right).WellFormed data) :
    ({t | t ∈ left.range} ∪ {t | t ∈ right.range} =
      {t | t ∈ (TreeNode.node start count bound left right).range}) ∧
    ({t | t ∈ right.range} ∪ {t | t ∈ left.range} =
      {t | t ∈ (TreeNode.node start count bound left right).range}) ∧
    (∀ t, t ∈ left.range → t ∉ right.range) ∧
    (∀ t, t ∈ right.range → t ∉ left.range) := by
  obtain ⟨_, hls, hrs, hcnt, _, _⟩ := hwf
  refine ⟨?_, ?_, ?_, ?_⟩
  · ext t
    simp only [Set.mem_union, Set.mem_setOf_eq, mem_treeRange, start_node,
      count_node]
    omega
  · ext t
    simp only [Set.mem_union, Set.mem_setOf_eq, mem_treeRange, start_node,
      count_node]
    omega
  · intro t ht ht'
    rw [mem_treeRange] at ht ht'
    omega
  · intro t ht ht'
    rw [mem_treeRange] at ht ht'
    omega

/-- The dual-tree search below a query leaf is a step for the queries of the
leaf and the references of the reference node. -/
theorem dualStep_searchLeaf (s : SortPolicy) (orig : Nat → Nat) (k : Nat)
    (queries refs : Dataset) (query : TreeNode)
    (hq : ∀ t ∈ query.range, query.bound.Contains (queries.getD t [])) :
    ∀ reference : TreeNode, reference.WellFormed refs →
      DualStep s k queries refs {t | t ∈ query.range}
        {i | i ∈ reference.range}
        (DualTreeSearchLeaf s orig k queries refs query reference)
  | .leaf start count bound, hwf => by
    have heq : DualTreeSearchLeaf s orig k queries refs query
        (.leaf start count bound) = fun sets =>
          if dualPrunable s k query (.leaf start count bound) sets = true
          then sets
          else dualBaseCase s orig k queries refs query
            (.leaf start count bound) sets := by
      funext sets
      rw [DualTreeSearchLeaf]
    rw [heq]
    exact DualStep.guarded query _
      (dualStep_baseCase s orig k queries refs query _) hq
      (fun i hi => hwf i hi)
  | .node start count bound left right, hwf => by
    obtain ⟨hLR, hRL, hdisj, hdisj'⟩ :=
      range_children refs start count bound left right hwf
    have ihL := dualStep_searchLeaf s orig k queries refs query hq left
      hwf.2.2.2.2.1
    have ihR := dualStep_searchLeaf s orig k queries refs query hq right
      hwf.2.2.2.2.2
    have heq : DualTreeSearchLeaf s orig k queries refs query
        (.node start count bound left right) = fun sets =>
          if dualPrunable s k query (.node start count bound left right) sets
            = true
          then sets
          else
            (fun sets =>
              if s.betterThan (NodeBound s query.bound right.bound)
                (NodeBound s query.bound left.bound) = true
              then (fun sets =>
                DualTreeSearchLeaf s orig k queries refs query left
                  (DualTreeSearchLeaf s orig k queries refs query right sets))
                sets
              else (fun sets =>
                DualTreeSearchLeaf s orig k queries refs query right
                  (DualTreeSearchLeaf s orig k queries refs query left sets))
                sets) sets := by
      funext sets
      rw [DualTreeSearchLeaf]
    rw [heq]
    refine DualStep.guarded query _ (DualStep.ite _ ?_ ?_) hq
      (fun i hi => hwf.1 i hi)
    · exact (ihR.seq_refs ihL hdisj).of_refs_eq hRL
    · exact (ihL.seq_refs ihR hdisj').of_refs_eq hLR

/-- The dual-tree search of a pair of nodes is a step for the queries of the
query node and the references of the reference node. -/
theorem dualStep_search (s : SortPolicy) (orig : Nat → Nat) (k : Nat)
    (queries refs : Dataset) :
    ∀ query : TreeNode, query.WellFormed queries →
      ∀ reference : TreeNode, reference.WellFormed refs →
      DualStep s k queries refs {t | t ∈ query.range}
        {i | i ∈ reference.range}
        (DualTreeSearch s orig k queries refs query reference)
  | .leaf start count bound, hwf, reference, hwr => by
    have heq : DualTreeSearch s orig k queries refs (.leaf start count bound)
        reference = DualTreeSearchLeaf s orig k queries refs
          (.leaf start count bound) reference := by
      funext sets
      rw [DualTreeSearch]
    rw [heq]
    exact dualStep_searchLeaf s orig k queries refs _
      (wellFormed_bound queries _ hwf) reference hwr
  | .node start count bound left right, hwf, reference, hwr => by
    obtain ⟨hLR, hRL, hdisj, hdisj'⟩ :=
      range_children queries start count bound left right hwf
    have ihL := dualStep_search s orig k queries refs left hwf.2.2.2.2.1
    have ihR := dualStep_search s orig k queries refs right hwf.2.2.2.2.2
    have hq := wellFormed_bound queries _ hwf
    cases reference with
    | leaf rstart rcount rbound =>
      have heq : DualTreeSearch s orig k queries refs
          (.node start count bound left right) (.leaf rstart rcount rbound) =
          fun sets =>
            if dualPrunable s k (.node start count bound left right)
              (.leaf rstart rcount rbound) sets = true
            then sets
            else (fun sets =>
              DualTreeSearch s orig k queries refs right
                (.leaf rstart rcount rbound)
                (DualTreeSearch s orig k queries refs left
                  (.leaf rstart rcount rbound) sets)) sets := by
        funext sets
        rw [DualTreeSearch]
      rw [heq]
      refine DualStep.guarded _ _ ?_ hq (fun i hi => hwr i hi)
      exact ((ihL _ hwr).seq_queries (ihR _ hwr) hdisj').of_queries_eq hLR
    | node rstart rcount rbound rleft rright =>
      obtain ⟨hLR', hRL', hdisjr, hdisjr'⟩ :=
        range_children refs rstart rcount rbound rleft rright hwr
      have hwl := hwr.2.2.2.2.1
      have hwrr := hwr.2.2.2.2.2
      have heq : DualTreeSearch s orig k queries refs
          (.node start count bound left right)
          (.node rstart rcount rbound rleft rright) =
          fun sets =>
            if dualPrunable s k (.node start count bound left right)
              (.node rstart rcount rbound rleft rright) sets = true
            then sets
            else (fun sets =>
              (fun sets =>
                if s.betterThan (NodeBound s right.bound rright.bound)
                  (NodeBound s right.bound rleft.bound) = true
                then (fun sets =>
                  DualTreeSearch s orig k queries refs right rleft
                    (DualTreeSearch s orig k queries refs right rright sets))
                  sets
                else (fun sets =>
                  DualTreeSearch s orig k queries refs right rright
                    (DualTreeSearch s orig k queries refs right rleft sets))
                  sets)
              ((fun sets =>
                if s.betterThan (NodeBound s left.bound rright.bound)
                  (NodeBound s left.bound rleft.bound) = true
                then (fun sets =>
                  DualTreeSearch s orig k queries refs left rleft
                    (DualTreeSearch s orig k queries refs left rright sets))
                  sets
                else (fun sets =>
                  DualTreeSearch s orig k queries refs left rright
                    (DualTreeSearch s orig k queries refs left rleft sets))
                  sets) sets)) sets := by
        funext sets
        rw [DualTreeSearch]
      rw [heq]
      refine DualStep.guarded _ _ ?_ hq (fun i hi => hwr.1 i hi)
      have hleft : DualStep s k queries refs {t | t ∈ left.range}
          {i | i ∈ (TreeNode.node rstart rcount rbound rleft rright).range}
          _ :=
        DualStep.ite
          (s.betterThan (NodeBound s left.bound rright.bound)
            (NodeBound s left.bound rleft.bound))
          (((ihL _ hwrr).seq_refs (ihL _ hwl) hdisjr).of_refs_eq hRL')
          (((ihL _ hwl).seq_refs (ihL _ hwrr) hdisjr').of_refs_eq hLR')
      have hright : DualStep s k queries refs {t | t ∈ right.range}
          {i | i ∈ (TreeNode.node rstart rcount rbound rleft rright).range}
          _ :=
        DualStep.ite
          (s.betterThan (NodeBound s right.bound rright.bound)
            (NodeBound s right.bound rleft.bound))
          (((ihR _ hwrr).seq_refs (ihR _ hwl) hdisjr).of_refs_eq hRL')
          (((ihR _ hwl).seq_refs (ihR _ hwrr) hdisjr').of_refs_eq hLR')
      exact (hleft.seq_queries hright hdisj').of_queries_eq hLR

/-! ## Built trees and the remapping -/

theorem length_oldFromNew (bt : BuiltTree) (pts : Dataset)
    (h : bt.IsTreeOf pts) : bt.oldFromNew.length = pts.length := by
  rw [h.1.length_eq, List.length_range]

theorem length_data (bt : BuiltTree) (pts : Dataset) (h : bt.IsTreeOf pts) :
    bt.data.length = pts.length := by
  rw [h.2.1, List.length_map, length_oldFromNew bt pts h]

theorem originalIndex_eq (bt : BuiltTree) (pts : Dataset) (h : bt.IsTreeOf pts)
    (t : Nat) (ht : t < pts.length) :
    bt.originalIndex t =
      bt.oldFromNew.get ⟨t, by rw [length_oldFromNew bt pts h]; exact ht⟩ := by
  unfold BuiltTree.originalIndex
  rw [List.getD_eq_getElem]
  rfl

theorem originalIndex_lt (bt : BuiltTree) (pts : Dataset) (h : bt.IsTreeOf pts)
    (t : Nat) (ht : t < pts.length) : bt.originalIndex t < pts.length := by
  rw [originalIndex_eq bt pts h t ht]
  have hm := List.get_mem bt.oldFromNew t
    (by rw [length_oldFromNew bt pts h]; exact ht)
  exact List.mem_range.1 (h.1.mem_iff.1 hm)

theorem originalIndex_inj (bt : BuiltTree) (pts : Dataset)
    (h : bt.IsTreeOf pts) (t t' : Nat) (ht : t < pts.length)
    (ht' : t' < pts.length) (heq : bt.originalIndex t = bt.originalIndex t') :
    t = t' := by
  rw [originalIndex_eq bt pts h t ht, originalIndex_eq bt pts h t' ht'] at heq
  have hnd : bt.oldFromNew.Nodup := h.1.nodup_iff.2 (List.nodup_range _)
  have := (List.nodup_iff_injective_get.1 hnd) heq
  exact Fin.mk.inj this

theorem indexOf_originalIndex (bt : BuiltTree) (pts : Dataset)
    (h : bt.IsTreeOf pts) (j : Nat) (hj : j < pts.length) :
    bt.oldFromNew.indexOf j < pts.length ∧
      bt.originalIndex (bt.oldFromNew.indexOf j) = j := by
  have hm : j ∈ bt.oldFromNew := h.1.mem_iff.2 (List.mem_range.2 hj)
  have hlt : bt.oldFromNew.indexOf j < bt.oldFromNew.length :=
    List.indexOf_lt_length.2 hm
  have hlt' : bt.oldFromNew.indexOf j < pts.length := by
    rw [← length_oldFromNew bt pts h]; exact hlt
  refine ⟨hlt', ?_⟩
  rw [originalIndex_eq bt pts h _ hlt']
  exact List.indexOf_get hlt

theorem data_getD (bt : BuiltTree) (pts : Dataset) (h : bt.IsTreeOf pts)
    (t : Nat) (ht : t < pts.length) :
    bt.data.getD t [] = pts.getD (bt.originalIndex t) [] := by
  have hl : t < bt.oldFromNew.length := by
    rw [length_oldFromNew bt pts h]; exact ht
  have hd : t < (bt.oldFromNew.map (fun i => pts.getD i [])).length := by
    rw [List.length_map]; exact hl
  rw [h.2.1, List.getD_eq_getElem _ _ hd, List.getElem_map]
  unfold BuiltTree.originalIndex
  rw [List.getD_eq_getElem _ _ hl]

theorem mem_rootRange (bt : BuiltTree) (pts : Dataset) (h : bt.IsTreeOf pts)
    (t : Nat) : t ∈ bt.root.range ↔ t < pts.length := by
  rw [mem_treeRange, h.2.2.1, h.2.2.2.1]
  omega

theorem image_rootRange (bt : BuiltTree) (pts : Dataset)
    (h : bt.IsTreeOf pts) :
    Set.image (fun t => bt.oldFromNew.getD t t) {t | t ∈ bt.root.range} =
      {i | i < pts.length} := by
  ext i
  simp only [Set.mem_image, Set.mem_setOf_eq]
  constructor
  · rintro ⟨t, ht, rfl⟩
    exact originalIndex_lt bt pts h t ((mem_rootRange bt pts h t).1 ht)
  · intro hi
    obtain ⟨hlt, heq⟩ := indexOf_originalIndex bt pts h i hi
    exact ⟨_, (mem_rootRange bt pts h _).2 hlt, heq⟩

theorem injOn_of_noTies (q : Point) (refs : Dataset) (h : NoTies q refs) :
    Set.InjOn (distFrom refs q) {i | i < refs.length} :=
  fun i hi j hj heq => h i hi j hj heq

theorem injOn_originalIndex (bt : BuiltTree) (pts : Dataset)
    (h : bt.IsTreeOf pts) :
    Set.InjOn (fun t => bt.oldFromNew.getD t t) {t | t ∈ bt.root.range} := by
  intro t ht t' ht' heq
  exact originalIndex_inj bt pts h t t' ((mem_rootRange bt pts h t).1 ht)
    ((mem_rootRange bt pts h t').1 ht') heq

/-! ## The columns of the three searches -/

/-- The column of the naive search for a query holds the best `k` of all
references. -/
theorem isTopK_naive (s : SortPolicy) (k : Nat) (refs : Dataset) (q : Point) :
    IsTopK s k (distFrom refs q) {i | i < refs.length}
      (visitPoints s id k refs q (List.range refs.length) []) := by
  have h := isTopK_visitPoints s id k refs q (List.range refs.length) ∅ []
    (isTopK_empty s k _) (fun i _ => Set.not_mem_empty i)
    (List.nodup_range _)
  refine h.congr ?_
  ext i
  simp

/-- The remapped column of the single-tree search for a query holds the best
`k` of all references. -/
theorem isTopK_singleTree (s : SortPolicy) (k : Nat) (refs : Dataset)
    (bt : BuiltTree) (h : bt.IsTreeOf refs) (q : Point) :
    IsTopK s k (distFrom refs q) {i | i < refs.length}
      (unmapColumn bt.oldFromNew
        (SingleTreeSearch s bt.originalIndex k bt.data q bt.root [])) := by
  have h1 := isTopK_singleTreeSearch s bt.originalIndex k bt.data q bt.root ∅
    [] h.2.2.2.2 (isTopK_empty s k _) (fun t _ => Set.not_mem_empty t)
  rw [Set.empty_union] at h1
  have h2 := h1.unmap (distFrom refs q) bt.oldFromNew (by
    intro t ht
    unfold distFrom
    rw [data_getD bt refs h t ((mem_rootRange bt refs h t).1 ht)]
    rfl) (injOn_originalIndex bt refs h)
  exact h2.congr (image_rootRange bt refs h)

/-- After the dual-tree search from the two roots the remapped set of every
query holds the best `k` of all references. -/
theorem isTopK_dualTree (s : SortPolicy) (k : Nat) (queries refs : Dataset)
    (qt rt : BuiltTree) (hqt : qt.IsTreeOf queries) (hrt : rt.IsTreeOf refs)
    (t : Nat) (ht : t < queries.length) :
    IsTopK s k (distFrom refs (qt.data.getD t [])) {i | i < refs.length}
      (unmapColumn rt.oldFromNew
        (DualTreeSearch s rt.originalIndex k qt.data rt.data qt.root rt.root
          (fun _ => []) t)) := by
  have hstep := dualStep_search s rt.originalIndex k qt.data rt.data
    qt.root hqt.2.2.2.2 rt.root hrt.2.2.2.2
  have h1 := (hstep ∅ (fun _ => []) (fun i _ => Set.not_mem_empty i)
    (fun t _ => isTopK_empty s k _)).1 t ((mem_rootRange qt queries hqt t).2 ht)
  rw [Set.empty_union] at h1
  have h2 := h1.unmap (distFrom refs (qt.data.getD t []))
    rt.oldFromNew (by
    intro i hi
    unfold distFrom
    rw [data_getD rt refs hrt i ((mem_rootRange rt refs hrt i).1 hi)]
    rfl) (injOn_originalIndex rt refs hrt)
  exact h2.congr (image_rootRange rt refs hrt)

/-! ## The tree searches against the naive search -/

theorem map_eq_map_range {β : Type} (l : Dataset) (f : Point → β) :
    l.map f = (List.range l.length).map (fun j => f (l.getD j [])) := by
  apply List.ext_getElem
  · simp
  · intro n h1 h2
    have hn : n < l.length := by simpa using h1
    rw [List.getElem_map, List.getElem_map, List.getElem_range,
      List.getD_eq_getElem _ _ hn]

theorem getD_mem (l : Dataset) (j : Nat) (hj : j < l.length) :
    l.getD j [] ∈ l := by
  rw [List.getD_eq_getElem _ _ hj]
  exact List.getElem_mem hj

theorem getD_map_range {β : Type} (n : Nat) (f : Nat → β) (d : β) (j : Nat)
    (hj : j < n) : ((List.range n).map f).getD j d = f j := by
  rw [List.getD_eq_getElem _ _
    (by rw [List.length_map, List.length_range]; exact hj),
    List.getElem_map, List.getElem_range]

theorem getD_map_dataset {β : Type} (l : Dataset) (f : Point → β) (d : β)
    (j : Nat) (hj : j < l.length) : (l.map f).getD j d = f (l.getD j []) := by
  rw [List.getD_eq_getElem _ _ (by rw [List.length_map]; exact hj),
    List.getElem_map, List.getD_eq_getElem _ _ hj]

theorem getD_naiveSearch (s : SortPolicy) (k : Nat) (queries refs : Dataset)
    (j : Nat) (hj : j < queries.length) :
    (NaiveSearch s k queries refs).getD j [] =
      visitPoints s id k refs (queries.getD j []) (List.range refs.length)
        [] := by
  unfold NaiveSearch
  rw [List.getD_eq_getElem _ _ (by rw [List.length_map]; exact hj),
    List.getElem_map, List.getD_eq_getElem _ _ hj]

/-- The naive search is exact. -/
theorem isExactOutput_naive (s : SortPolicy) (k : Nat)
    (queries refs : Dataset) :
    IsExactOutput s k queries refs (NaiveSearch s k queries refs) := by
  refine ⟨by simp [NaiveSearch], ?_⟩
  intro j hj
  rw [getD_naiveSearch s k queries refs j hj]
  exact isTopK_naive s k refs _

/-- The single-tree search of a separate query set is exact. -/
theorem isExactOutput_single (s : SortPolicy) (k : Nat)
    (queries refs : Dataset) (rt : BuiltTree) (hrt : rt.IsTreeOf refs) :
    IsExactOutput s k queries refs (ComputeNeighborsSingle s k queries rt) := by
  unfold ComputeNeighborsSingle UnmapRefs
  refine ⟨by simp, ?_⟩
  intro j hj
  rw [List.map_map, getD_map_dataset queries _ _ j hj]
  exact isTopK_singleTree s k refs rt hrt _

/-- The single-tree search of the reference set against itself is exact. -/
theorem isExactOutput_singleSelf (s : SortPolicy) (k : Nat) (refs : Dataset)
    (rt : BuiltTree) (hrt : rt.IsTreeOf refs) :
    IsExactOutput s k refs refs (ComputeNeighborsSingleSelf s k rt) := by
  unfold ComputeNeighborsSingleSelf Unmap
  rw [List.length_map, length_data rt refs hrt]
  refine ⟨by simp, ?_⟩
  intro j hj
  rw [getD_map_range _ _ _ j hj]
  obtain ⟨hlt, heq⟩ := indexOf_originalIndex rt refs hrt j hj
  have hlt' : rt.oldFromNew.indexOf j < rt.data.length := by
    rw [length_data rt refs hrt]; exact hlt
  rw [getD_map_dataset rt.data _ _ _ hlt', data_getD rt refs hrt _ hlt, heq]
  exact isTopK_singleTree s k refs rt hrt _

/-- The dual-tree search is exact. -/
theorem isExactOutput_dual (s : SortPolicy) (k : Nat) (queries refs : Dataset)
    (qt rt : BuiltTree) (hqt : qt.IsTreeOf queries) (hrt : rt.IsTreeOf refs) :
    IsExactOutput s k queries refs (ComputeNeighborsDual s k qt rt) := by
  unfold ComputeNeighborsDual Unmap
  rw [List.length_map, List.length_range, length_data qt queries hqt]
  refine ⟨by simp, ?_⟩
  intro j hj
  rw [getD_map_range _ _ _ j hj]
  obtain ⟨hlt, heq⟩ := indexOf_originalIndex qt queries hqt j hj
  rw [getD_map_range _ _ _ _ hlt]
  have hdual := isTopK_dualTree s k queries refs qt rt hqt hrt _ hlt
  rw [data_getD qt queries hqt _ hlt, heq] at hdual
  exact hdual

/-- Two exact outputs have the same distance matrix. -/
theorem IsExactOutput.distances_matrix_eq {s : SortPolicy} {k : Nat}
    {queries refs : Dataset} {out out' : List CandidateSet}
    (h : IsExactOutput s k queries refs out)
    (h' : IsExactOutput s k queries refs out') :
    distances out = distances out' := by
  unfold distances
  apply List.ext_getElem
  · rw [List.length_map, List.length_map, h.1, h'.1]
  · intro j h1 h2
    have hj : j < out.length := by simpa using h1
    have hj' : j < out'.length := by simpa using h2
    rw [List.getElem_map, List.getElem_map, ← List.getD_eq_getElem _ [] hj,
      ← List.getD_eq_getElem _ [] hj']
    exact (h.2 j (h.1 ▸ hj)).distances_eq (h'.2 j (h.1 ▸ hj))

/-- Without ties two exact outputs are equal. -/
theorem IsExactOutput.eq_of_noTies {s : SortPolicy} {k : Nat}
    {queries refs : Dataset} {out out' : List CandidateSet}
    (h : IsExactOutput s k queries refs out)
    (h' : IsExactOutput s k queries refs out')
    (hq : ∀ q ∈ queries, NoTies q refs) : out = out' := by
  apply List.ext_getElem
  · rw [h.1, h'.1]
  · intro j hj hj'
    rw [← List.getD_eq_getElem _ [] hj, ← List.getD_eq_getElem _ [] hj']
    have hjq : j < queries.length := h.1 ▸ hj
    exact (h.2 j hjq).unique (h'.2 j hjq)
      (injOn_of_noTies _ refs (hq _ (getD_mem queries j hjq)))

/-! ## The order of the rows -/

theorem pairwise_visitPoints (s : SortPolicy) (orig : Nat → Nat) (k : Nat)
    (refs : Dataset) (q : Point) :
    ∀ (indices : List Nat) (cs : CandidateSet),
      cs.Pairwise (fun a b => ranksBefore s orig b a = false) →
      (visitPoints s orig k refs q indices cs).Pairwise
        (fun a b => ranksBefore s orig b a = false)
  | [], _, h => h
  | i :: is, cs, h => by
    simp only [visitPoints] at *
    exact pairwise_visitPoints s orig k refs q is _
      (pairwise_tryInsert s orig k cs _ i h)

theorem pairwise_singleTreeSearch (s : SortPolicy) (orig : Nat → Nat)
    (k : Nat) (refs : Dataset) (q : Point) :
    ∀ (node : TreeNode) (cs : CandidateSet),
      cs.Pairwise (fun a b => ranksBefore s orig b a = false) →
      (SingleTreeSearch s orig k refs q node cs).Pairwise
        (fun a b => ranksBefore s orig b a = false)
  | .leaf start count bound, cs, h => by
    unfold SingleTreeSearch
    split
    · exact h
    · exact pairwise_visitPoints s orig k refs q _ cs h
  | .node start count bound left right, cs, h => by
    unfold SingleTreeSearch
    split
    · exact h
    · split
      · exact pairwise_singleTreeSearch s orig k refs q left _
          (pairwise_singleTreeSearch s orig k refs q right cs h)
      · exact pairwise_singleTreeSearch s orig k refs q right _
          (pairwise_singleTreeSearch s orig k refs q left cs h)

theorem pairwise_dualBaseCase (s : SortPolicy) (orig : Nat → Nat) (k : Nat)
    (queries refs : Dataset) (query reference : TreeNode)
    (sets : Nat → CandidateSet)
    (h : ∀ t, (sets t).Pairwise (fun a b => ranksBefore s orig b a = false)) :
    ∀ t, (dualBaseCase s orig k queries refs query reference sets t).Pairwise
      (fun a b => ranksBefore s orig b a = false) := by
  intro t
  unfold dualBaseCase
  split
  · exact pairwise_visitPoints s orig k refs _ _ _ (h t)
  · exact h t

theorem pairwise_dualTreeSearchLeaf (s : SortPolicy) (orig : Nat → Nat)
    (k : Nat) (queries refs : Dataset) (query : TreeNode) :
    ∀ (reference : TreeNode) (sets : Nat → CandidateSet),
      (∀ t, (sets t).Pairwise (fun a b => ranksBefore s orig b a = false)) →
      ∀ t, (DualTreeSearchLeaf s orig k queries refs query reference sets
        t).Pairwise (fun a b => ranksBefore s orig b a = false)
  | .leaf start count bound, sets, h => by
    unfold DualTreeSearchLeaf
    split
    · exact h
    · exact pairwise_dualBaseCase s orig k queries refs query _ sets h
  | .node start count bound left right, sets, h => by
    unfold DualTreeSearchLeaf
    split
    · exact h
    · split
      · exact pairwise_dualTreeSearchLeaf s orig k queries refs query left _
          (pairwise_dualTreeSearchLeaf s orig k queries refs query right sets h)
      · exact pairwise_dualTreeSearchLeaf s orig k queries refs query right _
          (pairwise_dualTreeSearchLeaf s orig k queries refs query left sets h)

theorem pairwise_dualTreeSearch (s : SortPolicy) (orig : Nat → Nat)
    (k : Nat) (queries refs : Dataset) :
    ∀ (query reference : TreeNode) (sets : Nat → CandidateSet),
      (∀ t, (sets t).Pairwise (fun a b => ranksBefore s orig b a = false)) →
      ∀ t, (DualTreeSearch s orig k queries refs query reference sets
        t).Pairwise (fun a b => ranksBefore s orig b a = false)
  | .leaf start count bound, reference, sets, h => by
    unfold DualTreeSearch
    exact pairwise_dualTreeSearchLeaf s orig k queries refs _ reference sets h
  | .node start count bound left right, reference, sets, h => by
    have ihL := pairwise_dualTreeSearch s orig k queries refs left
    have ihR := pairwise_dualTreeSearch s orig k queries refs right
    cases reference with
    | leaf rstart rcount rbound =>
      unfold DualTreeSearch
      split
      · exact h
      · exact ihR _ _ (ihL _ sets h)
    | node rstart rcount rbound rleft rright =>
      unfold DualTreeSearch
      split
      · exact h
      · have hleft : ∀ t, ((if s.betterThan (NodeBound s left.bound rright.bound)
            (NodeBound s left.bound rleft.bound) = true then
              DualTreeSearch s orig k queries refs left rleft
                (DualTreeSearch s orig k queries refs left rright sets)
            else
              DualTreeSearch s orig k queries refs left rright
                (DualTreeSearch s orig k queries refs left rleft sets))
            t).Pairwise (fun a b => ranksBefore s orig b a = false) := by
          split
          · exact ihL _ _ (ihL _ sets h)
          · exact ihL _ _ (ihL _ sets h)
        simp only
        split
        · exact ihR _ _ (ihR _ _ hleft)
        · exact ihR _ _ (ihR _ _ hleft)

/-- A remapped column whose entries were ranked is ordered best to worst. -/
theorem bestToWorst_unmapColumn (s : SortPolicy) (orig : Nat → Nat)
    (oldFromNew : List Nat) (cs : CandidateSet)
    (h : cs.Pairwise (fun a b => ranksBefore s orig b a = false)) :
    RowsBestToWorst s (unmapColumn oldFromNew cs) := by
  unfold RowsBestToWorst unmapColumn
  rw [List.pairwise_map]
  refine h.imp ?_
  intro a b hab
  by_contra hb
  have hb' : s.betterThan b.distance a.distance = true := by simpa using hb
  rw [betterThan_imp_ranksBefore s orig hb'] at hab
  exact Bool.noConfusion hab

theorem bestToWorst_of_ranked (s : SortPolicy) (orig : Nat → Nat)
    (cs : CandidateSet)
    (h : cs.Pairwise (fun a b => ranksBefore s orig b a = false)) :
    RowsBestToWorst s cs := by
  refine h.imp ?_
  intro a b hab
  by_contra hb
  have hb' : s.betterThan b.distance a.distance = true := by simpa using hb
  rw [betterThan_imp_ranksBefore s orig hb'] at hab
  exact Bool.noConfusion hab

theorem getD_map_column {α : Type} (l : List α) (f : α → CandidateSet)
    (P : CandidateSet → Prop) (hnil : P []) (h : ∀ a, P (f a)) (j : Nat) :
    P ((l.map f).getD j []) := by
  by_cases hj : j < (l.map f).length
  · rw [List.getD_eq_getElem _ _ hj, List.getElem_map]
    exact h _
  · rw [List.getD_eq_default _ _ (not_lt.1 hj)]
    exact hnil

/-! ## The whole ordering and its two ends -/

/-- When there is room for all the references, all are kept. -/
theorem IsTopK.perm_range {s : SortPolicy} {k n : Nat} {dist : Nat → ℚ}
    {cs : CandidateSet} (h : IsTopK s k dist {i | i < n} cs) (hk : n ≤ k) :
    (cs.map Candidate.index).Perm (List.range n) := by
  have hsub : cs.map Candidate.index ⊆ List.range n := by
    intro i hi
    obtain ⟨c, hc, rfl⟩ := List.mem_map.1 hi
    exact List.mem_range.2 (h.mem c hc).1
  have hsp := List.subperm_of_subset h.nodup hsub
  by_cases hlen : n ≤ (cs.map Candidate.index).length
  · exact hsp.perm_of_length_le (by rw [List.length_range]; exact hlen)
  · exfalso
    have hall : List.range n ⊆ cs.map Candidate.index := by
      intro i hi
      rcases h.rest i (List.mem_range.1 hi) with ⟨c, hc, hci⟩ | ⟨hl, _⟩
      · exact List.mem_map.2 ⟨c, hc, hci⟩
      · rw [List.length_map] at hlen
        omega
    have := (List.subperm_of_subset (List.nodup_range n) hall).length_le
    rw [List.length_range] at this
    exact hlen this

/-- When there are at least `k` references, `k` are kept. -/
theorem IsTopK.length_eq {s : SortPolicy} {k n : Nat} {dist : Nat → ℚ}
    {cs : CandidateSet} (h : IsTopK s k dist {i | i < n} cs) (hk : k ≤ n) :
    cs.length = k := by
  by_contra hne
  have hlt : cs.length < k := lt_of_le_of_ne h.length_le hne
  have hall : List.range n ⊆ cs.map Candidate.index := by
    intro i hi
    rcases h.rest i (List.mem_range.1 hi) with ⟨c, hc, hci⟩ | ⟨hl, _⟩
    · exact List.mem_map.2 ⟨c, hc, hci⟩
    · omega
  have := (List.subperm_of_subset (List.nodup_range n) hall).length_le
  rw [List.length_range, List.length_map] at this
  omega

theorem IsTopK.exists_of_full {s : SortPolicy} {n : Nat} {dist : Nat → ℚ}
    {cs : CandidateSet} (h : IsTopK s n dist {i | i < n} cs) (i : Nat)
    (hi : i < n) : ∃ c ∈ cs, c.index = i := by
  have := (h.perm_range (le_refl n)).mem_iff.2 (List.mem_range.2 hi)
  obtain ⟨c, hc, hci⟩ := List.mem_map.1 this
  exact ⟨c, hc, hci⟩

/-- The first `m` entries of the whole ordering are `m` best. -/
theorem IsTopK.take {s : SortPolicy} {n : Nat} {dist : Nat → ℚ}
    {cs : CandidateSet} (h : IsTopK s n dist {i | i < n} cs) (m : Nat)
    (hm : m ≤ n) : IsTopK s m dist {i | i < n} (cs.take m) := by
  have hlen : cs.length = n := h.length_eq (le_refl n)
  have hsorted := h.sorted
  rw [← List.take_append_drop m cs, List.pairwise_append] at hsorted
  refine ⟨hsorted.1, fun c hc => h.mem c (List.mem_of_mem_take hc), ?_,
    h.nodup.sublist ((List.take_sublist m cs).map _), ?_⟩
  · rw [List.length_take]
    exact min_le_left _ _
  · intro i hi
    obtain ⟨c, hc, hci⟩ := h.exists_of_full i hi
    rw [← List.take_append_drop m cs] at hc
    rcases List.mem_append.1 hc with hc | hc
    · exact Or.inl ⟨c, hc, hci⟩
    · refine Or.inr ⟨by rw [List.length_take, hlen]; exact min_eq_left hm, ?_⟩
      intro x hx
      have := hsorted.2.2 x hx c hc
      rw [(h.mem c (List.mem_of_mem_drop hc)).2, hci] at this
      exact this

/-- The entries after the first `m` of the whole furthest-first ordering,
read backwards, are nearest ones. -/
theorem IsTopK.reverse_drop {n : Nat} {dist : Nat → ℚ} {cs : CandidateSet}
    (h : IsTopK .FurthestNeighborSort n dist {i | i < n} cs) (m : Nat) :
    IsTopK .NearestNeighborSort (n - m) dist {i | i < n}
      (cs.drop m).reverse := by
  have hlen : cs.length = n := h.length_eq (le_refl n)
  have hsorted := h.sorted
  rw [← List.take_append_drop m cs, List.pairwise_append] at hsorted
  refine ⟨?_, ?_, ?_, ?_, ?_⟩
  · rw [List.pairwise_reverse]
    exact hsorted.2.1
  · intro c hc
    exact h.mem c (List.mem_of_mem_drop (List.mem_reverse.1 hc))
  · rw [List.length_reverse, List.length_drop, hlen]
  · rw [List.map_reverse, List.nodup_reverse]
    exact h.nodup.sublist ((List.drop_sublist m cs).map _)
  · intro i hi
    obtain ⟨c, hc, hci⟩ := h.exists_of_full i hi
    rw [← List.take_append_drop m cs] at hc
    rcases List.mem_append.1 hc with hc | hc
    · refine Or.inr ⟨by rw [List.length_reverse, List.length_drop, hlen], ?_⟩
      intro x hx
      have := hsorted.2.2 c hc x (List.mem_reverse.1 hx)
      rw [(h.mem c (List.mem_of_mem_take hc)).2, hci] at this
      exact this
    · exact Or.inl ⟨c, List.mem_reverse.2 hc, hci⟩

/-- From a point of a matrix of pairwise distinct points with distinct
distances, no two points of the matrix are at the same distance. -/
theorem noTies_of_distinct (dim : Nat) (points : Dataset)
    (hdim : IsMatrix dim points) (hnd : points.Nodup)
    (hdd : DistinctDistances points) (j : Nat) (hj : j < points.length) :
    NoTies (points.getD j []) points := by
  have hzero : ∀ a < points.length,
      distance (points.getD j []) (points.getD a []) = 0 → a = j := by
    intro a ha h0
    have hlen : (points.getD j []).length = (points.getD a []).length := by
      rw [hdim _ (getD_mem points j hj), hdim _ (getD_mem points a ha)]
    have heq := eq_of_distance_eq_zero _ _ hlen h0
    rw [List.getD_eq_getElem _ _ hj, List.getD_eq_getElem _ _ ha] at heq
    exact ((List.Nodup.getElem_inj_iff hnd).1 heq).symm
  intro a ha b hb heq
  by_cases haj : a = j
  · subst haj
    rw [distance_self] at heq
    exact (hzero b hb heq.symm).symm
  · by_cases hbj : b = j
    · subst hbj
      rw [distance_self] at heq
      exact absurd (hzero a ha heq) haj
    · by_contra hab
      exact hdd j hj a ha b hb ⟨haj, hbj, hab⟩ heq

/-- The best `k` for furthest search from point `j` of a dataset without ties
from `j`, with `k` below the number of points, are exactly the `k` furthest
points from `j`. -/
theorem isExactFurthest_of_isTopK (points : Dataset) (k j : Nat)
    (hk : k < points.length) (hno : NoTies (points.getD j []) points)
    (col : CandidateSet)
    (h : IsTopK .FurthestNeighborSort k (distFrom points (points.getD j []))
      {i | i < points.length} col) :
    IsExactFurthest points k j col := by
  have hinj := injOn_of_noTies _ points hno
  have hlen : col.length = k := h.length_eq (le_of_lt hk)
  have hrest : ∀ i < points.length, (∀ c ∈ col, c.index ≠ i) →
      ∀ c ∈ col,
        distance (points.getD j []) (points.getD i []) < c.distance := by
    intro i hi hnot c hc
    rcases h.rest i hi with ⟨x, hx, hxi⟩ | ⟨_, hall⟩
    · exact absurd hxi (hnot x hx)
    · have hle := hall c hc
      simp only [SortPolicy.betterThan, decide_eq_false_iff_not, not_lt] at hle
      refine lt_of_le_of_ne hle ?_
      intro heq
      apply hnot c hc
      apply hinj (h.mem c hc).1 hi
      rw [← (h.mem c hc).2]
      exact heq.symm
  have hmiss : ∃ i < points.length, ∀ c ∈ col, c.index ≠ i := by
    by_contra hno
    push_neg at hno
    have hall : List.range points.length ⊆ col.map Candidate.index := by
      intro i hi
      obtain ⟨c, hc, hci⟩ := hno i (List.mem_range.1 hi)
      exact List.mem_map.2 ⟨c, hc, hci⟩
    have := (List.subperm_of_subset (List.nodup_range _) hall).length_le
    rw [List.length_range, List.length_map] at this
    omega
  refine ⟨hlen, ?_, ?_, hrest⟩
  · exact (h.strict hinj).imp (fun hab => (betterThan_furthest _ _).1 hab)
  · intro c hc
    refine ⟨(h.mem c hc).1, ?_, (h.mem c hc).2⟩
    intro hcj
    obtain ⟨i, hi, hnot⟩ := hmiss
    have h1 := hrest i hi hnot c hc
    have h2 : c.distance = 0 := by
      rw [(h.mem c hc).2, hcj]
      exact distance_self _
    have h3 := distance_nonneg (points.getD j []) (points.getD i [])
    linarith

theorem noTies_all_of_distinct (dim : Nat) (points : Dataset)
    (hdim : IsMatrix dim points) (hnd : points.Nodup)
    (hdd : DistinctDistances points) : ∀ q ∈ points, NoTies q points := by
  intro q hq
  obtain ⟨j, hj, rfl⟩ := List.getElem_of_mem hq
  rw [← List.getD_eq_getElem _ [] hj]
  exact noTies_of_distinct dim points hdim hnd hdd j hj

/-- Across a sharp cut the `k` furthest and the `n - k` nearest partition the
references. -/
theorem jointlyPartition_of_isTopK (k n : Nat) (dist : Nat → ℚ)
    (far : Nat → Bool) (hfar : ((List.range n).filter far).length = k)
    (hsep : ∀ a < n, ∀ b < n, far a = true → far b = false → dist b < dist a)
    (furthest nearest : CandidateSet)
    (hF : IsTopK .FurthestNeighborSort k dist {i | i < n} furthest)
    (hN : IsTopK .NearestNeighborSort (n - k) dist {i | i < n} nearest) :
    JointlyPartition n furthest nearest := by
  have hkn : k ≤ n := by
    rw [← hfar]
    exact le_trans (List.length_filter_le _ _) (by rw [List.length_range])
  have hnear : ((List.range n).filter (fun i => !far i)).length = n - k := by
    have := List.length_eq_length_filter_add (l := List.range n) far
    rw [List.length_range, hfar] at this
    omega
  have lenF : furthest.length = k := hF.length_eq hkn
  have lenN : nearest.length = n - k := hN.length_eq (Nat.sub_le n k)
  -- every entry of a column of as many entries as there are references on
  -- one side of the cut is on that side
  have side : ∀ (s : SortPolicy) (m : Nat) (p : Nat → Bool) (cs : CandidateSet),
      IsTopK s m dist {i | i < n} cs → cs.length = m →
      ((List.range n).filter p).length = m →
      (∀ a b, p a = true → p b = false → a < n → b < n →
        s.betterThan (dist a) (dist b) = true) →
      ∀ c ∈ cs, p c.index = true := by
    intro s m p cs hcs hlen hcount hbetter c hc
    by_contra hpc
    have hpc' : p c.index = false := by simpa using hpc
    have hex : ∃ a ∈ (List.range n).filter p, a ∉ cs.map Candidate.index := by
      by_contra hall
      push_neg at hall
      have hsub : (List.range n).filter p ⊆ cs.map Candidate.index := hall
      have hsp := List.subperm_of_subset
        ((List.nodup_range n).filter _) hsub
      have hperm := hsp.perm_of_length_le
        (by rw [List.length_map, hlen, hcount])
      have : c.index ∈ (List.range n).filter p :=
        hperm.mem_iff.2 (List.mem_map_of_mem _ hc)
      rw [List.mem_filter] at this
      rw [this.2] at hpc'
      exact Bool.noConfusion hpc'
    obtain ⟨a, ha, hna⟩ := hex
    rw [List.mem_filter, List.mem_range] at ha
    rcases hcs.rest a ha.1 with ⟨x, hx, hxa⟩ | ⟨_, hworse⟩
    · exact hna (List.mem_map.2 ⟨x, hx, hxa⟩)
    · have h1 := hworse c hc
      rw [(hcs.mem c hc).2, hbetter a c.index ha.2 hpc' ha.1 (hcs.mem c hc).1]
        at h1
      exact Bool.noConfusion h1
  have hFfar : ∀ c ∈ furthest, far c.index = true := by
    intro c hc
    exact side .FurthestNeighborSort k far furthest hF lenF hfar (by
      intro a b ha hb han hbn
      rw [betterThan_furthest]
      exact hsep a han b hbn ha hb) c hc
  have hNnear : ∀ c ∈ nearest, far c.index = false := by
    intro c hc
    have := side .NearestNeighborSort (n - k) (fun i => !far i) nearest hN
      lenN hnear (by
        intro a b ha hb han hbn
        rw [betterThan_nearest]
        exact hsep b hbn a han (by simpa using hb) (by simpa using ha)) c hc
    simpa using this
  constructor
  · have hnd : (furthest.map Candidate.index ++
        nearest.map Candidate.index).Nodup := by
      rw [List.nodup_append]
      refine ⟨hF.nodup, hN.nodup, ?_⟩
      intro i hi hi'
      obtain ⟨c, hc, rfl⟩ := List.mem_map.1 hi
      obtain ⟨c', hc', hcc⟩ := List.mem_map.1 hi'
      have h1 := hFfar c hc
      have h2 := hNnear c' hc'
      rw [hcc, h1] at h2
      exact Bool.noConfusion h2
    have hsub : furthest.map Candidate.index ++ nearest.map Candidate.index ⊆
        List.range n := by
      intro i hi
      rw [List.mem_range]
      rcases List.mem_append.1 hi with h | h
      · obtain ⟨c, hc, rfl⟩ := List.mem_map.1 h
        exact (hF.mem c hc).1
      · obtain ⟨c, hc, rfl⟩ := List.mem_map.1 h
        exact (hN.mem c hc).1
    refine (List.subperm_of_subset hnd hsub).perm_of_length_le ?_
    rw [List.length_range, List.length_append, List.length_map,
      List.length_map, lenF, lenN]
    omega
  · unfold RowsBestToWorst
    rw [List.pairwise_append]
    refine ⟨hF.sorted, ?_, ?_⟩
    · rw [List.pairwise_reverse]
      refine hN.sorted.imp ?_
      intro a b hab
      simpa [SortPolicy.betterThan] using hab
    · intro c hc c' hc'
      have hc'' := List.mem_reverse.1 hc'
      have h := hsep c.index (hF.mem c hc).1 c'.index (hN.mem c' hc'').1
        (hFfar c hc) (hNnear c' hc'')
      rw [← (hF.mem c hc).2, ← (hN.mem c' hc'').2] at h
      simp only [SortPolicy.betterThan, decide_eq_false_iff_not, not_lt]
      exact le_of_lt h

/-! ## The claims on the search engine -/

theorem getD_neighbors (out : List CandidateSet) (j : Nat) :
    (neighbors out).getD j [] = (out.getD j []).map Candidate.index := by
  unfold neighbors
  by_cases hj : j < out.length
  · rw [List.getD_eq_getElem _ _ (by rw [List.length_map]; exact hj),
      List.getElem_map, List.getD_eq_getElem _ _ hj]
  · rw [List.getD_eq_default _ _ (by rw [List.length_map]; omega),
      List.getD_eq_default _ _ (by omega)]
    rfl

/-- Two exact outputs have the same column of neighbours for a query without
ties. -/
theorem IsExactOutput.neighbors_eq_of_noTies {s : SortPolicy} {k : Nat}
    {queries refs : Dataset} {out out' : List CandidateSet}
    (h : IsExactOutput s k queries refs out)
    (h' : IsExactOutput s k queries refs out') (j : Nat)
    (hj : j < queries.length) (hq : NoTies (queries.getD j []) refs) :
    (neighbors out).getD j [] = (neighbors out').getD j [] := by
  rw [getD_neighbors, getD_neighbors,
    (h.2 j hj).unique (h'.2 j hj) (injOn_of_noTies _ refs hq)]

/-- Apart from references at the same distance the modes agree: the dual-tree
and the single-tree furthest-neighbour searches return the distance matrix of
the naive search, with a separate query set and with the reference set as its
own query set, whether or not there are ties; and they return the column of
the neighbour matrix of the naive search for every query point from which no
two reference points are at the same distance. -/
theorem tree_search_eq_naive_without_ties (k : Nat) (queries refs : Dataset)
    (queryTree refTree : BuiltTree) (hqt : queryTree.IsTreeOf queries)
    (hrt : refTree.IsTreeOf refs) :
    (distances (ComputeNeighborsDual .FurthestNeighborSort k queryTree
        refTree) =
        distances (ComputeNeighborsNaive .FurthestNeighborSort k queries
          refs) ∧
      distances (ComputeNeighborsSingle .FurthestNeighborSort k queries
        refTree) =
        distances (ComputeNeighborsNaive .FurthestNeighborSort k queries
          refs) ∧
      ∀ j < queries.length, NoTies (queries.getD j []) refs →
        (neighbors (ComputeNeighborsDual .FurthestNeighborSort k queryTree
          refTree)).getD j [] =
          (neighbors (ComputeNeighborsNaive .FurthestNeighborSort k queries
            refs)).getD j [] ∧
        (neighbors (ComputeNeighborsSingle .FurthestNeighborSort k queries
          refTree)).getD j [] =
          (neighbors (ComputeNeighborsNaive .FurthestNeighborSort k queries
            refs)).getD j []) ∧
    (distances (ComputeNeighborsDualSelf .FurthestNeighborSort k refTree) =
        distances (ComputeNeighborsNaive .FurthestNeighborSort k refs refs) ∧
      distances (ComputeNeighborsSingleSelf .FurthestNeighborSort k refTree) =
        distances (ComputeNeighborsNaive .FurthestNeighborSort k refs refs) ∧
      ∀ j < refs.length, NoTies (refs.getD j []) refs →
        (neighbors (ComputeNeighborsDualSelf .FurthestNeighborSort k
          refTree)).getD j [] =
          (neighbors (ComputeNeighborsNaive .FurthestNeighborSort k refs
            refs)).getD j [] ∧
        (neighbors (ComputeNeighborsSingleSelf .FurthestNeighborSort k
          refTree)).getD j [] =
          (neighbors (ComputeNeighborsNaive .FurthestNeighborSort k refs
            refs)).getD j []) := by
  have hN := isExactOutput_naive .FurthestNeighborSort k queries refs
  have hD := isExactOutput_dual .FurthestNeighborSort k queries refs queryTree
    refTree hqt hrt
  have hS := isExactOutput_single .FurthestNeighborSort k queries refs refTree
    hrt
  have hN' := isExactOutput_naive .FurthestNeighborSort k refs refs
  have hD' := isExactOutput_dual .FurthestNeighborSort k refs refs refTree
    refTree hrt hrt
  have hS' := isExactOutput_singleSelf .FurthestNeighborSort k refs refTree hrt
  unfold ComputeNeighborsNaive ComputeNeighborsDualSelf
  exact ⟨⟨hD.distances_matrix_eq hN, hS.distances_matrix_eq hN,
      fun j hj hq => ⟨hD.neighbors_eq_of_noTies hN j hj hq,
        hS.neighbors_eq_of_noTies hN j hj hq⟩⟩,
    ⟨hD'.distances_matrix_eq hN', hS'.distances_matrix_eq hN',
      fun j hj hq => ⟨hD'.neighbors_eq_of_noTies hN' j hj hq,
        hS'.neighbors_eq_of_noTies hN' j hj hq⟩⟩⟩

/-- On the references `tiedSelfReferences`, two of which are at the same
distance from point 0, the tree searches with `k = 2` return the distance
matrix of the naive search, and for point 1, from which there is no tie, its
column of the neighbour matrix. -/
theorem tree_search_eq_naive_without_ties_witness :
    distances (ComputeNeighborsDualSelf .FurthestNeighborSort 2
      tiedSelfTree) =
      distances (ComputeNeighborsNaive .FurthestNeighborSort 2
        tiedSelfReferences tiedSelfReferences) ∧
    distances (ComputeNeighborsSingleSelf .FurthestNeighborSort 2
      tiedSelfTree) =
      distances (ComputeNeighborsNaive .FurthestNeighborSort 2
        tiedSelfReferences tiedSelfReferences) ∧
    (neighbors (ComputeNeighborsDualSelf .FurthestNeighborSort 2
      tiedSelfTree)).getD 1 [] =
      (neighbors (ComputeNeighborsNaive .FurthestNeighborSort 2
        tiedSelfReferences tiedSelfReferences)).getD 1 [] ∧
    (neighbors (ComputeNeighborsSingleSelf .FurthestNeighborSort 2
      tiedSelfTree)).getD 1 [] =
      (neighbors (ComputeNeighborsNaive .FurthestNeighborSort 2
        tiedSelfReferences tiedSelfReferences)).getD 1 [] :=
  have h := (tree_search_eq_naive_without_ties 2 tiedSelfReferences
    tiedSelfReferences tiedSelfTree tiedSelfTree (by decide!) (by decide!)).2
  ⟨h.1, h.2.1, h.2.2 1 (by decide) (by decide!)⟩

/-- Claim C3: on a matrix of pairwise distinct points, from each of which the
distances to the other points are pairwise distinct, used as its own query
set, and for `k` at most `n - 1`, column `j` of the furthest-neighbour search
(naive, single-tree and dual-tree) holds exactly the `k` points furthest from
point `j`: `k` rows in strictly decreasing order of distance from row 0 on,
never point `j`, each with its squared distance from point `j`, and every
point left out is less far than every row. -/
theorem furthest_neighbors_exact (dim k : Nat) (points : Dataset)
    (refTree : BuiltTree) (hdim : IsMatrix dim points) (hnd : points.Nodup)
    (hdd : DistinctDistances points) (hk : k ≤ points.length - 1)
    (hrt : refTree.IsTreeOf points) (j : Nat) (hj : j < points.length) :
    IsExactFurthest points k j
      ((ComputeNeighborsNaive .FurthestNeighborSort k points points).getD j
        []) ∧
    IsExactFurthest points k j
      ((ComputeNeighborsSingleSelf .FurthestNeighborSort k refTree).getD j
        []) ∧
    IsExactFurthest points k j
      ((ComputeNeighborsDualSelf .FurthestNeighborSort k refTree).getD j
        []) := by
  have hno := noTies_of_distinct dim points hdim hnd hdd j hj
  have hklt : k < points.length := by omega
  have hN := isExactOutput_naive .FurthestNeighborSort k points points
  have hS := isExactOutput_singleSelf .FurthestNeighborSort k points refTree
    hrt
  have hD := isExactOutput_dual .FurthestNeighborSort k points points refTree
    refTree hrt hrt
  unfold ComputeNeighborsNaive ComputeNeighborsDualSelf
  exact ⟨isExactFurthest_of_isTopK points k j hklt hno _ (hN.2 j hj),
    isExactFurthest_of_isTopK points k j hklt hno _ (hS.2 j hj),
    isExactFurthest_of_isTopK points k j hklt hno _ (hD.2 j hj)⟩

/-- The witness of C3: on the eleven points of `exhaustive_synthetic_test`
with `k = 10`, the three modes give exactly the table the test requires, and
column 0 holds exactly the ten points furthest from point 0. -/
theorem furthest_neighbors_exact_witness :
    neighbors (ComputeNeighborsNaive .FurthestNeighborSort 10 exhaustiveData
      exhaustiveData) = expectedNeighbors ∧
    distances (ComputeNeighborsNaive .FurthestNeighborSort 10 exhaustiveData
      exhaustiveData) = expectedDistances ∧
    neighbors (ComputeNeighborsSingleSelf .FurthestNeighborSort 10
      exhaustiveTree) = expectedNeighbors ∧
    distances (ComputeNeighborsSingleSelf .FurthestNeighborSort 10
      exhaustiveTree) = expectedDistances ∧
    neighbors (ComputeNeighborsDualSelf .FurthestNeighborSort 10
      exhaustiveTree) = expectedNeighbors ∧
    distances (ComputeNeighborsDualSelf .FurthestNeighborSort 10
      exhaustiveTree) = expectedDistances ∧
    IsExactFurthest exhaustiveData 10 0
      ((ComputeNeighborsNaive .FurthestNeighborSort 10 exhaustiveData
        exhaustiveData).getD 0 []) :=
  ⟨by decide!, by decide!, by decide!, by decide!, by decide!, by decide!,
   (furthest_neighbors_exact 1 10 exhaustiveData exhaustiveTree (by decide!)
    (by decide!) (by decide!) (by decide!) (by decide!) 0 (by decide!)).1⟩

/-- Counterexample to C9: two reference points at the same distance from the
query, `k = 1`.  The furthest-neighbour search with `k = 1` and the
nearest-neighbour search with `n - k = 1` both return the point of index 0
(the lower index wins the tie in both), so the two results are not disjoint
and the point of index 1 is in neither. -/
theorem furthest_nearest_overlap_on_tie :
    (0 < 1 ∧ 1 < equidistantReferences.length) ∧
    neighbors (ComputeNeighborsNaive .FurthestNeighborSort 1 tiedQueries
      equidistantReferences) = [[0]] ∧
    neighbors (ComputeNeighborsNaive .NearestNeighborSort
      (equidistantReferences.length - 1) tiedQueries equidistantReferences) =
      [[0]] ∧
    ¬ JointlyPartition equidistantReferences.length
      ((ComputeNeighborsNaive .FurthestNeighborSort 1 tiedQueries
        equidistantReferences).getD 0 [])
      ((ComputeNeighborsNaive .NearestNeighborSort
        (equidistantReferences.length - 1) tiedQueries
        equidistantReferences).getD 0 []) ∧
    ¬ SharpCut 1 (tiedQueries.getD 0 []) equidistantReferences := by
  decide!

/-- Claim C9, amended: for a query and a `k` such that no reference among the
`k` furthest is at the same distance from the query as a reference among the
`n - k` nearest (the cut is sharp; references at the same distance on one side
of it are allowed), the `k` neighbours of the exact furthest-neighbour search
and the `n - k` neighbours of the exact nearest-neighbour search are disjoint
and together hold every reference point exactly once, and the furthest ones
followed by the nearest ones read backwards are an ordering of all the
references by distance; so for the naive, the single-tree and the dual-tree
search. -/
theorem furthest_nearest_partition (k : Nat) (queries refs : Dataset) (j : Nat)
    (hj : j < queries.length) (hcut : SharpCut k (queries.getD j []) refs) :
    JointlyPartition refs.length
      ((ComputeNeighborsNaive .FurthestNeighborSort k queries refs).getD j
        [])
      ((ComputeNeighborsNaive .NearestNeighborSort (refs.length - k) queries
        refs).getD j []) ∧
    (∀ queryTree refTree : BuiltTree, queryTree.IsTreeOf queries →
      refTree.IsTreeOf refs →
      JointlyPartition refs.length
        ((ComputeNeighborsSingle .FurthestNeighborSort k queries refTree).getD
          j [])
        ((ComputeNeighborsSingle .NearestNeighborSort (refs.length - k)
          queries refTree).getD j []) ∧
      JointlyPartition refs.length
        ((ComputeNeighborsDual .FurthestNeighborSort k queryTree refTree).getD
          j [])
        ((ComputeNeighborsDual .NearestNeighborSort (refs.length - k)
          queryTree refTree).getD j [])) := by
  have hfar : ∃ far : Nat → Bool,
      ((List.range refs.length).filter far).length = k ∧
      ∀ a < refs.length, ∀ b < refs.length, far a = true → far b = false →
        distFrom refs (queries.getD j []) b <
          distFrom refs (queries.getD j []) a := by
    rcases hcut with h0 | ⟨i, _, hi⟩
    · refine ⟨fun _ => false, ?_, ?_⟩
      · rw [h0]
        simp
      · intro a _ b _ ha
        exact Bool.noConfusion ha
    · refine ⟨_, hi, ?_⟩
      intro a _ b _ ha hb
      simp only [decide_eq_true_eq, decide_eq_false_iff_not, not_le] at ha hb
      exact lt_of_lt_of_le hb ha
  obtain ⟨far, hcount, hsep⟩ := hfar
  have key : ∀ out : SortPolicy → Nat → List CandidateSet,
      (∀ s m, IsExactOutput s m queries refs (out s m)) →
      JointlyPartition refs.length
        ((out .FurthestNeighborSort k).getD j [])
        ((out .NearestNeighborSort (refs.length - k)).getD j []) := by
    intro out hout
    exact jointlyPartition_of_isTopK k refs.length _ far hcount hsep _ _
      ((hout _ _).2 j hj) ((hout _ _).2 j hj)
  refine ⟨?_, ?_⟩
  · unfold ComputeNeighborsNaive
    exact key (fun s m => NaiveSearch s m queries refs)
      (fun s m => isExactOutput_naive s m queries refs)
  · intro queryTree refTree hqt hrt
    exact ⟨key (fun s m => ComputeNeighborsSingle s m queries refTree)
        (fun s m => isExactOutput_single s m queries refs refTree hrt),
      key (fun s m => ComputeNeighborsDual s m queryTree refTree)
        (fun s m => isExactOutput_dual s m queries refs queryTree refTree hqt
          hrt)⟩

/-- An instance of C9 with a tie on one side of the cut: of the references
-3, 3, 2, 1, 1/2 the two furthest from the origin are at the same distance
from it and the three others are nearer, so the cut after them is sharp, and
the 2 furthest and the 3 nearest partition the references. -/
theorem furthest_nearest_partition_witness :
    ¬ NoTies (tiedQueries.getD 0 []) tiedFurthestReferences ∧
    neighbors (ComputeNeighborsNaive .FurthestNeighborSort 2 tiedQueries
      tiedFurthestReferences) = [[0, 1]] ∧
    neighbors (ComputeNeighborsNaive .NearestNeighborSort 3 tiedQueries
      tiedFurthestReferences) = [[4, 3, 2]] ∧
    JointlyPartition tiedFurthestReferences.length
      ((ComputeNeighborsNaive .FurthestNeighborSort 2 tiedQueries
        tiedFurthestReferences).getD 0 [])
      ((ComputeNeighborsNaive .NearestNeighborSort
        (tiedFurthestReferences.length - 2) tiedQueries
        tiedFurthestReferences).getD 0 []) :=
  ⟨by decide!, by decide!, by decide!,
   (furthest_nearest_partition 2 tiedQueries tiedFurthestReferences 0
    (by decide) (by decide!)).1⟩

end NeighborSearch
